import Mathlib

/-!
# Layered costmap: inflation layer and snapshot packing

A shallow embedding of `Source/CostMap/Layers/InflationLayer.cpp` and
`Source/CostMap/CostmapWrapper.cpp`.

Conventions of the embedding

* Cost bytes (`unsigned char`) are naturals below 256; cell coordinates, indices
  and sizes (`unsigned int`) are naturals; the window arguments of `updateCosts`
  (`int`) are integers, and the two places where the source leaves the range of
  the machine type on ordinary inputs are kept: `size_x - 1` on an `unsigned int`
  (`usub1`) and the window expansion by the radius on an `int` (`toInt32`).
* The kernel distances are the doubles `hypot(i, j)` for cell offsets `i, j`,
  taken as the exact roots. Such a double is only ever compared, with another one
  or with the integer radius, so it is stored as the natural under the root:
  `hypot i j = i*i + j*j`, and `distance > cell_inflation_radius_` reads
  `r * r < distance`.
* `computeCost` (exponential decay, declared in the layer's header) is a
  parameter `computeCost : Nat → Nat` from a stored distance to a cost byte.
* Every array access is checked: a read or write outside the buffer, or through
  a `NULL` table, ends the run with a `Fault`; so does the failed
  `assert (inflation_queue_.empty ())`.
* `std::priority_queue` leaves the order among entries of equal distance open:
  the `n`-th pop takes the `tie n`-th least-distance entry, for an arbitrary
  `tie : Nat → Nat`, so a statement for every `tie` covers every heap order.
* The `while` loop of `updateCosts` runs on the fuel `popBound`, which
  `inflate_total` shows to be enough.
* Other doubles (bounds, radii, resolution) are exact rationals.
-/

namespace NS_CostMap

/-- Modelled from the spec: the no-information cost byte of the cost-values header. -/
def NO_INFORMATION : Nat := 255

/-- Modelled from the spec: the lethal cost byte of the cost-values header. -/
def LETHAL_OBSTACLE : Nat := 254

/-- Modelled from the spec: the inscribed-inflated cost byte of the cost-values header. -/
def INSCRIBED_INFLATED_OBSTACLE : Nat := 253

/-- What ends a run early: an access the C++ program may not make. -/
inductive Fault where
  | nullKernel
  | kernelOutOfBounds
  | nullSeen
  | seenOutOfBounds
  | masterOutOfBounds
  | queueNotEmpty
  | tableOutOfBounds
  | outOfFuel
deriving DecidableEq, Repr

/-- Modelled from the spec: the grid class `Costmap2D` (its header is not among the
sources): sizes in cells, resolution, origin and the row-major byte buffer. -/
structure Costmap2D where
  size_x_ : Nat
  size_y_ : Nat
  resolution_ : ℚ
  origin_x_ : ℚ
  origin_y_ : ℚ
  costmap_ : List Nat
deriving DecidableEq, Repr

/-- Modelled from the spec: `Costmap2D::getIndex`, row-major `(x, y) → y*size_x + x`. -/
def Costmap2D.getIndex (g : Costmap2D) (mx my : Nat) : Nat := my * g.size_x_ + mx

/-- Modelled from the spec: `Costmap2D::getCost`, the byte at cell `(mx, my)`. -/
def Costmap2D.getCost (g : Costmap2D) (mx my : Nat) : Option Nat := g.costmap_[g.getIndex mx my]?

/-- A grid as the program holds it: the buffer has `size_x*size_y` bytes, and the
cell count and each size fit an `int`, so that no index or size conversion of the
embedded methods leaves its machine type. -/
def Costmap2D.WellFormed (g : Costmap2D) : Prop :=
  g.costmap_.length = g.size_x_ * g.size_y_ ∧ g.size_x_ * g.size_y_ < 2147483648 ∧
    g.size_x_ < 2147483648 ∧ g.size_y_ < 2147483648

instance (g : Costmap2D) : Decidable g.WellFormed := by
  unfold Costmap2D.WellFormed; infer_instance

/-- Modelled from the spec: the queue entry `CellData` of the layer's header,
`(distance, index, mx, my, src_x, src_y)`. -/
structure CellData where
  distance_ : Nat
  index_ : Nat
  x_ : Nat
  y_ : Nat
  src_x_ : Nat
  src_y_ : Nat
deriving DecidableEq, Repr

/-- The members of `InflationLayer` that the embedded methods read or write. -/
structure InflationLayer where
  enabled_ : Bool
  need_reinflation_ : Bool
  inflation_radius_ : ℚ
  weight_ : ℚ
  inscribed_radius_ : ℚ
  resolution_ : ℚ
  cell_inflation_radius_ : Nat
  cached_cell_inflation_radius_ : Nat
  seen_ : Option (List Bool)
  seen_size_ : Nat
  cached_costs_ : Option (List (List Nat))
  cached_distances_ : Option (List (List Nat))
  last_min_x_ : ℚ
  last_min_y_ : ℚ
  last_max_x_ : ℚ
  last_max_y_ : ℚ
  inflation_queue_ : List CellData
deriving DecidableEq, Repr

/-- The value of `std::numeric_limits<float>::max ()`, `2^128 - 2^104`. -/
def FLT_MAX : ℚ := 340282346638528859811704183484516925440

/-- The double `hypot (i, j)`, stored as the natural under the root. -/
def hypot (i j : Nat) : Nat := i * i + j * j

/-- The value `|a - b|` of two cell coordinates. -/
def absDiff (a b : Nat) : Nat := if a ≤ b then b - a else a - b

/-- The `unsigned int` value of `n - 1`: `2^32 - 1` at `0`. -/
def usub1 (n : Nat) : Nat := if n = 0 then 4294967295 else n - 1

/-- The `int` that a 32-bit two's complement machine keeps of `z`. -/
def toInt32 (z : Int) : Int := (z + 2147483648) % 4294967296 - 2147483648

/-- Entry `[i][j]` of a kernel table; `NULL` tables and missing entries fault. -/
def tableAt (t : Option (List (List Nat))) (i j : Nat) : Except Fault Nat :=
  match t with
  | none => .error .nullKernel
  | some rows =>
    match rows[i]? with
    | none => .error .kernelOutOfBounds
    | some row =>
      match row[j]? with
      | none => .error .kernelOutOfBounds
      | some v => .ok v

/-- Modelled from the spec: `distanceLookup` of the layer's header,
`cached_distances[|mx-src_x|][|my-src_y|]`. -/
def distanceLookup (L : InflationLayer) (mx my src_x src_y : Nat) : Except Fault Nat :=
  tableAt L.cached_distances_ (absDiff mx src_x) (absDiff my src_y)

/-- Modelled from the spec: `costLookup` of the layer's header,
`cached_costs[|mx-src_x|][|my-src_y|]`. -/
def costLookup (L : InflationLayer) (mx my src_x src_y : Nat) : Except Fault Nat :=
  tableAt L.cached_costs_ (absDiff mx src_x) (absDiff my src_y)

/-- The constructor `InflationLayer::InflationLayer ()`; the members it leaves
uninitialised take the values `onInitialize` gives them. -/
def InflationLayer.new : InflationLayer :=
  { enabled_ := true, need_reinflation_ := false,
    inflation_radius_ := 0, weight_ := 0, inscribed_radius_ := 0, resolution_ := 0,
    cell_inflation_radius_ := 0, cached_cell_inflation_radius_ := 0,
    seen_ := none, seen_size_ := 0, cached_costs_ := none, cached_distances_ := none,
    last_min_x_ := -FLT_MAX, last_min_y_ := -FLT_MAX,
    last_max_x_ := FLT_MAX, last_max_y_ := FLT_MAX,
    inflation_queue_ := [] }

/-- The `unsigned int` value of `a + b`, for `a` and `b` below `2^32`. -/
def uadd (a b : Nat) : Nat := if a + b < 4294967296 then a + b else a + b - 4294967296

/-- The freeing loop of `deleteKernels` over one table reads the row pointers
`0 .. cached_cell_inflation_radius_ + 1` (an `unsigned int` sum): they must be
rows of the table. -/
def rowsReadable (cached : Nat) (t : Option (List (List Nat))) : Bool :=
  match t with
  | none => true
  | some rows => decide (uadd cached 1 < rows.length)

/-- `InflationLayer::deleteKernels`: each table that is not `NULL` is freed row by
row and set to `NULL`. -/
def deleteKernels (L : InflationLayer) : Except Fault InflationLayer :=
  if rowsReadable L.cached_cell_inflation_radius_ L.cached_distances_ = false then
    .error .kernelOutOfBounds
  else if rowsReadable L.cached_cell_inflation_radius_ L.cached_costs_ = false then
    .error .kernelOutOfBounds
  else .ok { L with cached_distances_ := none, cached_costs_ := none }

/-- The distance table that `computeCaches` allocates and fills for `n` rows and
columns: `cached_distances_[i][j] = hypot (i, j)`. -/
def kernelDistances (n : Nat) : List (List Nat) :=
  (List.range n).map fun i => (List.range n).map fun j => hypot i j

/-- The kernel costs that `computeCaches` fills for `n` rows and columns:
`cached_costs_[i][j] = computeCost (cached_distances_[i][j])`. -/
def kernelCosts (computeCost : Nat → Nat) (n : Nat) : List (List Nat) :=
  (List.range n).map fun i => (List.range n).map fun j => computeCost (hypot i j) % 256

/-- The inner loop of the cost fill: `costs[j] = computeCost (dists[j])` for the
listed `j`. -/
def fillCostRow (computeCost : Nat → Nat) (dists : List Nat) :
    List Nat → List Nat → Except Fault (List Nat)
  | [], costs => .ok costs
  | j :: js, costs =>
    match dists[j]? with
    | none => .error .kernelOutOfBounds
    | some d =>
      if j < costs.length then fillCostRow computeCost dists js (costs.set j (computeCost d % 256))
      else .error .kernelOutOfBounds

/-- The outer loop of the cost fill over the listed rows `i`, columns `0..n-1`. -/
def fillCosts (computeCost : Nat → Nat) (n : Nat) (dists : List (List Nat)) :
    List Nat → List (List Nat) → Except Fault (List (List Nat))
  | [], costs => .ok costs
  | i :: is, costs =>
    match dists[i]?, costs[i]? with
    | some drow, some crow =>
      match fillCostRow computeCost drow (List.range n) crow with
      | .error e => .error e
      | .ok crow' => fillCosts computeCost n dists is (costs.set i crow')
    | _, _ => .error .kernelOutOfBounds

/-- `InflationLayer::computeCaches`. The sums `cell_inflation_radius_ + 2` and
`cell_inflation_radius_ + 1` are `unsigned int` sums: `size` row pointers and
`size` entries per row are allocated, and every loop runs over `0 .. last`. When
`last` is not below `size` (the sum `r + 2` wrapped to 0, and the test
`i <= 4294967295` never fails) the allocation loop assigns outside the row
pointers; otherwise `last + 1 = size` and the loops fill every entry. A freshly
allocated cost row holds zeros until the fill loop overwrites it. -/
def computeCaches (computeCost : Nat → Nat) (L : InflationLayer) : Except Fault InflationLayer :=
  if L.cell_inflation_radius_ = 0 then .ok L
  else
    let r := L.cell_inflation_radius_
    let size := uadd r 2
    let last := uadd r 1
    let rebuilt : Except Fault InflationLayer :=
      if r ≠ L.cached_cell_inflation_radius_ then
        match deleteKernels L with
        | .error e => .error e
        | .ok L0 =>
          if size ≤ last then .error .kernelOutOfBounds
          else
            .ok { L0 with
              cached_costs_ := some (List.replicate size (List.replicate size 0)),
              cached_distances_ := some (kernelDistances size),
              cached_cell_inflation_radius_ := r }
      else .ok L
    match rebuilt with
    | .error e => .error e
    | .ok L1 =>
      match L1.cached_distances_, L1.cached_costs_ with
      | some dists, some costs =>
        match fillCosts computeCost (last + 1) dists (List.range (last + 1)) costs with
        | .error e => .error e
        | .ok costs' => .ok { L1 with cached_costs_ := some costs' }
      | _, _ => .error .nullKernel

/-- The least distance among the entries of a queue (`0` for the empty queue). -/
def leastDistance : List CellData → Nat
  | [] => 0
  | [c] => c.distance_
  | c :: cs => min c.distance_ (leastDistance cs)

/-- Modelled from the spec: `inflation_queue_.top ()` under the header's ordering,
smallest distance first; `k` picks among the entries of least distance (the
`k`-th of them, the first when there are fewer). -/
def top (k : Nat) (q : List CellData) : Option CellData :=
  let front := q.filter fun c => c.distance_ = leastDistance q
  match front[k]? with
  | some c => some c
  | none => front.head?

/-- `InflationLayer::enqueue`. -/
def enqueue (L : InflationLayer) (index mx my src_x src_y : Nat) : Except Fault InflationLayer :=
  match L.seen_ with
  | none => .error .nullSeen
  | some seen =>
    match seen[index]? with
    | none => .error .seenOutOfBounds
    | some true => .ok L
    | some false =>
      match distanceLookup L mx my src_x src_y with
      | .error e => .error e
      | .ok distance =>
        if L.cell_inflation_radius_ * L.cell_inflation_radius_ < distance then .ok L
        else .ok { L with inflation_queue_ :=
                      ⟨distance, index, mx, my, src_x, src_y⟩ :: L.inflation_queue_ }

/-- The seeding loop over `i` of `updateCosts`, for one row `j`. -/
def seedRow (master : List Nat) (size_x j : Nat) :
    List Nat → InflationLayer → Except Fault InflationLayer
  | [], L => .ok L
  | i :: is, L =>
    match master[j * size_x + i]? with
    | none => .error .masterOutOfBounds
    | some cost =>
      if cost = LETHAL_OBSTACLE then
        match enqueue L (j * size_x + i) i j i j with
        | .error e => .error e
        | .ok L' => seedRow master size_x j is L'
      else seedRow master size_x j is L

/-- The seeding loop over `j` of `updateCosts`. -/
def seedRows (master : List Nat) (size_x : Nat) (cols : List Nat) :
    List Nat → InflationLayer → Except Fault InflationLayer
  | [], L => .ok L
  | j :: js, L =>
    match seedRow master size_x j cols L with
    | .error e => .error e
    | .ok L' => seedRows master size_x cols js L'

/-- The value the wavefront stores over `old_cost` for the kernel cost `cost`. -/
def writeRule (old_cost cost : Nat) : Nat :=
  if old_cost = NO_INFORMATION ∧ INSCRIBED_INFLATED_OBSTACLE ≤ cost then cost
  else max old_cost cost

/-- The four guarded `enqueue` calls at the end of one loop iteration. -/
def enqueueNeighbours (L : InflationLayer) (size_x size_y index mx my sx sy : Nat) :
    Except Fault InflationLayer :=
  match (if 0 < mx then enqueue L (index - 1) (mx - 1) my sx sy else .ok L) with
  | .error e => .error e
  | .ok L1 =>
    match (if 0 < my then enqueue L1 (index - size_x) mx (my - 1) sx sy else .ok L1) with
    | .error e => .error e
    | .ok L2 =>
      match (if mx < usub1 size_x then enqueue L2 (index + 1) (mx + 1) my sx sy else .ok L2) with
      | .error e => .error e
      | .ok L3 =>
        if my < usub1 size_y then enqueue L3 (index + size_x) mx (my + 1) sx sy else .ok L3

/-- One iteration of the `while` loop of `updateCosts` after `cur` was popped. -/
def visit (size_x size_y : Nat) (cur : CellData) (L : InflationLayer) (master : List Nat) :
    Except Fault (InflationLayer × List Nat) :=
  match L.seen_ with
  | none => .error .nullSeen
  | some seen =>
    match seen[cur.index_]? with
    | none => .error .seenOutOfBounds
    | some true => .ok (L, master)
    | some false =>
      let L1 := { L with seen_ := some (seen.set cur.index_ true) }
      match costLookup L1 cur.x_ cur.y_ cur.src_x_ cur.src_y_ with
      | .error e => .error e
      | .ok cost =>
        match master[cur.index_]? with
        | none => .error .masterOutOfBounds
        | some old_cost =>
          match enqueueNeighbours L1 size_x size_y cur.index_ cur.x_ cur.y_ cur.src_x_ cur.src_y_ with
          | .error e => .error e
          | .ok L2 => .ok (L2, master.set cur.index_ (writeRule old_cost cost))

/-- The `while (!inflation_queue_.empty ())` loop of `updateCosts`; `n` counts the
pops made so far. -/
def inflate (tie : Nat → Nat) (size_x size_y : Nat) :
    Nat → Nat → InflationLayer → List Nat → Except Fault (InflationLayer × List Nat)
  | 0, _, L, master =>
    if L.inflation_queue_ = [] then .ok (L, master) else .error .outOfFuel
  | fuel + 1, n, L, master =>
    match top (tie n) L.inflation_queue_ with
    | none => .ok (L, master)
    | some cur =>
      match visit size_x size_y cur
          { L with inflation_queue_ := L.inflation_queue_.erase cur } master with
      | .error e => .error e
      | .ok (L', master') => inflate tie size_x size_y fuel (n + 1) L' master'

/-- The (re)allocation and `memset` of the `seen_` bitmap at the start of
`updateCosts`. -/
def resetSeen (L : InflationLayer) (cells : Nat) : Except Fault InflationLayer :=
  match L.seen_ with
  | none => .ok { L with seen_size_ := cells, seen_ := some (List.replicate cells false) }
  | some seen =>
    if L.seen_size_ ≠ cells then
      .ok { L with seen_size_ := cells, seen_ := some (List.replicate cells false) }
    else if cells ≤ seen.length then
      .ok { L with seen_ := some (List.replicate cells false ++ seen.drop cells) }
    else .error .seenOutOfBounds

/-- The first column (row) of the window widened by the radius and clamped:
`min_i -= cell_inflation_radius_; min_i = std::max (0, min_i)`. -/
def expandLo (v : Int) (r : Nat) : Nat := (max 0 (toInt32 (v - r))).toNat

/-- The column (row) after the last of the window widened by the radius and
clamped: `max_i += cell_inflation_radius_; max_i = std::min (int (size_x), max_i)`. -/
def expandHi (size : Nat) (v : Int) (r : Nat) : Nat := (min (size : Int) (toInt32 (v + r))).toNat

/-- A number of loop iterations that `updateCosts` cannot exceed: every pop either
removes an entry or marks one more cell and adds at most four entries. -/
def popBound (L : InflationLayer) (cells : Nat) : Nat :=
  L.inflation_queue_.length + 4 * cells

/-- `InflationLayer::updateCosts`. -/
def updateCosts (tie : Nat → Nat) (L : InflationLayer) (master_grid : Costmap2D)
    (min_i min_j max_i max_j : Int) : Except Fault (InflationLayer × Costmap2D) :=
  if L.enabled_ = false then .ok (L, master_grid)
  else if L.inflation_queue_ ≠ [] then .error .queueNotEmpty
  else
    let size_x := master_grid.size_x_
    let size_y := master_grid.size_y_
    match resetSeen L (size_x * size_y) with
    | .error e => .error e
    | .ok L1 =>
      let r := L.cell_inflation_radius_
      let lo_i := expandLo min_i r
      let lo_j := expandLo min_j r
      let hi_i := expandHi size_x max_i r
      let hi_j := expandHi size_y max_j r
      match seedRows master_grid.costmap_ size_x (List.range' lo_i (hi_i - lo_i))
          (List.range' lo_j (hi_j - lo_j)) L1 with
      | .error e => .error e
      | .ok L2 =>
        match inflate tie size_x size_y (popBound L2 (size_x * size_y)) 0 L2
            master_grid.costmap_ with
        | .error e => .error e
        | .ok (L3, master) => .ok (L3, { master_grid with costmap_ := master })


/-- `std::min` on doubles: `(b < a) ? b : a`. -/
def stdMin (a b : ℚ) : ℚ := if b < a then b else a

/-- `std::max` on doubles: `(a < b) ? b : a`. -/
def stdMax (a b : ℚ) : ℚ := if a < b then b else a

/-- The four bounds that `updateBounds` reads and overwrites through its pointers. -/
structure Bounds where
  min_x : ℚ
  min_y : ℚ
  max_x : ℚ
  max_y : ℚ
deriving DecidableEq, Repr

/-- `InflationLayer::updateBounds`; the robot pose arguments are not read. -/
def updateBounds (L : InflationLayer) (b : Bounds) : InflationLayer × Bounds :=
  if L.need_reinflation_ = true then
    ({ L with last_min_x_ := b.min_x, last_min_y_ := b.min_y,
              last_max_x_ := b.max_x, last_max_y_ := b.max_y,
              need_reinflation_ := false },
     { min_x := -FLT_MAX, min_y := -FLT_MAX, max_x := FLT_MAX, max_y := FLT_MAX })
  else
    let tmp_min_x := L.last_min_x_
    let tmp_min_y := L.last_min_y_
    let tmp_max_x := L.last_max_x_
    let tmp_max_y := L.last_max_y_
    ({ L with last_min_x_ := b.min_x, last_min_y_ := b.min_y,
              last_max_x_ := b.max_x, last_max_y_ := b.max_y },
     { min_x := stdMin tmp_min_x b.min_x - L.inflation_radius_,
       min_y := stdMin tmp_min_y b.min_y - L.inflation_radius_,
       max_x := stdMax tmp_max_x b.max_x + L.inflation_radius_,
       max_y := stdMax tmp_max_y b.max_y + L.inflation_radius_ })

/-- Modelled from the spec: the wire snapshot `map` of the wrapper (its message type
is not among the sources): metadata and the sequence of signed bytes. -/
structure OccupancyGrid where
  resolution : ℚ
  width : Nat
  height : Nat
  origin_x : ℚ
  origin_y : ℚ
  origin_z : ℚ
  orientation_w : ℚ
  data : List Int
deriving DecidableEq, Repr

/-- Modelled from the spec: a vertex of a footprint polygon (the type
`NS_DataType::Point` is not among the sources), in meters. -/
structure Point where
  x : ℚ
  y : ℚ
deriving DecidableEq, Repr

/-- The members of `CostmapWrapper` that the embedded methods read or write;
`costmap` is the master grid behind `layered_costmap->getCostmap ()`, and
`layered_footprint` the polygon that `layered_costmap->setFootprint` was handed
last. -/
structure CostmapWrapper where
  cost_translation_table : List Int
  map : OccupancyGrid
  saved_origin_x : ℚ
  saved_origin_y : ℚ
  x0 : Nat
  xn : Nat
  y0 : Nat
  yn : Nat
  costmap : Costmap2D
  padded_footprint : List Point := []
  footprint_padding_ : ℚ := 0
  layered_footprint : List Point := []
deriving DecidableEq, Repr

/-- The `for (int i = 1; i < 253; i++)` loop of the constructor over the listed `i`. -/
def fillTranslation : List Nat → List Int → List Int
  | [], table => table
  | i :: is, table => fillTranslation is (table.set i (1 + (97 * ((i : Int) - 1)) / 251))

/-- The table built by `CostmapWrapper::CostmapWrapper ()`: `new char[256]` holds
arbitrary bytes `fresh 0 .. fresh 255` before the assignments. -/
def makeTranslationTable (fresh : Nat → Int) : List Int :=
  let t0 := (List.range 256).map fresh
  let t1 := t0.set 0 0
  let t2 := t1.set 253 99
  let t3 := t2.set 254 100
  let t4 := t3.set 255 (-1)
  fillTranslation (List.range' 1 252) t4

/-- Modelled from the spec: `Costmap2D::mapToWorld`, `wx = origin_x + (mx+0.5)*resolution`. -/
def Costmap2D.mapToWorld (g : Costmap2D) (mx my : Nat) : ℚ × ℚ :=
  (g.origin_x_ + ((mx : ℚ) + 1 / 2) * g.resolution_,
   g.origin_y_ + ((my : ℚ) + 1 / 2) * g.resolution_)

/-- `map.data.resize (n)`: keeps the first `n` bytes and pads with zeros. -/
def resize (data : List Int) (n : Nat) : List Int :=
  data.take n ++ List.replicate (n - data.length) 0

/-- The packing loop of `prepareMap` over the listed `i`:
`map.data[i] = cost_translation_table[data[i]]`. -/
def packCells (table : List Int) (cells : List Nat) : List Nat → List Int → Except Fault (List Int)
  | [], out => .ok out
  | i :: is, out =>
    match cells[i]? with
    | none => .error .masterOutOfBounds
    | some c =>
      match table[c]? with
      | none => .error .tableOutOfBounds
      | some v => packCells table cells is (out.set i v)

/-- `CostmapWrapper::prepareMap`; the time stamp is not modelled. -/
def prepareMap (w : CostmapWrapper) : Except Fault CostmapWrapper :=
  let costmap_ := w.costmap
  let resolution := costmap_.resolution_
  let width := costmap_.size_x_
  let height := costmap_.size_y_
  let world := costmap_.mapToWorld 0 0
  let data0 := resize w.map.data (width * height)
  match packCells w.cost_translation_table costmap_.costmap_ (List.range data0.length) data0 with
  | .error e => .error e
  | .ok data =>
    .ok { w with
      map := { resolution := resolution, width := width, height := height,
               origin_x := world.1 - resolution / 2, origin_y := world.2 - resolution / 2,
               origin_z := 0, orientation_w := 1, data := data },
      saved_origin_x := costmap_.origin_x_,
      saved_origin_y := costmap_.origin_y_ }

/-- `CostmapWrapper::updateCostmap`. -/
def updateCostmap (w : CostmapWrapper) : Except Fault CostmapWrapper :=
  let costmap_ := w.costmap
  let resolution := costmap_.resolution_
  let prepared :=
    if w.map.resolution ≠ resolution ∨ w.map.width ≠ costmap_.size_x_ ∨
        w.map.height ≠ costmap_.size_y_ ∨ w.saved_origin_x ≠ costmap_.origin_x_ ∨
        w.saved_origin_y ≠ costmap_.origin_y_ then prepareMap w
    else .ok w
  match prepared with
  | .error e => .error e
  | .ok w' => .ok { w' with xn := 0, yn := 0, x0 := costmap_.size_x_, y0 := costmap_.size_y_ }

/-- The forward translation of a grid buffer, cell by cell; `none` where a cell is
not a byte of the table. -/
def translate (table : List Int) (cells : List Nat) : List (Option Int) :=
  cells.map fun c => table[c]?

/-- `computeCost` under the members of the layer. The function itself is declared
in the layer's header; `costModel weight inscribed_radius resolution` stands for
it, from a stored distance to a cost byte. -/
def InflationLayer.computeCost (costModel : ℚ → ℚ → ℚ → Nat → Nat) (L : InflationLayer) :
    Nat → Nat :=
  costModel L.weight_ L.inscribed_radius_ L.resolution_

/-- `InflationLayer::setInflationParameters`. `cellDistance` (meters to cells on
the layered costmap's grid, declared in the layer's base class) is a parameter. -/
def setInflationParameters (costModel : ℚ → ℚ → ℚ → Nat → Nat) (cellDistance : ℚ → Nat)
    (L : InflationLayer) (inflation_radius cost_scaling_factor : ℚ) :
    Except Fault InflationLayer :=
  if L.weight_ ≠ cost_scaling_factor ∨ L.inflation_radius_ ≠ inflation_radius then
    let L1 := { L with inflation_radius_ := inflation_radius }
    let L2 := { L1 with cell_inflation_radius_ := cellDistance L1.inflation_radius_ }
    let L3 := { L2 with weight_ := cost_scaling_factor }
    let L4 := { L3 with need_reinflation_ := true }
    computeCaches (L4.computeCost costModel) L4
  else .ok L

/-- `InflationLayer::matchSize` on the master grid `g` of the layered costmap;
`new bool[seen_size_]` holds arbitrary flags `fresh 0, fresh 1, ..`. -/
def matchSize (costModel : ℚ → ℚ → ℚ → Nat → Nat) (cellDistance : ℚ → Nat)
    (fresh : Nat → Bool) (g : Costmap2D) (L : InflationLayer) : Except Fault InflationLayer :=
  let L1 := { L with resolution_ := g.resolution_ }
  let L2 := { L1 with cell_inflation_radius_ := cellDistance L1.inflation_radius_ }
  match computeCaches (L2.computeCost costModel) L2 with
  | .error e => .error e
  | .ok L3 =>
    .ok { L3 with seen_size_ := g.size_x_ * g.size_y_,
                  seen_ := some ((List.range (g.size_x_ * g.size_y_)).map fresh) }

/-- `InflationLayer::onInitialize`. The two values read from `inflation_layer.xml`
are the arguments `configured_radius` and `configured_factor`; the source binds
them to locals named `inflation_radius_` and `cost_scaling_factor_`, so `matchSize`
still reads the member `inflation_radius_`. -/
def onInitialize (costModel : ℚ → ℚ → ℚ → Nat → Nat) (cellDistance : ℚ → Nat)
    (fresh : Nat → Bool) (g : Costmap2D) (L : InflationLayer)
    (configured_radius configured_factor : ℚ) : Except Fault InflationLayer :=
  let L1 := { L with seen_ := none, seen_size_ := 0, need_reinflation_ := false,
                     enabled_ := true }
  match matchSize costModel cellDistance fresh g L1 with
  | .error e => .error e
  | .ok L2 => setInflationParameters costModel cellDistance L2 configured_radius configured_factor

/-- The indices that one loop iteration assigns in `master_array`: `cur.index_`
when the cell was not marked and the two reads before the assignment succeed. -/
def visitWrites (cur : CellData) (L : InflationLayer) (master : List Nat) : List Nat :=
  match L.seen_ with
  | none => []
  | some seen =>
    match seen[cur.index_]? with
    | some false =>
      match costLookup L cur.x_ cur.y_ cur.src_x_ cur.src_y_, master[cur.index_]? with
      | .ok _, some _ => [cur.index_]
      | _, _ => []
    | _ => []

/-- The indices of `master_array` that the `while` loop of `updateCosts` assigns,
in the order of the assignments; the recursion is that of `inflate`. -/
def inflateWrites (tie : Nat → Nat) (size_x size_y : Nat) :
    Nat → Nat → InflationLayer → List Nat → List Nat
  | 0, _, _, _ => []
  | fuel + 1, n, L, master =>
    match top (tie n) L.inflation_queue_ with
    | none => []
    | some cur =>
      match visit size_x size_y cur
          { L with inflation_queue_ := L.inflation_queue_.erase cur } master with
      | .error _ =>
        visitWrites cur { L with inflation_queue_ := L.inflation_queue_.erase cur } master
      | .ok (L', master') =>
        visitWrites cur { L with inflation_queue_ := L.inflation_queue_.erase cur } master ++
          inflateWrites tie size_x size_y fuel (n + 1) L' master'

/-- The indices of the master grid that one call of `updateCosts` assigns, in
order; the stages are those of `updateCosts`. -/
def updateCostsWrites (tie : Nat → Nat) (L : InflationLayer) (master_grid : Costmap2D)
    (min_i min_j max_i max_j : Int) : List Nat :=
  if L.enabled_ = false then []
  else if L.inflation_queue_ ≠ [] then []
  else
    let size_x := master_grid.size_x_
    let size_y := master_grid.size_y_
    match resetSeen L (size_x * size_y) with
    | .error _ => []
    | .ok L1 =>
      let r := L.cell_inflation_radius_
      let lo_i := expandLo min_i r
      let lo_j := expandLo min_j r
      let hi_i := expandHi size_x max_i r
      let hi_j := expandHi size_y max_j r
      match seedRows master_grid.costmap_ size_x (List.range' lo_i (hi_i - lo_i))
          (List.range' lo_j (hi_j - lo_j)) L1 with
      | .error _ => []
      | .ok L2 =>
        inflateWrites tie size_x size_y (popBound L2 (size_x * size_y)) 0 L2
          master_grid.costmap_

/-- The arguments of one call of `updateCosts`, with the heap order of that call. -/
structure UpdateCall where
  tie : Nat → Nat
  master_grid : Costmap2D
  min_i : Int
  min_j : Int
  max_i : Int
  max_j : Int

/-- A sequence of calls of `updateCosts` on one layer, each on the grid it is
handed; the sequence stops at the first fault. -/
def updateCostsSeq : InflationLayer → List UpdateCall → Except Fault InflationLayer
  | L, [] => .ok L
  | L, c :: rest =>
    match updateCosts c.tie L c.master_grid c.min_i c.min_j c.max_i c.max_j with
    | .error e => .error e
    | .ok (L', _) => updateCostsSeq L' rest

/-- The value of `inflation_queue_` at the entry of each call of the sequence that
is reached, the value that `assert (inflation_queue_.empty ())` tests. -/
def queuesAtEntry : InflationLayer → List UpdateCall → List (List CellData)
  | _, [] => []
  | L, c :: rest =>
    L.inflation_queue_ ::
      match updateCosts c.tie L c.master_grid c.min_i c.min_j c.max_i c.max_j with
      | .error _ => []
      | .ok (L', _) => queuesAtEntry L' rest

/-- Modelled from the spec: the padding of one coordinate, `sign (v) * padding`
added, a zero coordinate left alone. -/
def padCoordinate (v padding : ℚ) : ℚ :=
  if v < 0 then v - padding else if 0 < v then v + padding else v

/-- Modelled from the spec: `padFootprint (points, padding)`. -/
def padFootprint (points : List Point) (padding : ℚ) : List Point :=
  points.map fun p => { x := padCoordinate p.x padding, y := padCoordinate p.y padding }

/-- Modelled from the spec: `transformFootprint (x, y, yaw, points)`, every point
rotated by `yaw` and then translated by `(x, y)`; `cos` and `sin` are the
functions of the math library. -/
def transformFootprint (cos sin : ℚ → ℚ) (x y yaw : ℚ) (points : List Point) : List Point :=
  points.map fun p =>
    { x := x + (p.x * cos yaw - p.y * sin yaw), y := y + (p.x * sin yaw + p.y * cos yaw) }

/-- The outcome of one transform service call: the value `call` returned, and the
`result` flag and `transform` of the `ServiceTransform` it filled. -/
structure TransformReply (T : Type) where
  call : Bool
  result : Bool
  transform : T

/-- What `updateMap` reads from the pose: `getOrigin ().x ()`, `getOrigin ().y ()`
and `getYaw (getRotation ())`. -/
structure Pose where
  x : ℚ
  y : ℚ
  yaw : ℚ
deriving DecidableEq, Repr

/-- `CostmapWrapper::getRobotPose`: `none` for `return false`, the pose set in
`global_pose` for `return true`. `compose` stands for the transform library:
`transformMsgToTF` of both transforms and the product `odom_tf * map_tf`. -/
def getRobotPose {T : Type} (compose : T → T → Pose)
    (odom_transform map_transform : TransformReply T) : Option Pose :=
  if odom_transform.call = false then none
  else if odom_transform.result = false then none
  else if map_transform.call = false then none
  else if map_transform.result = false then none
  else some (compose odom_transform.transform map_transform.transform)

/-- `CostmapWrapper::setPaddedRobotFootprint`. Of `layered_costmap->setFootprint`
only the polygon it is handed is kept. -/
def setPaddedRobotFootprint (w : CostmapWrapper) (points : List Point) : CostmapWrapper :=
  let w1 := { w with padded_footprint := points }
  let w2 := { w1 with padded_footprint := padFootprint w1.padded_footprint w1.footprint_padding_ }
  { w2 with layered_footprint := w2.padded_footprint }

/-- `CostmapWrapper::updateMap`, one tick. `layeredUpdateMap` stands for
`layered_costmap->updateMap (x, y, yaw)` as a function on the master grid;
`toPointVector` is the identity on the vertices; the time stamp is not modelled. -/
def updateMap {T : Type} (compose : T → T → Pose)
    (layeredUpdateMap : Costmap2D → ℚ → ℚ → ℚ → Costmap2D) (cos sin : ℚ → ℚ)
    (odom_transform map_transform : TransformReply T) (w : CostmapWrapper) : CostmapWrapper :=
  match getRobotPose compose odom_transform map_transform with
  | none => w
  | some pose =>
    let x := pose.x
    let y := pose.y
    let yaw := pose.yaw
    let w1 := { w with costmap := layeredUpdateMap w.costmap x y yaw }
    let footprint := transformFootprint cos sin x y yaw w1.padded_footprint
    setPaddedRobotFootprint w1 footprint

/-- Modelled from the spec: the reverse translation of the static layer, from a
byte of the external map to a cost: `-1` to no-information when unknown space is
tracked and to 0 otherwise, `0` to 0, `100` to lethal, and the other inputs
through `linear`, which stands for the linear map of `1..99` to `1..252`. -/
def reverseTranslation (linear : Int → Nat) (track_unknown_space : Bool) (v : Int) : Nat :=
  if v = -1 then (if track_unknown_space = true then NO_INFORMATION else 0)
  else if v = 0 then 0
  else if v = 100 then LETHAL_OBSTACLE
  else linear v

/-- Forward translation of the cost `c` through the table of the constructor, then
the reverse translation of the static layer. -/
def roundTrip (linear : Int → Nat) (track_unknown_space : Bool) (fresh : Nat → Int) (c : Nat) :
    Option Nat :=
  ((makeTranslationTable fresh)[c]?).map (reverseTranslation linear track_unknown_space)

/-! ## Example data -/

/-- Values of `computeCost` at resolution 1, weight 1 and inscribed radius 0.5,
`floor (252 * exp (-(d - 0.5)))` for a distance `d` stored as `d*d`, at the
distances of a kernel of radius up to 3. -/
def exampleCost : Nat → Nat
  | 0 => 254
  | 1 => 152
  | 2 => 101
  | 4 => 56
  | 5 => 44
  | 8 => 24
  | 9 => 20
  | 10 => 17
  | 13 => 11
  | 16 => 7
  | 17 => 6
  | 18 => 5
  | 20 => 4
  | 25 => 2
  | 32 => 1
  | _ => 0

/-- A constructed layer whose radius was set to `r` cells. -/
def layerOfRadius (r : Nat) : InflationLayer :=
  { InflationLayer.new with cell_inflation_radius_ := r }

/-- The layer `layerOfRadius r` after `computeCaches` with `exampleCost`, for
`r ≥ 1` with `r + 2 < 2^32`. -/
def exampleLayer (r : Nat) : InflationLayer :=
  { InflationLayer.new with
    cell_inflation_radius_ := r, cached_cell_inflation_radius_ := r,
    cached_distances_ := some (kernelDistances (r + 2)),
    cached_costs_ := some (kernelCosts exampleCost (r + 2)) }

/-- A grid of the given sizes and cells at resolution 1 and origin `(0, 0)`. -/
def gridOf (size_x size_y : Nat) (cells : List Nat) : Costmap2D :=
  { size_x_ := size_x, size_y_ := size_y, resolution_ := 1, origin_x_ := 0, origin_y_ := 0,
    costmap_ := cells }

/-- A 4×4 free grid with lethal cells at `(3,0)`, `(2,2)` and `(0,3)`. -/
def threeObstacles : Costmap2D :=
  gridOf 4 4 [0, 0, 0, 254, 0, 0, 0, 0, 0, 0, 254, 0, 254, 0, 0, 0]

/-- The 5×5 free grid with one lethal cell at `(2,2)`. -/
def singleObstacle : Costmap2D :=
  gridOf 5 5 [0, 0, 0, 0, 0, 0, 0, 0, 0, 0, 0, 0, 254, 0, 0, 0, 0, 0, 0, 0, 0, 0, 0, 0, 0]

/-- A wrapper around the grid `g`, with the constructor's table (over a zeroed
allocation) and an empty snapshot. -/
def wrapperOf (g : Costmap2D) : CostmapWrapper :=
  { cost_translation_table := makeTranslationTable fun _ => 0,
    map := { resolution := 0, width := 0, height := 0, origin_x := 0, origin_y := 0,
             origin_z := 0, orientation_w := 0, data := [] },
    saved_origin_x := 0, saved_origin_y := 0, x0 := 0, xn := 0, y0 := 0, yn := 0,
    costmap := g }

/-- The wrapper of a one-cell free grid after a first `prepareMap`, whose cell a
later tick made lethal. -/
def staleWrapper : CostmapWrapper :=
  match prepareMap (wrapperOf (gridOf 1 1 [0])) with
  | .ok w => { w with costmap := gridOf 1 1 [254] }
  | .error _ => wrapperOf (gridOf 1 1 [254])

/-- A row of three cells with the middle one lethal. -/
def rowOfThree : Costmap2D := gridOf 3 1 [0, 254, 0]

/-- Modelled from the spec: `cellDistance`, `ceil (meters / resolution)` cells. -/
def cellDistanceAt (resolution : ℚ) (meters : ℚ) : Nat := (Int.ceil (meters / resolution)).toNat

/-- A cost function that ignores the members: `exampleCost` at every weight. -/
def exampleModel : ℚ → ℚ → ℚ → Nat → Nat := fun _ _ _ => exampleCost

/-- The layer `exampleLayer 1` after its radius was set to 0 cells. -/
def staleKernelLayer : InflationLayer := { exampleLayer 1 with cell_inflation_radius_ := 0 }

/-- A cost function that is lethal at distance 0, inscribed (253) at distance 1
and free beyond. -/
def steepCost : Nat → Nat
  | 0 => 254
  | 1 => 253
  | _ => 0

/-- A layer of radius 1 with the kernel of `steepCost`. -/
def steepLayer : InflationLayer :=
  { InflationLayer.new with
    cell_inflation_radius_ := 1, cached_cell_inflation_radius_ := 1,
    cached_distances_ := some (kernelDistances 3),
    cached_costs_ := some (kernelCosts steepCost 3) }

/-- A row of three cells: a lethal cell between two cells without information. -/
def unknownRow : Costmap2D := gridOf 3 1 [255, 254, 255]

/-- Two calls in a row on the grid `rowOfThree`, over its whole extent. -/
def twoCalls : List UpdateCall :=
  [{ tie := fun _ => 0, master_grid := rowOfThree, min_i := 0, min_j := 0, max_i := 3, max_j := 1 },
   { tie := fun _ => 1, master_grid := rowOfThree, min_i := 0, min_j := 0, max_i := 3, max_j := 1 }]

/-- The square footprint of side 2 around the robot origin. -/
def squareFootprint : List Point :=
  [{ x := 1, y := 1 }, { x := 1, y := -1 }, { x := -1, y := -1 }, { x := -1, y := 1 }]

/-- A wrapper around `rowOfThree` holding `squareFootprint`, without padding. -/
def squareWrapper : CostmapWrapper :=
  { wrapperOf rowOfThree with
    padded_footprint := squareFootprint, layered_footprint := squareFootprint }

/-- A transform service reply of a call that succeeded with `result = true`. -/
def goodReply : TransformReply Unit := { call := true, result := true, transform := () }

/-- A transform service reply of a call that returned with `result = false`. -/
def badReply : TransformReply Unit := { call := true, result := false, transform := () }

/-- A transform library whose composed pose is always `(5, 0)` with yaw 0. -/
def poseAhead : Unit → Unit → Pose := fun _ _ => { x := 5, y := 0, yaw := 0 }

/-- A layered update that makes every cell of the grid lethal. -/
def floodGrid : Costmap2D → ℚ → ℚ → ℚ → Costmap2D :=
  fun g _ _ _ => { g with costmap_ := g.costmap_.map fun _ => 254 }

/-- A linear map of `1..99` onto `1..252`: 1 to 1 and 99 to 252. -/
def exampleLinear (v : Int) : Nat := (1 + (251 * (v - 1)) / 98).toNat

/-- A 6×6 free grid with lethal cells at `(4,0)`, `(2,1)` and `(0,4)`. -/
def threeSeeds : Costmap2D :=
  gridOf 6 6 [0, 0, 0, 0, 254, 0,
              0, 0, 254, 0, 0, 0,
              0, 0, 0, 0, 0, 0,
              0, 0, 0, 0, 0, 0,
              254, 0, 0, 0, 0, 0,
              0, 0, 0, 0, 0, 0]

/-- A row of seven free cells between two lethal cells. -/
def twoObstacles : Costmap2D := gridOf 7 1 [254, 0, 0, 0, 0, 0, 254]

/-! ## Predicates of the verification -/

/-- The layer holds the kernel that `computeCaches` builds for its radius `r ≥ 1`:
both tables are `(r+2) × (r+2)`, distances `hypot (i, j)`, costs `computeCost` of them. -/
def KernelBuilt (computeCost : Nat → Nat) (L : InflationLayer) : Prop :=
  1 ≤ L.cell_inflation_radius_ ∧
  L.cached_cell_inflation_radius_ = L.cell_inflation_radius_ ∧
  L.cached_distances_ = some (kernelDistances (L.cell_inflation_radius_ + 2)) ∧
  L.cached_costs_ = some (kernelCosts computeCost (L.cell_inflation_radius_ + 2))

/-- Each kernel table that is not `NULL` has the rows `0 .. cached + 1` that
`deleteKernels` frees. -/
def Freeable (L : InflationLayer) : Prop :=
  rowsReadable L.cached_cell_inflation_radius_ L.cached_distances_ = true ∧
  rowsReadable L.cached_cell_inflation_radius_ L.cached_costs_ = true

/-- The kernel state of every layer between method calls: never built (cached
radius 0, both tables `NULL`), or built by `computeCaches` for the cached radius
`c`, with `c + 2` rows and columns as `unsigned int` computes the sum. -/
def KernelInv (L : InflationLayer) : Prop :=
  (L.cached_cell_inflation_radius_ = 0 ∧ L.cached_distances_ = none ∧ L.cached_costs_ = none) ∨
  (1 ≤ L.cached_cell_inflation_radius_ ∧
    uadd L.cached_cell_inflation_radius_ 1 < uadd L.cached_cell_inflation_radius_ 2 ∧
    L.cached_distances_ = some (kernelDistances (uadd L.cached_cell_inflation_radius_ 2)) ∧
    ∃ cc, L.cached_costs_ = some (kernelCosts cc (uadd L.cached_cell_inflation_radius_ 2)))

/-- Every entry that the distance table holds is `hypot` of its offsets (true of
a `NULL` table and of every table `computeCaches` builds). -/
def DistancesSound (L : InflationLayer) : Prop :=
  ∀ i j v, tableAt L.cached_distances_ i j = .ok v → v = hypot i j

/-- Both kernel tables have an entry at all offsets up to `cell_inflation_radius_ + 1`. -/
def KernelCovers (L : InflationLayer) : Prop :=
  ∀ i j, i ≤ L.cell_inflation_radius_ + 1 → j ≤ L.cell_inflation_radius_ + 1 →
    (∃ v, tableAt L.cached_distances_ i j = .ok v) ∧ (∃ v, tableAt L.cached_costs_ i j = .ok v)

/-- The `seen_` bitmap, when allocated, holds `seen_size_` flags. -/
def SeenSized (L : InflationLayer) : Prop :=
  ∀ seen, L.seen_ = some seen → seen.length = L.seen_size_

/-- A queue entry as the wavefront makes them: a cell of the grid with its index,
a source `S`, and the distance between the two, at most `r`. -/
structure GoodEntry (S : Nat → Nat → Prop) (size_x size_y r : Nat) (c : CellData) : Prop where
  hx : c.x_ < size_x
  hy : c.y_ < size_y
  hidx : c.index_ = c.y_ * size_x + c.x_
  hsrc : S c.src_x_ c.src_y_
  hdist : hypot (absDiff c.x_ c.src_x_) (absDiff c.y_ c.src_y_) ≤ r * r
  hval : c.distance_ = hypot (absDiff c.x_ c.src_x_) (absDiff c.y_ c.src_y_)

/-- Layer `L'` is `L` with at most `n` entries, all satisfying `P`, pushed on the queue. -/
def Pushes (P : CellData → Prop) (n : Nat) (L L' : InflationLayer) : Prop :=
  ∃ q, q.length ≤ n ∧ (∀ c ∈ q, P c) ∧ L' = { L with inflation_queue_ := q ++ L.inflation_queue_ }

/-- Cell `idx` of `master` was written once, by the write rule, from a source `S`
within `r` cells. -/
def Stamped (S : Nat → Nat → Prop) (size_x size_y r : Nat) (costs : Option (List (List Nat)))
    (m0 master : List Nat) (idx : Nat) : Prop :=
  ∃ x y a b cost old, x < size_x ∧ y < size_y ∧ idx = y * size_x + x ∧ S a b ∧
    hypot (absDiff x a) (absDiff y b) ≤ r * r ∧
    tableAt costs (absDiff x a) (absDiff y b) = .ok cost ∧
    m0[idx]? = some old ∧ master[idx]? = some (writeRule old cost)

/-- The invariant of the `while` loop of `updateCosts`, over the grid `m0` at entry. -/
structure LoopInv (S : Nat → Nat → Prop) (size_x size_y r : Nat)
    (costs : Option (List (List Nat))) (m0 : List Nat) (L : InflationLayer)
    (master : List Nat) : Prop where
  sound : DistancesSound L
  radius : L.cell_inflation_radius_ = r
  costs_eq : L.cached_costs_ = costs
  length_eq : master.length = m0.length
  queue : ∀ c ∈ L.inflation_queue_, GoodEntry S size_x size_y r c
  seen : ∃ seen, L.seen_ = some seen ∧ size_x * size_y ≤ seen.length ∧
    ∀ idx, idx < size_x * size_y →
      (seen[idx]? = some false → master[idx]? = m0[idx]?) ∧
      (seen[idx]? = some true → Stamped S size_x size_y r costs m0 master idx)

/-- Cell `(a, b)` is a seed of the wavefront: lethal in `g` and inside the widened,
clamped window. -/
def IsSeed (g : Costmap2D) (lo_i hi_i lo_j hi_j a b : Nat) : Prop :=
  lo_i ≤ a ∧ a < hi_i ∧ lo_j ≤ b ∧ b < hi_j ∧ a < g.size_x_ ∧ b < g.size_y_ ∧
    g.getCost a b = some LETHAL_OBSTACLE

instance (g : Costmap2D) (lo_i hi_i lo_j hi_j a b : Nat) :
    Decidable (IsSeed g lo_i hi_i lo_j hi_j a b) := by
  unfold IsSeed; infer_instance

/-- The number of cells of the grid not yet marked in `seen_`. -/
def unseenCount (L : InflationLayer) (cells : Nat) : Nat :=
  match L.seen_ with
  | none => 0
  | some seen => (seen.take cells).count false

/-- The quantity that every loop iteration lowers: queue length plus four times
the unseen cells. -/
def loopMeasure (L : InflationLayer) (cells : Nat) : Nat :=
  L.inflation_queue_.length + 4 * unseenCount L cells

/-- Cells `(x, y)` and `(x', y')` are 4-neighbours. -/
def Adjacent (x y x' y' : Nat) : Prop :=
  (x' + 1 = x ∧ y' = y) ∨ (x' = x + 1 ∧ y' = y) ∨ (x' = x ∧ y' + 1 = y) ∨ (x' = x ∧ y' = y + 1)

/-- Cell `(x, y)` is marked in `seen_`. -/
def SeenAt (L : InflationLayer) (size_x x y : Nat) : Prop :=
  ∃ seen, L.seen_ = some seen ∧ seen[y * size_x + x]? = some true

/-- Cell `(x, y)` is marked in `seen_` or waits in the queue. -/
def Pending (L : InflationLayer) (size_x x y : Nat) : Prop :=
  SeenAt L size_x x y ∨ ∃ c ∈ L.inflation_queue_, c.x_ = x ∧ c.y_ = y

/-- The wavefront from the single source `(a, b)` loses no cell: the source is
pending, and so is every 4-neighbour within `r` of the source of a seen cell. -/
structure Closed (a b size_x size_y r : Nat) (L : InflationLayer) : Prop where
  src : Pending L size_x a b
  step : ∀ x y, x < size_x → y < size_y → SeenAt L size_x x y →
    ∀ x' y', Adjacent x y x' y' → x' < size_x → y' < size_y →
      hypot (absDiff x' a) (absDiff y' b) ≤ r * r → Pending L size_x x' y'

/-- A value of the machine type `int`. -/
def IsInt32 (v : Int) : Prop := -2147483648 ≤ v ∧ v < 2147483648

instance (v : Int) : Decidable (IsInt32 v) := by
  unfold IsInt32; infer_instance

/-- Cell `(x, y)` lies in the rectangle `min_i ≤ x < max_i`, `min_j ≤ y < max_j`. -/
def InWindow (min_i min_j max_i max_j : Int) (x y : Nat) : Prop :=
  min_i ≤ x ∧ (x : Int) < max_i ∧ min_j ≤ y ∧ (y : Int) < max_j

instance (min_i min_j max_i max_j : Int) (x y : Nat) :
    Decidable (InWindow min_i min_j max_i max_j x y) := by
  unfold InWindow; infer_instance

/-- Cell `(a, b)` is lethal in `g` and no lethal cell of `g` is nearer to `(x, y)`. -/
def IsNearestLethal (g : Costmap2D) (x y a b : Nat) : Prop :=
  a < g.size_x_ ∧ b < g.size_y_ ∧ g.getCost a b = some LETHAL_OBSTACLE ∧
  ∀ a', a' < g.size_x_ → ∀ b', b' < g.size_y_ → g.getCost a' b' = some LETHAL_OBSTACLE →
    hypot (absDiff x a) (absDiff y b) ≤ hypot (absDiff x a') (absDiff y b')

instance (g : Costmap2D) (x y a b : Nat) : Decidable (IsNearestLethal g x y a b) := by
  unfold IsNearestLethal; infer_instance

/-- Every cell of the grid is a byte. -/
def Costmap2D.Bytes (g : Costmap2D) : Prop := ∀ c ∈ g.costmap_, c < 256

/-- The test of `updateCostmap`: the grid metadata differs from the metadata cached
with the snapshot. -/
def MetadataDiffers (w : CostmapWrapper) : Prop :=
  w.map.resolution ≠ w.costmap.resolution_ ∨ w.map.width ≠ w.costmap.size_x_ ∨
    w.map.height ≠ w.costmap.size_y_ ∨ w.saved_origin_x ≠ w.costmap.origin_x_ ∨
    w.saved_origin_y ≠ w.costmap.origin_y_

instance (w : CostmapWrapper) : Decidable (MetadataDiffers w) := by
  unfold MetadataDiffers; infer_instance

/-- The entry of the forward translation table for the internal cost `i`, as the
spec tabulates it. -/
def forward (i : Nat) : Int :=
  if i = 0 then 0
  else if i = 253 then 99
  else if i = 254 then 100
  else if i = 255 then -1
  else 1 + (97 * ((i : Int) - 1)) / 251

/-- An entry for cell `(x, y)` with stored distance `d` waits in the queue. -/
def Queued (L : InflationLayer) (x y d : Nat) : Prop :=
  ∃ c ∈ L.inflation_queue_, c.x_ = x ∧ c.y_ = y ∧ c.distance_ = d

/-- The state of a cell `(x, y)` that is no seed and 4-adjacent to the seed `(a, b)`:
until it is marked, either the unmarked seed waits with distance 0 or the cell
waits with distance 1; once marked, it holds the write rule applied to a kernel
cost at offset `(1, 0)` or `(0, 1)`. -/
structure NextTo (a b x y size_x : Nat) (costs : Option (List (List Nat))) (m0 : List Nat)
    (L : InflationLayer) (master : List Nat) : Prop where
  wait : ¬ SeenAt L size_x x y →
    (¬ SeenAt L size_x a b ∧ Queued L a b 0) ∨ Queued L x y 1
  done : SeenAt L size_x x y → ∃ k old,
    (tableAt costs 1 0 = .ok k ∨ tableAt costs 0 1 = .ok k) ∧
    m0[y * size_x + x]? = some old ∧ master[y * size_x + x]? = some (writeRule old k)

/-- The members of the layer other than the `seen_` bitmap, its size and the queue. -/
def InflationLayer.settings (L : InflationLayer) : InflationLayer :=
  { L with seen_ := none, seen_size_ := 0, inflation_queue_ := [] }

/-- Layer `L'` differs from `L` at most in the flags of `seen_` and in the queue. -/
structure Frame (L L' : InflationLayer) : Prop where
  settings : L'.settings = L.settings
  size : L'.seen_size_ = L.seen_size_
  seen : L'.seen_.map List.length = L.seen_.map List.length

/-- Region `R` carries the wave of the seed `(a, b)` among the seeds `S`: each of
its cells is a grid cell within `r` of the seed, strictly nearer to it than to
every other seed, and is the seed itself or has a 4-neighbour in `R` that is
nearer to the seed. -/
def Carries (S : Nat → Nat → Prop) (a b size_x size_y r : Nat) (R : Nat → Nat → Prop) : Prop :=
  ∀ u v, R u v →
    u < size_x ∧ v < size_y ∧ hypot (absDiff u a) (absDiff v b) ≤ r * r ∧
    (∀ a' b', S a' b' → ¬ (a' = a ∧ b' = b) →
      hypot (absDiff u a) (absDiff v b) < hypot (absDiff u a') (absDiff v b')) ∧
    ((u = a ∧ v = b) ∨ ∃ u' v', R u' v' ∧ Adjacent u' v' u v ∧
      hypot (absDiff u' a) (absDiff v' b) < hypot (absDiff u a) (absDiff v b))

/-- Cell `(x, y)` is fed by the region `R` of the seed `(a, b)`: it is the seed, or
a 4-neighbour of a cell of `R` that is nearer to the seed than it is. -/
def Fed (a b : Nat) (R : Nat → Nat → Prop) (x y : Nat) : Prop :=
  (x = a ∧ y = b) ∨ ∃ x' y', R x' y' ∧ Adjacent x' y' x y ∧
    hypot (absDiff x' a) (absDiff y' b) < hypot (absDiff x a) (absDiff y b)

/-- The state of the wave of the seed `(a, b)` through the region `R`, and of the
cell `(x, y)` it feeds: an unmarked grid cell within `r` of the seed that is the
seed or has a marked 4-neighbour in `R` waits in the queue with its distance to
the seed; once `(x, y)` is marked it holds the write rule applied to a kernel cost
of that distance. -/
structure Wave (a b : Nat) (R : Nat → Nat → Prop) (x y size_x size_y r : Nat)
    (costs : Option (List (List Nat))) (m0 : List Nat) (L : InflationLayer)
    (master : List Nat) : Prop where
  push : ∀ u v, u < size_x → v < size_y → hypot (absDiff u a) (absDiff v b) ≤ r * r →
    ¬ SeenAt L size_x u v →
    ((u = a ∧ v = b) ∨ ∃ u' v', R u' v' ∧ Adjacent u' v' u v ∧ SeenAt L size_x u' v') →
    Queued L u v (hypot (absDiff u a) (absDiff v b))
  stamp : SeenAt L size_x x y → ∃ i j cost old,
    hypot i j = hypot (absDiff x a) (absDiff y b) ∧ tableAt costs i j = .ok cost ∧
    m0[y * size_x + x]? = some old ∧ master[y * size_x + x]? = some (writeRule old cost)

/-- Cell `(u, v)` lies in the rectangle of cells spanned by `(a, b)` and `(x, y)`. -/
def InRectangle (a b x y u v : Nat) : Prop :=
  (min a x ≤ u ∧ u ≤ max a x) ∧ (min b y ≤ v ∧ v ≤ max b y)

instance (a b x y u v : Nat) : Decidable (InRectangle a b x y u v) := by
  unfold InRectangle; infer_instance

/-! ## Theorems -/

set_option maxRecDepth 100000

theorem leastDistance_le : ∀ (q : List CellData) (c : CellData), c ∈ q → leastDistance q ≤ c.distance_
  | [], c, h => by simp at h
  | [a], c, h => by simp at h; subst h; simp [leastDistance]
  | a :: b :: cs, c, h => by
    have ih := leastDistance_le (b :: cs) c
    show min a.distance_ (leastDistance (b :: cs)) ≤ c.distance_
    rcases List.mem_cons.1 h with h | h
    · subst h; exact Nat.min_le_left _ _
    · exact le_trans (Nat.min_le_right _ _) (ih h)

theorem leastDistance_mem : ∀ (q : List CellData), q ≠ [] → ∃ c ∈ q, c.distance_ = leastDistance q
  | [], h => by simp at h
  | [a], _ => ⟨a, by simp, by simp [leastDistance]⟩
  | a :: b :: cs, _ => by
    obtain ⟨c, hc, he⟩ := leastDistance_mem (b :: cs) (by simp)
    show ∃ c ∈ a :: b :: cs, c.distance_ = min a.distance_ (leastDistance (b :: cs))
    by_cases hle : a.distance_ ≤ leastDistance (b :: cs)
    · exact ⟨a, by simp, by rw [Nat.min_eq_left hle]⟩
    · exact ⟨c, List.mem_cons_of_mem _ hc, by rw [Nat.min_eq_right (by omega)]; exact he⟩

theorem top_mem_front {k : Nat} {q : List CellData} {c : CellData} (h : top k q = some c) :
    c ∈ q.filter fun c => c.distance_ = leastDistance q := by
  unfold top at h
  simp only at h
  split at h
  · rename_i c' hc'
    cases h
    exact List.getElem?_mem hc'
  · exact List.mem_of_mem_head? h

theorem top_mem {k : Nat} {q : List CellData} {c : CellData} (h : top k q = some c) : c ∈ q :=
  (List.mem_filter.1 (top_mem_front h)).1

theorem top_least {k : Nat} {q : List CellData} {c : CellData} (h : top k q = some c) :
    ∀ d ∈ q, c.distance_ ≤ d.distance_ := by
  intro d hd
  have := (List.mem_filter.1 (top_mem_front h)).2
  simp at this
  rw [this]; exact leastDistance_le q d hd

theorem top_eq_none {k : Nat} {q : List CellData} (h : top k q = none) : q = [] := by
  by_contra hq
  obtain ⟨c, hc, he⟩ := leastDistance_mem q hq
  have hmem : c ∈ q.filter fun c => c.distance_ = leastDistance q := by
    simp [List.mem_filter, hc, he]
  unfold top at h
  simp only at h
  split at h
  · cases h
  · rw [List.head?_eq_none_iff] at h
    rw [h] at hmem
    cases hmem

theorem Pushes.refl (P : CellData → Prop) (n : Nat) (L : InflationLayer) : Pushes P n L L :=
  ⟨[], by simp, by simp, by simp⟩

theorem Pushes.trans {P : CellData → Prop} {n m : Nat} {L L1 L2 : InflationLayer}
    (h1 : Pushes P n L L1) (h2 : Pushes P m L1 L2) : Pushes P (n + m) L L2 := by
  obtain ⟨q1, hl1, hp1, rfl⟩ := h1
  obtain ⟨q2, hl2, hp2, rfl⟩ := h2
  refine ⟨q2 ++ q1, by simp; omega, ?_, by simp⟩
  intro c hc
  rcases List.mem_append.1 hc with h | h
  · exact hp2 c h
  · exact hp1 c h

theorem Pushes.mono {P : CellData → Prop} {n m : Nat} {L L' : InflationLayer}
    (h : Pushes P n L L') (hnm : n ≤ m) : Pushes P m L L' := by
  obtain ⟨q, hl, hp, he⟩ := h
  exact ⟨q, by omega, hp, he⟩

theorem idx_lt {x y size_x size_y : Nat} (hx : x < size_x) (hy : y < size_y) :
    y * size_x + x < size_x * size_y := by
  have h1 : (y + 1) * size_x ≤ size_y * size_x := Nat.mul_le_mul_right _ hy
  have h2 : (y + 1) * size_x = y * size_x + size_x := by ring
  have h3 : size_y * size_x = size_x * size_y := Nat.mul_comm _ _
  omega

theorem enqueue_pushes {S : Nat → Nat → Prop} {size_x size_y : Nat} {L L' : InflationLayer}
    {index mx my sx sy : Nat} (hd : DistancesSound L)
    (hx : mx < size_x) (hy : my < size_y) (hidx : index = my * size_x + mx) (hs : S sx sy)
    (h : enqueue L index mx my sx sy = .ok L') :
    Pushes (GoodEntry S size_x size_y L.cell_inflation_radius_) 1 L L' := by
  unfold enqueue at h
  split at h
  · cases h
  · rename_i seen hseen
    split at h
    · cases h
    · cases h; exact Pushes.refl _ _ _
    · split at h
      · cases h
      · rename_i d hdl
        split at h
        · cases h; exact Pushes.refl _ _ _
        · rename_i hle
          cases h
          refine ⟨[⟨d, index, mx, my, sx, sy⟩], by simp, ?_, by simp⟩
          intro c hc
          simp at hc
          subst hc
          have hv := hd _ _ _ hdl
          exact ⟨hx, hy, hidx, hs, by simp only; omega, hv⟩

theorem enqueue_total {L : InflationLayer} {seen : List Bool} {index mx my sx sy : Nat}
    (hseen : L.seen_ = some seen) (hi : index < seen.length)
    (hk : ∃ v, distanceLookup L mx my sx sy = .ok v) :
    ∃ L', enqueue L index mx my sx sy = .ok L' := by
  obtain ⟨v, hv⟩ := hk
  unfold enqueue
  rw [hseen]
  simp only
  have : seen[index]? = some seen[index] := List.getElem?_eq_getElem hi
  rw [this]
  cases seen[index] <;> simp only [hv]
  · split <;> exact ⟨_, rfl⟩
  · exact ⟨_, rfl⟩

theorem Pushes.seen {P : CellData → Prop} {n : Nat} {L L' : InflationLayer}
    (h : Pushes P n L L') : L'.seen_ = L.seen_ := by
  obtain ⟨q, _, _, rfl⟩ := h; rfl

theorem Pushes.radius {P : CellData → Prop} {n : Nat} {L L' : InflationLayer}
    (h : Pushes P n L L') : L'.cell_inflation_radius_ = L.cell_inflation_radius_ := by
  obtain ⟨q, _, _, rfl⟩ := h; rfl

theorem Pushes.distances {P : CellData → Prop} {n : Nat} {L L' : InflationLayer}
    (h : Pushes P n L L') : L'.cached_distances_ = L.cached_distances_ := by
  obtain ⟨q, _, _, rfl⟩ := h; rfl

theorem Pushes.costs {P : CellData → Prop} {n : Nat} {L L' : InflationLayer}
    (h : Pushes P n L L') : L'.cached_costs_ = L.cached_costs_ := by
  obtain ⟨q, _, _, rfl⟩ := h; rfl

theorem Pushes.sound {P : CellData → Prop} {n : Nat} {L L' : InflationLayer}
    (h : Pushes P n L L') (hd : DistancesSound L) : DistancesSound L' := by
  unfold DistancesSound at *; rw [h.distances]; exact hd

theorem Pushes.covers {P : CellData → Prop} {n : Nat} {L L' : InflationLayer}
    (h : Pushes P n L L') (hd : KernelCovers L) : KernelCovers L' := by
  unfold KernelCovers at *; rw [h.distances, h.costs, h.radius]; exact hd

theorem usub1_of_pos {n : Nat} (h0 : 0 < n) : usub1 n = n - 1 := by
  unfold usub1; rw [if_neg (by omega)]

theorem enqueue_if_pushes (S : Nat → Nat → Prop) (size_x size_y : Nat) {r : Nat}
    {L L' : InflationLayer}
    {index mx my sx sy : Nat} (c : Prop) [Decidable c] (hd : DistancesSound L)
    (hr : L.cell_inflation_radius_ = r)
    (hx : c → mx < size_x) (hy : c → my < size_y) (hidx : c → index = my * size_x + mx)
    (hs : S sx sy)
    (h : (if c then enqueue L index mx my sx sy else .ok L) = .ok L') :
    Pushes (GoodEntry S size_x size_y r) 1 L L' := by
  split at h
  · rename_i hc
    subst hr
    exact enqueue_pushes hd (hx hc) (hy hc) (hidx hc) hs h
  · cases h; exact Pushes.refl _ _ _

theorem idx_up {size_x my mx index : Nat} (hidx : index = my * size_x + mx) (hc : 0 < my) :
    index - size_x = (my - 1) * size_x + mx := by
  subst hidx
  have : my * size_x = (my - 1) * size_x + size_x := by
    obtain ⟨k, rfl⟩ : ∃ k, my = k + 1 := ⟨my - 1, by omega⟩
    simp [Nat.add_mul]
  omega

theorem idx_down {size_x my mx index : Nat} (hidx : index = my * size_x + mx) :
    index + size_x = (my + 1) * size_x + mx := by
  subst hidx; simp [Nat.add_mul]; omega

theorem lt_of_lt_usub1 {n m : Nat} (hm : m < n) (hc : m < usub1 n) :
    m + 1 < n := by
  rw [usub1_of_pos (by omega)] at hc; omega

theorem enqueueNeighbours_pushes {S : Nat → Nat → Prop} {size_x size_y r : Nat}
    {L L' : InflationLayer} {index mx my sx sy : Nat} (hd : DistancesSound L)
    (hr : L.cell_inflation_radius_ = r)
    (hx : mx < size_x) (hy : my < size_y) (hidx : index = my * size_x + mx) (hs : S sx sy)
    (h : enqueueNeighbours L size_x size_y index mx my sx sy = .ok L') :
    Pushes (GoodEntry S size_x size_y r) 4 L L' := by
  unfold enqueueNeighbours at h
  cases h1 : (if 0 < mx then enqueue L (index - 1) (mx - 1) my sx sy else Except.ok L) with
  | error e => rw [h1] at h; cases h
  | ok L1 =>
    rw [h1] at h
    simp only at h
    have p1 : Pushes (GoodEntry S size_x size_y r) 1 L L1 :=
      enqueue_if_pushes S size_x size_y (0 < mx) hd hr
        (fun _ => Nat.lt_of_le_of_lt (Nat.sub_le _ _) hx) (fun _ => hy)
        (fun hc => by subst hidx; omega) hs h1
    cases h2 : (if 0 < my then enqueue L1 (index - size_x) mx (my - 1) sx sy else Except.ok L1) with
    | error e => rw [h2] at h; cases h
    | ok L2 =>
      rw [h2] at h
      simp only at h
      have p2 : Pushes (GoodEntry S size_x size_y r) 1 L1 L2 :=
        enqueue_if_pushes S size_x size_y (0 < my) (p1.sound hd) (p1.radius.trans hr)
          (fun _ => hx) (fun _ => Nat.lt_of_le_of_lt (Nat.sub_le _ _) hy)
          (fun hc => idx_up hidx hc) hs h2
      have p12 := p1.trans p2
      cases h3 : (if mx < usub1 size_x then enqueue L2 (index + 1) (mx + 1) my sx sy
          else Except.ok L2) with
      | error e => rw [h3] at h; cases h
      | ok L3 =>
        rw [h3] at h
        simp only at h
        have p3 : Pushes (GoodEntry S size_x size_y r) 1 L2 L3 :=
          enqueue_if_pushes S size_x size_y (mx < usub1 size_x) (p12.sound hd)
            (p12.radius.trans hr) (fun hc => lt_of_lt_usub1 hx hc) (fun _ => hy)
            (fun hc => by subst hidx; omega) hs h3
        have p123 := p12.trans p3
        have p4 : Pushes (GoodEntry S size_x size_y r) 1 L3 L' :=
          enqueue_if_pushes S size_x size_y (my < usub1 size_y) (p123.sound hd)
            (p123.radius.trans hr) (fun _ => hx) (fun hc => lt_of_lt_usub1 hy hc)
            (fun _ => idx_down hidx) hs h
        exact p123.trans p4

theorem visit_cases {S : Nat → Nat → Prop} {size_x size_y r : Nat} {cur : CellData}
    {L L' : InflationLayer} {master master' : List Nat} {seen : List Bool}
    (hd : DistancesSound L) (hr : L.cell_inflation_radius_ = r)
    (hseen : L.seen_ = some seen)
    (hc : GoodEntry S size_x size_y r cur)
    (h : visit size_x size_y cur L master = .ok (L', master')) :
    (seen[cur.index_]? = some true ∧ L' = L ∧ master' = master) ∨
    (seen[cur.index_]? = some false ∧ ∃ cost old,
      tableAt L.cached_costs_ (absDiff cur.x_ cur.src_x_) (absDiff cur.y_ cur.src_y_) = .ok cost ∧
      master[cur.index_]? = some old ∧
      master' = master.set cur.index_ (writeRule old cost) ∧
      enqueueNeighbours { L with seen_ := some (seen.set cur.index_ true) } size_x size_y
        cur.index_ cur.x_ cur.y_ cur.src_x_ cur.src_y_ = .ok L' ∧
      Pushes (GoodEntry S size_x size_y r) 4
        { L with seen_ := some (seen.set cur.index_ true) } L') := by
  unfold visit at h
  rw [hseen] at h
  simp only at h
  split at h
  · cases h
  · rename_i hs
    cases h
    exact Or.inl ⟨hs, rfl, rfl⟩
  · rename_i hs
    right
    refine ⟨hs, ?_⟩
    split at h
    · cases h
    · rename_i cost hcost
      split at h
      · cases h
      · rename_i old hold
        split at h
        · cases h
        · rename_i L2 hn
          cases h
          refine ⟨cost, old, hcost, hold, rfl, hn, ?_⟩
          exact enqueueNeighbours_pushes (L := { L with seen_ := some (seen.set cur.index_ true) })
            hd hr hc.hx hc.hy hc.hidx hc.hsrc hn

theorem LoopInv.setQueue {S : Nat → Nat → Prop} {size_x size_y r : Nat}
    {costs : Option (List (List Nat))} {m0 : List Nat} {L : InflationLayer} {master : List Nat}
    (h : LoopInv S size_x size_y r costs m0 L master) (q : List CellData)
    (hq : ∀ c ∈ q, GoodEntry S size_x size_y r c) :
    LoopInv S size_x size_y r costs m0 { L with inflation_queue_ := q } master :=
  ⟨h.sound, h.radius, h.costs_eq, h.length_eq, hq, h.seen⟩

theorem visit_inv {S : Nat → Nat → Prop} {size_x size_y r : Nat}
    {costs : Option (List (List Nat))} {m0 : List Nat} {cur : CellData}
    {L L' : InflationLayer} {master master' : List Nat}
    (hm0 : m0.length = size_x * size_y)
    (hinv : LoopInv S size_x size_y r costs m0 L master)
    (hc : GoodEntry S size_x size_y r cur)
    (h : visit size_x size_y cur L master = .ok (L', master')) :
    LoopInv S size_x size_y r costs m0 L' master' := by
  obtain ⟨seen, hseen, hlen, hcells⟩ := hinv.seen
  rcases visit_cases hinv.sound hinv.radius hseen hc h with
    ⟨_, rfl, rfl⟩ | ⟨hs, cost, old, hcost, hold, rfl, _, hp⟩
  · exact hinv
  · have hidx : cur.index_ < size_x * size_y := by rw [hc.hidx]; exact idx_lt hc.hx hc.hy
    obtain ⟨q, hql, hqp, rfl⟩ := hp
    refine ⟨hinv.sound, hinv.radius, hinv.costs_eq, by simp [hinv.length_eq], ?_, ?_⟩
    · intro c hcm
      rcases List.mem_append.1 hcm with h1 | h1
      · exact hqp c h1
      · exact hinv.queue c h1
    · refine ⟨seen.set cur.index_ true, rfl, by simp; exact hlen, ?_⟩
      intro idx hidxlt
      by_cases he : idx = cur.index_
      · subst he
        constructor
        · intro hf
          rw [List.getElem?_set_eq_of_lt _ (by omega)] at hf
          cases hf
        · intro _
          have hm : master[cur.index_]? = m0[cur.index_]? := (hcells _ hidx).1 hs
          refine ⟨cur.x_, cur.y_, cur.src_x_, cur.src_y_, cost, old, hc.hx, hc.hy, hc.hidx,
            hc.hsrc, hc.hdist, hinv.costs_eq ▸ hcost, hm ▸ hold, ?_⟩
          rw [List.getElem?_set_eq_of_lt _ (by rw [hinv.length_eq, hm0]; exact hidx)]
      · have hne : cur.index_ ≠ idx := fun h => he h.symm
        constructor
        · intro hf
          rw [List.getElem?_set_ne hne] at hf ⊢
          exact (hcells idx hidxlt).1 hf
        · intro ht
          rw [List.getElem?_set_ne hne] at ht
          obtain ⟨x, y, a, b, c', o', h1, h2, h3, h4, h5, h6, h7, h8⟩ := (hcells idx hidxlt).2 ht
          exact ⟨x, y, a, b, c', o', h1, h2, h3, h4, h5, h6, h7, by
            rw [List.getElem?_set_ne hne]; exact h8⟩

theorem inflate_inv {S : Nat → Nat → Prop} {size_x size_y r : Nat}
    {costs : Option (List (List Nat))} {m0 : List Nat} (tie : Nat → Nat)
    (hm0 : m0.length = size_x * size_y) :
    ∀ (fuel n : Nat) (L L' : InflationLayer) (master master' : List Nat),
      LoopInv S size_x size_y r costs m0 L master →
      inflate tie size_x size_y fuel n L master = .ok (L', master') →
      LoopInv S size_x size_y r costs m0 L' master' ∧ L'.inflation_queue_ = []
  | 0, n, L, L', master, master', hinv, h => by
    unfold inflate at h
    split at h
    · rename_i hq; cases h; exact ⟨hinv, hq⟩
    · cases h
  | fuel + 1, n, L, L', master, master', hinv, h => by
    unfold inflate at h
    split at h
    · rename_i ht; cases h; exact ⟨hinv, top_eq_none ht⟩
    · rename_i cur ht
      split at h
      · cases h
      · rename_i L1 master1 hv
        have hcur := hinv.queue cur (top_mem ht)
        have hinv1 := visit_inv hm0
          (hinv.setQueue (L.inflation_queue_.erase cur)
            (fun c hc => hinv.queue c (List.mem_of_mem_erase hc))) hcur hv
        exact inflate_inv tie hm0 fuel (n + 1) L1 L' master1 master' hinv1 h

theorem LoopInv.pushes {S : Nat → Nat → Prop} {size_x size_y r n : Nat}
    {costs : Option (List (List Nat))} {m0 : List Nat} {L L' : InflationLayer} {master : List Nat}
    (h : LoopInv S size_x size_y r costs m0 L master)
    (hp : Pushes (GoodEntry S size_x size_y r) n L L') :
    LoopInv S size_x size_y r costs m0 L' master := by
  obtain ⟨q, _, hq, rfl⟩ := hp
  refine h.setQueue _ ?_
  intro c hc
  rcases List.mem_append.1 hc with h1 | h1
  · exact hq c h1
  · exact h.queue c h1

theorem absDiff_self (a : Nat) : absDiff a a = 0 := by simp [absDiff]

theorem seedRow_inv {S : Nat → Nat → Prop} {size_x size_y r : Nat}
    {costs : Option (List (List Nat))} {m0 : List Nat} {j : Nat} (hj : j < size_y) :
    ∀ (cols : List Nat) (L L' : InflationLayer),
      (∀ i ∈ cols, i < size_x ∧ (m0[j * size_x + i]? = some LETHAL_OBSTACLE → S i j)) →
      LoopInv S size_x size_y r costs m0 L m0 →
      seedRow m0 size_x j cols L = .ok L' →
      LoopInv S size_x size_y r costs m0 L' m0
  | [], L, L', _, hinv, h => by
    unfold seedRow at h; cases h; exact hinv
  | i :: is, L, L', hcols, hinv, h => by
    unfold seedRow at h
    have hi := hcols i (by simp)
    have hrest : ∀ i ∈ is, i < size_x ∧ (m0[j * size_x + i]? = some LETHAL_OBSTACLE → S i j) :=
      fun k hk => hcols k (List.mem_cons_of_mem _ hk)
    split at h
    · cases h
    · rename_i cost hcost
      split at h
      · rename_i hl
        subst hl
        split at h
        · cases h
        · rename_i L1 he
          have hp := enqueue_pushes (S := S) hinv.sound hi.1 hj rfl (hi.2 hcost) he
          rw [hinv.radius] at hp
          exact seedRow_inv hj is L1 L' hrest (hinv.pushes hp) h
      · exact seedRow_inv hj is L L' hrest hinv h

theorem seedRows_inv {S : Nat → Nat → Prop} {size_x size_y r : Nat}
    {costs : Option (List (List Nat))} {m0 : List Nat} (cols : List Nat) :
    ∀ (rows : List Nat) (L L' : InflationLayer),
      (∀ j ∈ rows, j < size_y ∧
        ∀ i ∈ cols, i < size_x ∧ (m0[j * size_x + i]? = some LETHAL_OBSTACLE → S i j)) →
      LoopInv S size_x size_y r costs m0 L m0 →
      seedRows m0 size_x cols rows L = .ok L' →
      LoopInv S size_x size_y r costs m0 L' m0
  | [], L, L', _, hinv, h => by
    unfold seedRows at h; cases h; exact hinv
  | j :: js, L, L', hrows, hinv, h => by
    unfold seedRows at h
    have hj := hrows j (by simp)
    split at h
    · cases h
    · rename_i L1 h1
      exact seedRows_inv cols js L1 L'
        (fun k hk => hrows k (List.mem_cons_of_mem _ hk))
        (seedRow_inv hj.1 cols L L1 hj.2 hinv h1) h

theorem resetSeen_cases {L L1 : InflationLayer} {cells : Nat} (h : resetSeen L cells = .ok L1) :
    ∃ seen size, L1 = { L with seen_size_ := size, seen_ := some seen } ∧ cells ≤ seen.length ∧
      ∀ idx, idx < cells → seen[idx]? = some false := by
  have hrep : ∀ idx, idx < cells → (List.replicate cells false)[idx]? = some false :=
    fun idx hidx => List.getElem?_replicate_of_lt hidx
  unfold resetSeen at h
  split at h
  · cases h
    exact ⟨_, _, rfl, by simp, hrep⟩
  · rename_i seen hs
    split at h
    · cases h
      exact ⟨_, _, rfl, by simp, hrep⟩
    · split at h
      · rename_i hle
        cases h
        refine ⟨_, L.seen_size_, rfl, by simp, ?_⟩
        intro idx hidx
        rw [List.getElem?_append_left (by simpa using hidx)]
        exact hrep idx hidx
      · cases h

theorem expandHi_le (size : Nat) (v : Int) (r : Nat) : expandHi size v r ≤ size := by
  unfold expandHi; omega

theorem updateCosts_disabled {tie : Nat → Nat} {L : InflationLayer} {g : Costmap2D}
    {min_i min_j max_i max_j : Int} (h : L.enabled_ = false) :
    updateCosts tie L g min_i min_j max_i max_j = .ok (L, g) := by
  simp [updateCosts, h]

theorem updateCosts_inv {tie : Nat → Nat} {L L' : InflationLayer} {g g' : Costmap2D}
    {min_i min_j max_i max_j : Int} (hg : g.WellFormed) (hd : DistancesSound L)
    (hen : L.enabled_ = true)
    (h : updateCosts tie L g min_i min_j max_i max_j = .ok (L', g')) :
    LoopInv (IsSeed g (expandLo min_i L.cell_inflation_radius_)
        (expandHi g.size_x_ max_i L.cell_inflation_radius_)
        (expandLo min_j L.cell_inflation_radius_)
        (expandHi g.size_y_ max_j L.cell_inflation_radius_))
      g.size_x_ g.size_y_ L.cell_inflation_radius_ L.cached_costs_ g.costmap_ L' g'.costmap_ ∧
    L'.inflation_queue_ = [] ∧ g' = { g with costmap_ := g'.costmap_ } := by
  unfold updateCosts at h
  simp only [hen, Bool.true_eq_false, if_false] at h
  split at h
  · cases h
  · rename_i hq
    simp only [ne_eq, Decidable.not_not] at hq
    split at h
    · cases h
    · rename_i L1 hr
      obtain ⟨seen, size, rfl, hlen, hfalse⟩ := resetSeen_cases hr
      split at h
      · cases h
      · rename_i L2 hs
        split at h
        · cases h
        · rename_i L3 master hi
          cases h
          have hinv0 : LoopInv (IsSeed g (expandLo min_i L.cell_inflation_radius_)
              (expandHi g.size_x_ max_i L.cell_inflation_radius_)
              (expandLo min_j L.cell_inflation_radius_)
              (expandHi g.size_y_ max_j L.cell_inflation_radius_))
              g.size_x_ g.size_y_ L.cell_inflation_radius_ L.cached_costs_ g.costmap_
              { L with seen_size_ := size, seen_ := some seen } g.costmap_ := by
            refine ⟨hd, rfl, rfl, rfl, ?_, ⟨seen, rfl, hlen, ?_⟩⟩
            · intro c hc
              simp only [hq] at hc
              cases hc
            · intro idx hidx
              refine ⟨fun _ => rfl, fun ht => ?_⟩
              rw [hfalse idx hidx] at ht
              cases ht
          have hinv2 := seedRows_inv _ _ _ L2 ?_ hinv0 hs
          · have := inflate_inv tie hg.1 _ _ _ _ _ _ hinv2 hi
            exact ⟨this.1, this.2, rfl⟩
          · intro j hj
            rw [List.mem_range'_1] at hj
            have hhj := expandHi_le g.size_y_ max_j L.cell_inflation_radius_
            refine ⟨by omega, ?_⟩
            intro i hi'
            rw [List.mem_range'_1] at hi'
            have hhi := expandHi_le g.size_x_ max_i L.cell_inflation_radius_
            refine ⟨by omega, ?_⟩
            intro hl
            exact ⟨by omega, by omega, by omega, by omega, by omega, by omega, hl⟩

theorem hypot_le {a b r : Nat} (h : hypot a b ≤ r * r) : a ≤ r ∧ b ≤ r := by
  unfold hypot at h
  constructor
  · exact Nat.mul_self_le_mul_self_iff.1 (by omega)
  · exact Nat.mul_self_le_mul_self_iff.1 (by omega)

theorem count_false_set {seen : List Bool} {idx cells : Nat} (hidx : idx < cells)
    (hs : seen[idx]? = some false) :
    ((seen.set idx true).take cells).count false + 1 = (seen.take cells).count false := by
  have hlt : idx < seen.length := by
    by_contra hc
    rw [List.getElem?_eq_none (by omega)] at hs
    cases hs
  have hlt' : idx < (seen.take cells).length := by simp; omega
  have hget : (seen.take cells)[idx] = false := by
    have h1 : (seen.take cells)[idx]? = some false := by
      rw [List.getElem?_take_of_lt hidx]; exact hs
    rw [List.getElem?_eq_getElem hlt'] at h1
    exact Option.some.inj h1
  rw [List.set_take, List.count_set _ _ _ _ hlt', hget]
  have hpos : 0 < (seen.take cells).count false := by
    rw [List.count_pos_iff]
    rw [← hget]; exact List.getElem_mem _
  simp
  omega

theorem unseenCount_le (L : InflationLayer) (cells : Nat) : unseenCount L cells ≤ cells := by
  unfold unseenCount
  split
  · omega
  · rename_i seen _
    exact le_trans (List.count_le_length _ _) (by simp)

theorem absDiff_pred_le (a b : Nat) : absDiff (a - 1) b ≤ absDiff a b + 1 := by
  unfold absDiff; split <;> split <;> omega

theorem absDiff_succ_le (a b : Nat) : absDiff (a + 1) b ≤ absDiff a b + 1 := by
  unfold absDiff; split <;> split <;> omega

theorem enqueue_if_total {L : InflationLayer} {seen : List Bool} (c : Prop) [Decidable c]
    (index mx my sx sy : Nat) (hseen : L.seen_ = some seen) (hi : c → index < seen.length)
    (hk : ∃ v, distanceLookup L mx my sx sy = .ok v) :
    ∃ L', (if c then enqueue L index mx my sx sy else .ok L) = .ok L' := by
  by_cases hc : c
  · rw [if_pos hc]; exact enqueue_total hseen (hi hc) hk
  · rw [if_neg hc]; exact ⟨L, rfl⟩

theorem KernelCovers.distance {L : InflationLayer} (hk : KernelCovers L) (mx my sx sy : Nat)
    (hx : absDiff mx sx ≤ L.cell_inflation_radius_ + 1)
    (hy : absDiff my sy ≤ L.cell_inflation_radius_ + 1) :
    ∃ v, distanceLookup L mx my sx sy = .ok v := (hk _ _ hx hy).1

theorem enqueueNeighbours_total {S : Nat → Nat → Prop} {size_x size_y r : Nat}
    {L : InflationLayer} {seen : List Bool} {index mx my sx sy : Nat}
    (hd : DistancesSound L) (hk : KernelCovers L) (hr : L.cell_inflation_radius_ = r)
    (hseen : L.seen_ = some seen) (hlen : size_x * size_y ≤ seen.length)
    (hx : mx < size_x) (hy : my < size_y) (hidx : index = my * size_x + mx) (hs : S sx sy)
    (hox : absDiff mx sx ≤ r) (hoy : absDiff my sy ≤ r) :
    ∃ L', enqueueNeighbours L size_x size_y index mx my sx sy = .ok L' := by
  have hi : index < size_x * size_y := hidx ▸ idx_lt hx hy
  have a1 := absDiff_pred_le mx sx
  have a2 := absDiff_pred_le my sy
  have a3 := absDiff_succ_le mx sx
  have a4 := absDiff_succ_le my sy
  unfold enqueueNeighbours
  obtain ⟨L1, h1⟩ := enqueue_if_total (0 < mx) (index - 1) (mx - 1) my sx sy hseen (fun _ => by omega)
    (hk.distance _ _ _ _ (by omega) (by omega))
  have p1 : Pushes (GoodEntry S size_x size_y r) 1 L L1 :=
    enqueue_if_pushes S size_x size_y (0 < mx) hd hr
      (fun _ => Nat.lt_of_le_of_lt (Nat.sub_le _ _) hx) (fun _ => hy)
      (fun hc => by subst hidx; omega) hs h1
  rw [h1]; simp only
  obtain ⟨L2, h2⟩ := enqueue_if_total (0 < my) (index - size_x) mx (my - 1) sx sy (p1.seen.trans hseen) (fun _ => by omega)
    ((p1.covers hk).distance _ _ _ _ (by rw [p1.radius]; omega) (by rw [p1.radius]; omega))
  have p2 : Pushes (GoodEntry S size_x size_y r) 1 L1 L2 :=
    enqueue_if_pushes S size_x size_y (0 < my) (p1.sound hd) (p1.radius.trans hr)
      (fun _ => hx) (fun _ => Nat.lt_of_le_of_lt (Nat.sub_le _ _) hy)
      (fun hc => idx_up hidx hc) hs h2
  have p12 := p1.trans p2
  rw [h2]; simp only
  obtain ⟨L3, h3⟩ := enqueue_if_total (mx < usub1 size_x) (index + 1) (mx + 1) my sx sy (p12.seen.trans hseen)
    (fun hc => by
      have h1 := lt_of_lt_usub1 hx hc
      have h2 : my * size_x + (mx + 1) < size_x * size_y := idx_lt h1 hy
      omega)
    ((p12.covers hk).distance _ _ _ _ (by rw [p12.radius]; omega) (by rw [p12.radius]; omega))
  have p3 : Pushes (GoodEntry S size_x size_y r) 1 L2 L3 :=
    enqueue_if_pushes S size_x size_y (mx < usub1 size_x) (p12.sound hd)
      (p12.radius.trans hr) (fun hc => lt_of_lt_usub1 hx hc) (fun _ => hy)
      (fun hc => by subst hidx; omega) hs h3
  have p123 := p12.trans p3
  rw [h3]; simp only
  exact enqueue_if_total (my < usub1 size_y) (index + size_x) mx (my + 1) sx sy (p123.seen.trans hseen)
    (fun hc => by
      have h1 := lt_of_lt_usub1 hy hc
      have h2 : (my + 1) * size_x + mx < size_x * size_y := idx_lt hx h1
      have h3 : index + size_x = (my + 1) * size_x + mx := idx_down hidx
      omega)
    ((p123.covers hk).distance _ _ _ _ (by rw [p123.radius]; omega) (by rw [p123.radius]; omega))

theorem visit_total {S : Nat → Nat → Prop} {size_x size_y r : Nat}
    {costs : Option (List (List Nat))} {m0 : List Nat} {cur : CellData}
    {L : InflationLayer} {master : List Nat}
    (hm0 : m0.length = size_x * size_y)
    (hinv : LoopInv S size_x size_y r costs m0 L master) (hk : KernelCovers L)
    (hc : GoodEntry S size_x size_y r cur) :
    ∃ out, visit size_x size_y cur L master = .ok out := by
  obtain ⟨seen, hseen, hlen, _⟩ := hinv.seen
  have hidx : cur.index_ < size_x * size_y := by rw [hc.hidx]; exact idx_lt hc.hx hc.hy
  have hoff := hypot_le hc.hdist
  unfold visit
  rw [hseen]
  simp only
  have hs : seen[cur.index_]? = some seen[cur.index_] := List.getElem?_eq_getElem (by omega)
  rw [hs]
  cases seen[cur.index_] with
  | true => exact ⟨_, rfl⟩
  | false =>
    simp only
    have hr := hinv.radius
    obtain ⟨cost, hcost⟩ := (hk (absDiff cur.x_ cur.src_x_) (absDiff cur.y_ cur.src_y_)
      (by omega) (by omega)).2
    have hcost' : costLookup { L with seen_ := some (seen.set cur.index_ true) }
        cur.x_ cur.y_ cur.src_x_ cur.src_y_ = .ok cost := hcost
    rw [hcost']
    simp only
    have hml : cur.index_ < master.length := by rw [hinv.length_eq, hm0]; exact hidx
    have hm : master[cur.index_]? = some master[cur.index_] := List.getElem?_eq_getElem hml
    rw [hm]
    simp only
    obtain ⟨L2, h2⟩ := enqueueNeighbours_total (S := S) (r := r)
      (L := { L with seen_ := some (seen.set cur.index_ true) })
      hinv.sound hk hr rfl (by simpa using hlen) hc.hx hc.hy hc.hidx hc.hsrc hoff.1 hoff.2
    rw [h2]
    exact ⟨_, rfl⟩

theorem visit_measure {S : Nat → Nat → Prop} {size_x size_y r : Nat}
    {costs : Option (List (List Nat))} {m0 : List Nat} {cur : CellData}
    {L L' : InflationLayer} {master master' : List Nat}
    (hinv : LoopInv S size_x size_y r costs m0 L master)
    (hc : GoodEntry S size_x size_y r cur)
    (h : visit size_x size_y cur L master = .ok (L', master')) :
    loopMeasure L' (size_x * size_y) ≤ loopMeasure L (size_x * size_y) ∧
      (KernelCovers L → KernelCovers L') := by
  obtain ⟨seen, hseen, hlen, hcells⟩ := hinv.seen
  rcases visit_cases hinv.sound hinv.radius hseen hc h with
    ⟨_, rfl, rfl⟩ | ⟨hs, cost, old, hcost, hold, rfl, _, hp⟩
  · exact ⟨le_refl _, id⟩
  · have hidx : cur.index_ < size_x * size_y := by rw [hc.hidx]; exact idx_lt hc.hx hc.hy
    refine ⟨?_, fun hk => hp.covers hk⟩
    obtain ⟨q, hql, _, rfl⟩ := hp
    have hcount := count_false_set hidx hs
    simp only [loopMeasure, unseenCount, hseen, List.length_append]
    omega

theorem inflate_total {S : Nat → Nat → Prop} {size_x size_y r : Nat}
    {costs : Option (List (List Nat))} {m0 : List Nat} (tie : Nat → Nat)
    (hm0 : m0.length = size_x * size_y) :
    ∀ (fuel n : Nat) (L : InflationLayer) (master : List Nat),
      LoopInv S size_x size_y r costs m0 L master → KernelCovers L →
      loopMeasure L (size_x * size_y) ≤ fuel →
      ∃ out, inflate tie size_x size_y fuel n L master = .ok out
  | 0, n, L, master, _, _, hfuel => by
    unfold inflate
    have : L.inflation_queue_ = [] := by
      unfold loopMeasure at hfuel
      exact List.length_eq_zero.1 (by omega)
    rw [if_pos this]
    exact ⟨_, rfl⟩
  | fuel + 1, n, L, master, hinv, hk, hfuel => by
    unfold inflate
    cases ht : top (tie n) L.inflation_queue_ with
    | none => exact ⟨_, rfl⟩
    | some cur =>
      simp only
      have hmem := top_mem ht
      have hcur := hinv.queue cur hmem
      have hinv1 := hinv.setQueue (L.inflation_queue_.erase cur)
        (fun c hc => hinv.queue c (List.mem_of_mem_erase hc))
      have hk1 : KernelCovers { L with inflation_queue_ := L.inflation_queue_.erase cur } := hk
      obtain ⟨⟨L1, master1⟩, hv⟩ := visit_total hm0 hinv1 hk1 hcur
      rw [hv]
      simp only
      have hm := visit_measure hinv1 hcur hv
      have hlen : (L.inflation_queue_.erase cur).length = L.inflation_queue_.length - 1 :=
        List.length_erase_of_mem hmem
      have hpos : 0 < L.inflation_queue_.length := List.length_pos_of_mem hmem
      have hle : loopMeasure L1 (size_x * size_y) ≤ fuel := by
        have h1 := hm.1
        have h2 : loopMeasure { L with inflation_queue_ := L.inflation_queue_.erase cur }
            (size_x * size_y) + 1 = loopMeasure L (size_x * size_y) := by
          simp only [loopMeasure, unseenCount, hlen]
          omega
        omega
      exact inflate_total tie hm0 fuel (n + 1) L1 master1 (visit_inv hm0 hinv1 hcur hv)
        (hm.2 hk1) hle

theorem seedRow_total {S : Nat → Nat → Prop} {size_x size_y r : Nat}
    {costs : Option (List (List Nat))} {m0 : List Nat} {j : Nat} (hj : j < size_y)
    (hm0 : m0.length = size_x * size_y) :
    ∀ (cols : List Nat) (L : InflationLayer),
      (∀ i ∈ cols, i < size_x ∧ (m0[j * size_x + i]? = some LETHAL_OBSTACLE → S i j)) →
      LoopInv S size_x size_y r costs m0 L m0 → KernelCovers L →
      ∃ L', seedRow m0 size_x j cols L = .ok L' ∧ KernelCovers L'
  | [], L, _, _, hk => ⟨L, rfl, hk⟩
  | i :: is, L, hcols, hinv, hk => by
    unfold seedRow
    have hi := hcols i (by simp)
    have hrest : ∀ i ∈ is, i < size_x ∧ (m0[j * size_x + i]? = some LETHAL_OBSTACLE → S i j) :=
      fun k hk => hcols k (List.mem_cons_of_mem _ hk)
    have hidx : j * size_x + i < m0.length := hm0 ▸ idx_lt hi.1 hj
    have hm : m0[j * size_x + i]? = some m0[j * size_x + i] := List.getElem?_eq_getElem hidx
    rw [hm]
    simp only
    by_cases hl : m0[j * size_x + i] = LETHAL_OBSTACLE
    · rw [if_pos hl]
      obtain ⟨seen, hseen, hlen, _⟩ := hinv.seen
      have hse : j * size_x + i < seen.length := by omega
      obtain ⟨L1, h1⟩ := enqueue_total hseen hse
        (hk.distance i j i j (by rw [absDiff_self]; omega) (by rw [absDiff_self]; omega))
      have hp := enqueue_pushes (S := S) hinv.sound hi.1 hj rfl (hi.2 (hm.trans (by rw [hl]))) h1
      rw [hinv.radius] at hp
      rw [h1]
      simp only
      exact seedRow_total hj hm0 is L1 hrest (hinv.pushes hp) (hp.covers hk)
    · rw [if_neg hl]
      exact seedRow_total hj hm0 is L hrest hinv hk

theorem seedRows_total {S : Nat → Nat → Prop} {size_x size_y r : Nat}
    {costs : Option (List (List Nat))} {m0 : List Nat} (cols : List Nat)
    (hm0 : m0.length = size_x * size_y) :
    ∀ (rows : List Nat) (L : InflationLayer),
      (∀ j ∈ rows, j < size_y ∧
        ∀ i ∈ cols, i < size_x ∧ (m0[j * size_x + i]? = some LETHAL_OBSTACLE → S i j)) →
      LoopInv S size_x size_y r costs m0 L m0 → KernelCovers L →
      ∃ L', seedRows m0 size_x cols rows L = .ok L' ∧ KernelCovers L'
  | [], L, _, _, hk => ⟨L, rfl, hk⟩
  | j :: js, L, hrows, hinv, hk => by
    unfold seedRows
    have hj := hrows j (by simp)
    obtain ⟨L1, h1, hk1⟩ := seedRow_total hj.1 hm0 cols L hj.2 hinv hk
    rw [h1]
    simp only
    exact seedRows_total cols hm0 js L1 (fun k hk => hrows k (List.mem_cons_of_mem _ hk))
      (seedRow_inv hj.1 cols L L1 hj.2 hinv h1) hk1

theorem resetSeen_total {L : InflationLayer} (cells : Nat) (hs : SeenSized L) :
    ∃ L1, resetSeen L cells = .ok L1 := by
  unfold resetSeen
  split
  · exact ⟨_, rfl⟩
  · rename_i seen hseen
    split
    · exact ⟨_, rfl⟩
    · rename_i he
      simp only [ne_eq, Decidable.not_not] at he
      have := hs seen hseen
      rw [if_pos (by omega)]
      exact ⟨_, rfl⟩

theorem updateCosts_total {tie : Nat → Nat} {L : InflationLayer} {g : Costmap2D}
    (min_i min_j max_i max_j : Int) (hg : g.WellFormed) (hd : DistancesSound L)
    (hk : KernelCovers L) (hs : SeenSized L) (hq : L.inflation_queue_ = []) :
    ∃ out, updateCosts tie L g min_i min_j max_i max_j = .ok out := by
  unfold updateCosts
  by_cases hen : L.enabled_ = false
  · rw [if_pos hen]; exact ⟨_, rfl⟩
  · rw [if_neg hen, if_neg (by simp [hq])]
    simp only
    obtain ⟨L1, hr⟩ := resetSeen_total (g.size_x_ * g.size_y_) hs
    rw [hr]
    simp only
    obtain ⟨seen, size, rfl, hlen, hfalse⟩ := resetSeen_cases hr
    have hinv0 : LoopInv (IsSeed g (expandLo min_i L.cell_inflation_radius_)
        (expandHi g.size_x_ max_i L.cell_inflation_radius_)
        (expandLo min_j L.cell_inflation_radius_)
        (expandHi g.size_y_ max_j L.cell_inflation_radius_))
        g.size_x_ g.size_y_ L.cell_inflation_radius_ L.cached_costs_ g.costmap_
        { L with seen_size_ := size, seen_ := some seen } g.costmap_ := by
      refine ⟨hd, rfl, rfl, rfl, ?_, ⟨seen, rfl, hlen, ?_⟩⟩
      · intro c hc
        simp only [hq] at hc
        cases hc
      · intro idx hidx
        refine ⟨fun _ => rfl, fun ht => ?_⟩
        rw [hfalse idx hidx] at ht
        cases ht
    have hrows : ∀ j ∈ List.range' (expandLo min_j L.cell_inflation_radius_)
        (expandHi g.size_y_ max_j L.cell_inflation_radius_ -
          expandLo min_j L.cell_inflation_radius_), j < g.size_y_ ∧
        ∀ i ∈ List.range' (expandLo min_i L.cell_inflation_radius_)
          (expandHi g.size_x_ max_i L.cell_inflation_radius_ -
            expandLo min_i L.cell_inflation_radius_), i < g.size_x_ ∧
          (g.costmap_[j * g.size_x_ + i]? = some LETHAL_OBSTACLE →
            IsSeed g (expandLo min_i L.cell_inflation_radius_)
              (expandHi g.size_x_ max_i L.cell_inflation_radius_)
              (expandLo min_j L.cell_inflation_radius_)
              (expandHi g.size_y_ max_j L.cell_inflation_radius_) i j) := by
      intro j hj
      rw [List.mem_range'_1] at hj
      have hhj := expandHi_le g.size_y_ max_j L.cell_inflation_radius_
      refine ⟨by omega, ?_⟩
      intro i hi'
      rw [List.mem_range'_1] at hi'
      have hhi := expandHi_le g.size_x_ max_i L.cell_inflation_radius_
      refine ⟨by omega, ?_⟩
      intro hl
      exact ⟨by omega, by omega, by omega, by omega, by omega, by omega, hl⟩
    obtain ⟨L2, h2, hk2⟩ := seedRows_total _ hg.1 _ _ hrows hinv0 hk
    rw [h2]
    simp only
    have hinv2 := seedRows_inv _ _ _ L2 hrows hinv0 h2
    obtain ⟨⟨L3, master⟩, h3⟩ := inflate_total tie hg.1 (popBound L2 (g.size_x_ * g.size_y_)) 0
      L2 g.costmap_ hinv2 hk2 (by
        have := unseenCount_le L2 (g.size_x_ * g.size_y_)
        unfold loopMeasure popBound
        omega)
    rw [h3]
    exact ⟨_, rfl⟩

theorem tableAt_map_range (f : Nat → Nat → Nat) (n i j : Nat) :
    tableAt (some ((List.range n).map fun i => (List.range n).map fun j => f i j)) i j =
      if i < n ∧ j < n then .ok (f i j) else .error .kernelOutOfBounds := by
  unfold tableAt
  simp only [List.getElem?_map]
  by_cases hi : i < n
  · rw [List.getElem?_range hi]
    simp only [Option.map_some', List.getElem?_map]
    by_cases hj : j < n
    · rw [List.getElem?_range hj]; simp [hi, hj]
    · rw [List.getElem?_eq_none (by simpa using hj)]; simp [hj]
  · rw [List.getElem?_eq_none (by simpa using hi)]; simp [hi]

theorem kernelBuilt_sound {cc : Nat → Nat} {L : InflationLayer} (h : KernelBuilt cc L) :
    DistancesSound L := by
  intro i j v hv
  rw [h.2.2.1] at hv
  unfold kernelDistances at hv
  rw [tableAt_map_range] at hv
  split at hv
  · cases hv; rfl
  · cases hv

theorem kernelBuilt_covers {cc : Nat → Nat} {L : InflationLayer} (h : KernelBuilt cc L) :
    KernelCovers L := by
  intro i j hi hj
  rw [h.2.2.1, h.2.2.2]
  unfold kernelDistances kernelCosts
  have hc : i < L.cell_inflation_radius_ + 2 ∧ j < L.cell_inflation_radius_ + 2 :=
    ⟨by omega, by omega⟩
  rw [tableAt_map_range, tableAt_map_range, if_pos hc, if_pos hc]
  exact ⟨⟨_, rfl⟩, ⟨_, rfl⟩⟩

theorem kernelBuilt_cost {cc : Nat → Nat} {L : InflationLayer} (h : KernelBuilt cc L)
    {i j v : Nat} (hv : tableAt L.cached_costs_ i j = .ok v) : v = cc (hypot i j) % 256 := by
  rw [h.2.2.2] at hv
  unfold kernelCosts at hv
  rw [tableAt_map_range] at hv
  split at hv
  · cases hv; rfl
  · cases hv

theorem distancesSound_of_null {L : InflationLayer} (h : L.cached_distances_ = none) :
    DistancesSound L := by
  intro i j v hv
  rw [h] at hv
  cases hv

theorem cell_unique {n x y x' y' : Nat} (hx : x < n) (hx' : x' < n)
    (h : y * n + x = y' * n + x') : x = x' ∧ y = y' := by
  have h1 : (y * n + x) % n = (y' * n + x') % n := by rw [h]
  rw [Nat.add_comm (y * n), Nat.add_comm (y' * n), Nat.add_mul_mod_self_right,
    Nat.add_mul_mod_self_right, Nat.mod_eq_of_lt hx, Nat.mod_eq_of_lt hx'] at h1
  subst h1
  have h2 : y * n = y' * n := by omega
  exact ⟨rfl, Nat.eq_of_mul_eq_mul_right (by omega) h2⟩

theorem updateCosts_cell {tie : Nat → Nat} {L L' : InflationLayer} {g g' : Costmap2D}
    {min_i min_j max_i max_j : Int} (hg : g.WellFormed) (hd : DistancesSound L)
    (h : updateCosts tie L g min_i min_j max_i max_j = .ok (L', g'))
    {x y : Nat} (hx : x < g.size_x_) (hy : y < g.size_y_) :
    g'.getCost x y = g.getCost x y ∨
    ∃ a b cost old,
      IsSeed g (expandLo min_i L.cell_inflation_radius_)
        (expandHi g.size_x_ max_i L.cell_inflation_radius_)
        (expandLo min_j L.cell_inflation_radius_)
        (expandHi g.size_y_ max_j L.cell_inflation_radius_) a b ∧
      hypot (absDiff x a) (absDiff y b) ≤ L.cell_inflation_radius_ * L.cell_inflation_radius_ ∧
      tableAt L.cached_costs_ (absDiff x a) (absDiff y b) = .ok cost ∧
      g.getCost x y = some old ∧ g'.getCost x y = some (writeRule old cost) := by
  by_cases hen : L.enabled_ = false
  · rw [updateCosts_disabled hen] at h
    cases h
    exact Or.inl rfl
  · have hen' : L.enabled_ = true := by simpa using hen
    obtain ⟨hinv, _, hg'⟩ := updateCosts_inv hg hd hen' h
    obtain ⟨seen, _, hlen, hcells⟩ := hinv.seen
    have hidx : y * g.size_x_ + x < g.size_x_ * g.size_y_ := idx_lt hx hy
    have hget : g'.getCost x y = g'.costmap_[y * g.size_x_ + x]? := by
      rw [hg']; rfl
    have hsl : y * g.size_x_ + x < seen.length := by omega
    have hs : seen[y * g.size_x_ + x]? = some seen[y * g.size_x_ + x] :=
      List.getElem?_eq_getElem hsl
    cases hb : seen[y * g.size_x_ + x] with
    | false =>
      left
      rw [hb] at hs
      rw [hget, (hcells _ hidx).1 hs]
      rfl
    | true =>
      right
      rw [hb] at hs
      obtain ⟨x', y', a, b, cost, old, hx', _, hi, hsrc, hdist, hcost, hold, hnew⟩ :=
        (hcells _ hidx).2 hs
      obtain ⟨rfl, rfl⟩ := cell_unique hx hx' hi
      exact ⟨a, b, cost, old, hsrc, hdist, hcost, hold, hget.trans hnew⟩

theorem exampleLayer_built (r : Nat) (hr : 1 ≤ r) : KernelBuilt exampleCost (exampleLayer r) :=
  ⟨hr, rfl, rfl, rfl⟩

theorem seenSized_of_null {L : InflationLayer} (h : L.seen_ = none) : SeenSized L := by
  intro seen hs
  rw [h] at hs
  cases hs

theorem toInt32_ge {z : Int} (h : z < 2147483648) : z ≤ toInt32 z := by
  unfold toInt32; omega

theorem toInt32_le {z : Int} (h : -2147483648 ≤ z) : toInt32 z ≤ z := by
  unfold toInt32; omega

theorem expandLo_le {v : Int} {r a : Nat} (hv : v < 2147483648) (h : expandLo v r ≤ a) :
    v - r ≤ a := by
  have := toInt32_ge (z := v - r) (by omega)
  unfold expandLo at h
  omega

theorem lt_expandHi {size : Nat} {v : Int} {r a : Nat} (hv : -2147483648 ≤ v)
    (h : a < expandHi size v r) : (a : Int) < v + r := by
  have := toInt32_le (z := v + r) (by omega)
  unfold expandHi at h
  omega

theorem absDiff_bound {x a r : Nat} (h : absDiff x a ≤ r) : x ≤ a + r ∧ a ≤ x + r := by
  unfold absDiff at h; split at h <;> omega

theorem stdMin_eq_min (a b : ℚ) : stdMin a b = min a b := by
  unfold stdMin
  split
  · rename_i h; exact (min_eq_right (le_of_lt h)).symm
  · rename_i h; exact (min_eq_left (not_lt.1 h)).symm

theorem stdMax_eq_max (a b : ℚ) : stdMax a b = max a b := by
  unfold stdMax
  split
  · rename_i h; exact (max_eq_right (le_of_lt h)).symm
  · rename_i h; exact (max_eq_left (not_lt.1 h)).symm

theorem updateBounds_else (L : InflationLayer) (b : Bounds) (h : L.need_reinflation_ = false) :
    updateBounds L b =
      ({ L with last_min_x_ := b.min_x, last_min_y_ := b.min_y,
                last_max_x_ := b.max_x, last_max_y_ := b.max_y },
       { min_x := min L.last_min_x_ b.min_x - L.inflation_radius_,
         min_y := min L.last_min_y_ b.min_y - L.inflation_radius_,
         max_x := max L.last_max_x_ b.max_x + L.inflation_radius_,
         max_y := max L.last_max_y_ b.max_y + L.inflation_radius_ }) := by
  unfold updateBounds
  rw [if_neg (by simp [h])]
  simp only [stdMin_eq_min, stdMax_eq_max]

theorem fillTranslation_length : ∀ (is : List Nat) (t : List Int),
    (fillTranslation is t).length = t.length
  | [], t => rfl
  | i :: is, t => by
    unfold fillTranslation
    rw [fillTranslation_length is]
    simp

theorem fillTranslation_getElem? : ∀ (is : List Nat) (t : List Int) (k : Nat),
    (fillTranslation is t)[k]? =
      if k ∈ is ∧ k < t.length then some (1 + (97 * ((k : Int) - 1)) / 251) else t[k]?
  | [], t, k => by simp [fillTranslation]
  | i :: is, t, k => by
    unfold fillTranslation
    rw [fillTranslation_getElem? is]
    simp only [List.length_set, List.mem_cons]
    by_cases hk : k < t.length
    · by_cases hin : k ∈ is
      · simp [hin, hk]
      · by_cases hik : k = i
        · subst hik
          simp [hin, hk]
        · simp [hin, hik, hk, List.getElem?_set_ne (Ne.symm hik)]
    · have hnone : t[k]? = none := List.getElem?_eq_none (by omega)
      have hnone' : (t.set i (1 + 97 * ((i : Int) - 1) / 251))[k]? = none :=
        List.getElem?_eq_none (by simp; omega)
      simp [hk, hnone, hnone']

theorem makeTranslationTable_getElem? (fresh : Nat → Int) (i : Nat) (hi : i < 256) :
    (makeTranslationTable fresh)[i]? = some (forward i) := by
  unfold makeTranslationTable
  simp only
  rw [fillTranslation_getElem?]
  simp only [List.length_set, List.length_map, List.length_range, List.mem_range'_1]
  unfold forward
  by_cases h0 : i = 0
  · subst h0; simp
  · by_cases h253 : i = 253
    · subst h253; simp
    · by_cases h254 : i = 254
      · subst h254; simp
      · by_cases h255 : i = 255
        · subst h255; simp
        · rw [if_pos ⟨⟨by omega, by omega⟩, hi⟩]
          simp [h0, h253, h254, h255]

theorem makeTranslationTable_length (fresh : Nat → Int) :
    (makeTranslationTable fresh).length = 256 := by
  unfold makeTranslationTable
  simp [fillTranslation_length]

theorem resize_length (data : List Int) (n : Nat) : (resize data n).length = n := by
  unfold resize
  simp
  omega

theorem packCells_spec (table : List Int) (cells : List Nat) :
    ∀ (is : List Nat) (out : List Int),
      (∀ i ∈ is, i < out.length ∧ ∃ c, cells[i]? = some c ∧ c < table.length) →
      ∃ out', packCells table cells is out = .ok out' ∧ out'.length = out.length ∧
        (∀ k c, k ∈ is → cells[k]? = some c → out'[k]? = table[c]?) ∧
        ∀ k, k ∉ is → out'[k]? = out[k]?
  | [], out, _ => ⟨out, rfl, rfl, by simp, fun _ _ => rfl⟩
  | i :: is, out, h => by
    obtain ⟨hi, c, hc, hct⟩ := h i (by simp)
    have ht : table[c]? = some table[c] := List.getElem?_eq_getElem hct
    obtain ⟨out', hp, hl, hk, hf⟩ := packCells_spec table cells is (out.set i table[c])
      (fun k hk => by
        have := h k (List.mem_cons_of_mem _ hk)
        simpa using this)
    refine ⟨out', ?_, by simpa using hl, ?_, ?_⟩
    · unfold packCells
      rw [hc]
      simp only
      rw [ht]
      exact hp
    · intro k c' hmem hc'
      by_cases hin : k ∈ is
      · exact hk k c' hin hc'
      · have hki : k = i := by
          rcases List.mem_cons.1 hmem with h1 | h1
          · exact h1
          · exact absurd h1 hin
        subst hki
        rw [hc] at hc'
        cases hc'
        rw [hf k hin, List.getElem?_set_eq_of_lt _ hi, ht]
    · intro k hk'
      have h1 : k ∉ is := fun hh => hk' (List.mem_cons_of_mem _ hh)
      have h2 : i ≠ k := fun hh => hk' (by simp [hh])
      rw [hf k h1, List.getElem?_set_ne h2]

theorem prepareMap_spec (w : CostmapWrapper)
    (hlen : w.costmap.costmap_.length = w.costmap.size_x_ * w.costmap.size_y_)
    (htab : w.cost_translation_table.length = 256) (hb : w.costmap.Bytes) :
    ∃ data, packCells w.cost_translation_table w.costmap.costmap_
        (List.range (resize w.map.data (w.costmap.size_x_ * w.costmap.size_y_)).length)
        (resize w.map.data (w.costmap.size_x_ * w.costmap.size_y_)) = .ok data ∧
      data.length = w.costmap.size_x_ * w.costmap.size_y_ ∧
      ∀ (k c : Nat), w.costmap.costmap_[k]? = some c → data[k]? = w.cost_translation_table[c]? := by
  obtain ⟨data, hp, hl, hk, _⟩ := packCells_spec w.cost_translation_table w.costmap.costmap_
    (List.range (resize w.map.data (w.costmap.size_x_ * w.costmap.size_y_)).length)
    (resize w.map.data (w.costmap.size_x_ * w.costmap.size_y_))
    (fun i hi => by
      rw [List.mem_range] at hi
      refine ⟨hi, ?_⟩
      rw [resize_length] at hi
      have hlt : i < w.costmap.costmap_.length := by omega
      refine ⟨w.costmap.costmap_[i], List.getElem?_eq_getElem hlt, ?_⟩
      rw [htab]
      exact hb _ (List.getElem_mem _))
  refine ⟨data, hp, by rw [hl, resize_length], ?_⟩
  intro k c hc
  have hlt : k < w.costmap.costmap_.length := by
    by_contra hge
    rw [List.getElem?_eq_none (by omega)] at hc
    cases hc
  exact hk k c (by rw [List.mem_range, resize_length]; omega) hc

theorem bytes_example : (gridOf 7 1 [0, 1, 126, 252, 253, 254, 255]).Bytes := by
  intro c hc
  simp [gridOf] at hc
  omega

theorem bytes_single (c : Nat) (hc : c < 256) : (gridOf 1 1 [c]).Bytes := by
  intro d hd
  simp [gridOf] at hd
  omega

theorem enqueue_pending {size_x : Nat} {L L' : InflationLayer} {index mx my sx sy : Nat}
    (hd : DistancesSound L) (hidx : index = my * size_x + mx)
    (hr : hypot (absDiff mx sx) (absDiff my sy) ≤
      L.cell_inflation_radius_ * L.cell_inflation_radius_)
    (h : enqueue L index mx my sx sy = .ok L') : Pending L' size_x mx my := by
  unfold enqueue at h
  split at h
  · cases h
  · rename_i seen hseen
    split at h
    · cases h
    · rename_i ht
      cases h
      exact Or.inl ⟨seen, hseen, hidx ▸ ht⟩
    · split at h
      · cases h
      · rename_i d hdl
        have hv := hd _ _ _ hdl
        split at h
        · omega
        · cases h
          exact Or.inr ⟨_, List.mem_cons_self _ _, rfl, rfl⟩

theorem Pushes.pending {P : CellData → Prop} {n size_x x y : Nat} {L L' : InflationLayer}
    (h : Pushes P n L L') (hp : Pending L size_x x y) : Pending L' size_x x y := by
  obtain ⟨q, _, _, rfl⟩ := h
  rcases hp with hs | ⟨c, hc, hxy⟩
  · exact Or.inl hs
  · exact Or.inr ⟨c, List.mem_append_right _ hc, hxy⟩

theorem Pushes.seenAt {P : CellData → Prop} {n size_x x y : Nat} {L L' : InflationLayer}
    (h : Pushes P n L L') (hp : SeenAt L' size_x x y) : SeenAt L size_x x y := by
  obtain ⟨q, _, _, rfl⟩ := h
  exact hp

theorem enqueue_if_pending (size_x : Nat) {L L' : InflationLayer} {index mx my sx sy : Nat}
    (c : Prop) [Decidable c] (hc : c) (hd : DistancesSound L) (hidx : index = my * size_x + mx)
    (hr : hypot (absDiff mx sx) (absDiff my sy) ≤
      L.cell_inflation_radius_ * L.cell_inflation_radius_)
    (h : (if c then enqueue L index mx my sx sy else .ok L) = .ok L') :
    Pending L' size_x mx my := by
  rw [if_pos hc] at h
  exact enqueue_pending hd hidx hr h

theorem usub1_lt {n m : Nat} (h : m + 1 < n) : m < usub1 n := by
  rw [usub1_of_pos (by omega)]; omega

theorem enqueueNeighbours_pending {S : Nat → Nat → Prop} {size_x size_y r : Nat}
    {L L' : InflationLayer} {index mx my sx sy : Nat} (hd : DistancesSound L)
    (hr : L.cell_inflation_radius_ = r)
    (hx : mx < size_x) (hy : my < size_y) (hidx : index = my * size_x + mx) (hs : S sx sy)
    (h : enqueueNeighbours L size_x size_y index mx my sx sy = .ok L')
    {x' y' : Nat} (hadj : Adjacent mx my x' y') (hx' : x' < size_x) (hy' : y' < size_y)
    (hdist : hypot (absDiff x' sx) (absDiff y' sy) ≤ r * r) : Pending L' size_x x' y' := by
  unfold enqueueNeighbours at h
  cases h1 : (if 0 < mx then enqueue L (index - 1) (mx - 1) my sx sy else Except.ok L) with
  | error e => rw [h1] at h; cases h
  | ok L1 =>
    rw [h1] at h
    simp only at h
    have p1 : Pushes (GoodEntry S size_x size_y r) 1 L L1 :=
      enqueue_if_pushes S size_x size_y (0 < mx) hd hr
        (fun _ => Nat.lt_of_le_of_lt (Nat.sub_le _ _) hx) (fun _ => hy)
        (fun hc => by subst hidx; omega) hs h1
    cases h2 : (if 0 < my then enqueue L1 (index - size_x) mx (my - 1) sx sy else Except.ok L1) with
    | error e => rw [h2] at h; cases h
    | ok L2 =>
      rw [h2] at h
      simp only at h
      have p2 : Pushes (GoodEntry S size_x size_y r) 1 L1 L2 :=
        enqueue_if_pushes S size_x size_y (0 < my) (p1.sound hd) (p1.radius.trans hr)
          (fun _ => hx) (fun _ => Nat.lt_of_le_of_lt (Nat.sub_le _ _) hy)
          (fun hc => idx_up hidx hc) hs h2
      have p12 := p1.trans p2
      cases h3 : (if mx < usub1 size_x then enqueue L2 (index + 1) (mx + 1) my sx sy
          else Except.ok L2) with
      | error e => rw [h3] at h; cases h
      | ok L3 =>
        rw [h3] at h
        simp only at h
        have p3 : Pushes (GoodEntry S size_x size_y r) 1 L2 L3 :=
          enqueue_if_pushes S size_x size_y (mx < usub1 size_x) (p12.sound hd)
            (p12.radius.trans hr) (fun hc => lt_of_lt_usub1 hx hc) (fun _ => hy)
            (fun hc => by subst hidx; omega) hs h3
        have p123 := p12.trans p3
        have p4 : Pushes (GoodEntry S size_x size_y r) 1 L3 L' :=
          enqueue_if_pushes S size_x size_y (my < usub1 size_y) (p123.sound hd)
            (p123.radius.trans hr) (fun _ => hx) (fun hc => lt_of_lt_usub1 hy hc)
            (fun _ => idx_down hidx) hs h
        rcases hadj with ⟨ha, hb⟩ | ⟨ha, hb⟩ | ⟨ha, hb⟩ | ⟨ha, hb⟩
        · have hmx : x' = mx - 1 := by omega
          subst hmx; subst hb
          have := enqueue_if_pending size_x (0 < mx) (by omega) hd
            (by subst hidx; omega) (by rw [hr]; exact hdist) h1
          exact p4.pending (p3.pending (p2.pending this))
        · subst ha; subst hb
          have := enqueue_if_pending size_x (mx < usub1 size_x) (usub1_lt hx')
            (p12.sound hd) (by subst hidx; omega) (by rw [p12.radius, hr]; exact hdist) h3
          exact p4.pending this
        · have hmy : y' = my - 1 := by omega
          subst hmy; subst ha
          have := enqueue_if_pending size_x (0 < my) (by omega) (p1.sound hd)
            (idx_up hidx (by omega)) (by rw [p1.radius, hr]; exact hdist) h2
          exact p4.pending (p3.pending this)
        · subst ha; subst hb
          exact enqueue_if_pending size_x (my < usub1 size_y) (usub1_lt hy')
            (p123.sound hd) (idx_down hidx) (by rw [p123.radius, hr]; exact hdist) h

theorem visit_closed {S : Nat → Nat → Prop} {a b size_x size_y r : Nat}
    {costs : Option (List (List Nat))} {m0 : List Nat} {cur : CellData}
    {L L' : InflationLayer} {master master' : List Nat}
    (hinv : LoopInv S size_x size_y r costs m0 L master)
    (hone : ∀ a' b', S a' b' → a' = a ∧ b' = b)
    (hmem : cur ∈ L.inflation_queue_) (hcl : Closed a b size_x size_y r L)
    (h : visit size_x size_y cur { L with inflation_queue_ := L.inflation_queue_.erase cur }
      master = .ok (L', master')) :
    Closed a b size_x size_y r L' := by
  have hc := hinv.queue cur hmem
  have hinv1 := hinv.setQueue (L.inflation_queue_.erase cur)
    (fun c hc => hinv.queue c (List.mem_of_mem_erase hc))
  obtain ⟨seen, hseen, hlen, _⟩ := hinv.seen
  have hseen1 : ({ L with inflation_queue_ := L.inflation_queue_.erase cur } :
      InflationLayer).seen_ = some seen := hseen
  rcases visit_cases hinv1.sound hinv1.radius hseen1 hc h with
    ⟨hs, rfl, rfl⟩ | ⟨hs, cost, old, hcost, hold, rfl, hn, hp⟩
  · -- the popped cell was seen already
    have mono : ∀ x y, Pending L size_x x y →
        Pending { L with inflation_queue_ := L.inflation_queue_.erase cur } size_x x y := by
      intro x y hpend
      rcases hpend with hsn | ⟨c, hcm, hcx, hcy⟩
      · exact Or.inl hsn
      · by_cases hcc : c = cur
        · subst hcc
          refine Or.inl ⟨seen, hseen, ?_⟩
          rw [← hcx, ← hcy, ← hc.hidx]; exact hs
        · exact Or.inr ⟨c, (List.mem_erase_of_ne hcc).2 hcm, hcx, hcy⟩
    exact ⟨mono _ _ hcl.src, fun x y hx hy hsn x' y' hadj hx' hy' hd =>
      mono _ _ (hcl.step x y hx hy hsn x' y' hadj hx' hy' hd)⟩
  · -- the popped cell is marked and its neighbours are enqueued
    have hidx : cur.index_ < seen.length := by
      have := idx_lt hc.hx hc.hy
      rw [hc.hidx]; omega
    have hset : ∀ k : Nat, seen[k]? = some true → (seen.set cur.index_ true)[k]? = some true := by
      intro k hk
      by_cases hkc : cur.index_ = k
      · subst hkc; exact List.getElem?_set_eq_of_lt _ hidx
      · rw [List.getElem?_set_ne hkc]; exact hk
    have mono : ∀ x y, Pending L size_x x y → Pending L' size_x x y := by
      intro x y hpend
      refine hp.pending ?_
      rcases hpend with ⟨sn, hsn, hst⟩ | ⟨c, hcm, hcx, hcy⟩
      · rw [hseen] at hsn
        cases hsn
        exact Or.inl ⟨_, rfl, hset _ hst⟩
      · by_cases hcc : c = cur
        · subst hcc
          refine Or.inl ⟨_, rfl, ?_⟩
          rw [← hcx, ← hcy, ← hc.hidx]
          exact List.getElem?_set_eq_of_lt _ hidx
        · exact Or.inr ⟨c, (List.mem_erase_of_ne hcc).2 hcm, hcx, hcy⟩
    refine ⟨mono _ _ hcl.src, ?_⟩
    intro x y hx hy hsn x' y' hadj hx' hy' hd
    obtain ⟨sn, hsn1, hst⟩ := hp.seenAt hsn
    cases hsn1
    by_cases hk : cur.index_ = y * size_x + x
    · rw [hc.hidx] at hk
      obtain ⟨rfl, rfl⟩ := cell_unique hx hc.hx hk.symm
      obtain ⟨rfl, rfl⟩ := hone _ _ hc.hsrc
      exact enqueueNeighbours_pending (S := S) (r := r)
        (L := { L with inflation_queue_ := L.inflation_queue_.erase cur,
                       seen_ := some (seen.set cur.index_ true) })
        hinv.sound hinv.radius hc.hx hc.hy hc.hidx hc.hsrc hn hadj hx' hy' hd
    · rw [List.getElem?_set_ne hk] at hst
      exact mono _ _ (hcl.step x y hx hy ⟨seen, hseen, hst⟩ x' y' hadj hx' hy' hd)

theorem inflate_closed {S : Nat → Nat → Prop} {a b size_x size_y r : Nat}
    {costs : Option (List (List Nat))} {m0 : List Nat} (tie : Nat → Nat)
    (hm0 : m0.length = size_x * size_y) (hone : ∀ a' b', S a' b' → a' = a ∧ b' = b) :
    ∀ (fuel n : Nat) (L L' : InflationLayer) (master master' : List Nat),
      LoopInv S size_x size_y r costs m0 L master → Closed a b size_x size_y r L →
      inflate tie size_x size_y fuel n L master = .ok (L', master') →
      Closed a b size_x size_y r L'
  | 0, n, L, L', master, master', _, hcl, h => by
    unfold inflate at h
    split at h
    · cases h; exact hcl
    · cases h
  | fuel + 1, n, L, L', master, master', hinv, hcl, h => by
    unfold inflate at h
    split at h
    · cases h; exact hcl
    · rename_i cur ht
      split at h
      · cases h
      · rename_i L1 master1 hv
        have hmem := top_mem ht
        have hcur := hinv.queue cur hmem
        have hinv1 := visit_inv hm0
          (hinv.setQueue (L.inflation_queue_.erase cur)
            (fun c hc => hinv.queue c (List.mem_of_mem_erase hc))) hcur hv
        exact inflate_closed tie hm0 hone fuel (n + 1) L1 L' master1 master' hinv1
          (visit_closed hinv hone hmem hcl hv) h

theorem seedRow_pushes {S : Nat → Nat → Prop} {size_x size_y r : Nat}
    {costs : Option (List (List Nat))} {m0 : List Nat} {j : Nat} (hj : j < size_y) :
    ∀ (cols : List Nat) (L L' : InflationLayer),
      (∀ i ∈ cols, i < size_x ∧ (m0[j * size_x + i]? = some LETHAL_OBSTACLE → S i j)) →
      LoopInv S size_x size_y r costs m0 L m0 →
      seedRow m0 size_x j cols L = .ok L' →
      Pushes (GoodEntry S size_x size_y r) cols.length L L' ∧
      ∀ a, a ∈ cols → m0[j * size_x + a]? = some LETHAL_OBSTACLE → Pending L' size_x a j
  | [], L, L', _, _, h => by
    unfold seedRow at h; cases h
    exact ⟨Pushes.refl _ _ _, fun a ha => by simp at ha⟩
  | i :: is, L, L', hcols, hinv, h => by
    unfold seedRow at h
    have hi := hcols i (by simp)
    have hrest : ∀ i ∈ is, i < size_x ∧ (m0[j * size_x + i]? = some LETHAL_OBSTACLE → S i j) :=
      fun k hk => hcols k (List.mem_cons_of_mem _ hk)
    split at h
    · cases h
    · rename_i cost hcost
      split at h
      · rename_i hl
        subst hl
        split at h
        · cases h
        · rename_i L1 he
          have hp := enqueue_pushes (S := S) hinv.sound hi.1 hj rfl (hi.2 hcost) he
          rw [hinv.radius] at hp
          have hpend : Pending L1 size_x i j :=
            enqueue_pending hinv.sound rfl (by
              rw [absDiff_self, absDiff_self]; exact Nat.zero_le _) he
          obtain ⟨hp2, hrec⟩ := seedRow_pushes hj is L1 L' hrest (hinv.pushes hp) h
          refine ⟨(hp.trans hp2).mono (by simp; omega), ?_⟩
          intro a ha hla
          rcases List.mem_cons.1 ha with h1 | h1
          · subst h1; exact hp2.pending hpend
          · exact hrec a h1 hla
      · rename_i hl
        obtain ⟨hp2, hrec⟩ := seedRow_pushes hj is L L' hrest hinv h
        refine ⟨hp2.mono (by simp), ?_⟩
        intro a ha hla
        rcases List.mem_cons.1 ha with h1 | h1
        · subst h1
          rw [hcost] at hla
          exact absurd (Option.some.inj hla) hl
        · exact hrec a h1 hla

theorem seedRows_pushes {S : Nat → Nat → Prop} {size_x size_y r : Nat}
    {costs : Option (List (List Nat))} {m0 : List Nat} (cols : List Nat) :
    ∀ (rows : List Nat) (L L' : InflationLayer),
      (∀ j ∈ rows, j < size_y ∧
        ∀ i ∈ cols, i < size_x ∧ (m0[j * size_x + i]? = some LETHAL_OBSTACLE → S i j)) →
      LoopInv S size_x size_y r costs m0 L m0 →
      seedRows m0 size_x cols rows L = .ok L' →
      Pushes (GoodEntry S size_x size_y r) (rows.length * cols.length) L L' ∧
      ∀ a b, a ∈ cols → b ∈ rows → m0[b * size_x + a]? = some LETHAL_OBSTACLE →
        Pending L' size_x a b
  | [], L, L', _, _, h => by
    unfold seedRows at h; cases h
    exact ⟨Pushes.refl _ _ _, fun a b _ hb => by simp at hb⟩
  | j :: js, L, L', hrows, hinv, h => by
    unfold seedRows at h
    have hj := hrows j (by simp)
    split at h
    · cases h
    · rename_i L1 h1
      obtain ⟨hp1, hpend1⟩ := seedRow_pushes hj.1 cols L L1 hj.2 hinv h1
      obtain ⟨hp2, hrec⟩ := seedRows_pushes cols js L1 L'
        (fun k hk => hrows k (List.mem_cons_of_mem _ hk)) (hinv.pushes hp1) h
      refine ⟨(hp1.trans hp2).mono (by simp [Nat.add_mul]; omega), ?_⟩
      intro a b ha hb hl
      rcases List.mem_cons.1 hb with h2 | h2
      · subst h2; exact hp2.pending (hpend1 a ha hl)
      · exact hrec a b ha h2 hl

theorem updateCosts_stages {tie : Nat → Nat} {L L' : InflationLayer} {g g' : Costmap2D}
    {min_i min_j max_i max_j : Int} (hen : L.enabled_ = true)
    (h : updateCosts tie L g min_i min_j max_i max_j = .ok (L', g')) :
    ∃ seen size L2, L.inflation_queue_ = [] ∧ g.size_x_ * g.size_y_ ≤ seen.length ∧
      (∀ idx, idx < g.size_x_ * g.size_y_ → seen[idx]? = some false) ∧
      seedRows g.costmap_ g.size_x_
        (List.range' (expandLo min_i L.cell_inflation_radius_)
          (expandHi g.size_x_ max_i L.cell_inflation_radius_ -
            expandLo min_i L.cell_inflation_radius_))
        (List.range' (expandLo min_j L.cell_inflation_radius_)
          (expandHi g.size_y_ max_j L.cell_inflation_radius_ -
            expandLo min_j L.cell_inflation_radius_))
        { L with seen_size_ := size, seen_ := some seen } = .ok L2 ∧
      inflate tie g.size_x_ g.size_y_ (popBound L2 (g.size_x_ * g.size_y_)) 0 L2 g.costmap_ =
        .ok (L', g'.costmap_) ∧
      g' = { g with costmap_ := g'.costmap_ } := by
  unfold updateCosts at h
  simp only [hen, Bool.true_eq_false, if_false] at h
  split at h
  · cases h
  · rename_i hq
    simp only [ne_eq, Decidable.not_not] at hq
    split at h
    · cases h
    · rename_i L1 hr
      obtain ⟨seen, size, rfl, hlen, hfalse⟩ := resetSeen_cases hr
      split at h
      · cases h
      · rename_i L2 hs
        split at h
        · cases h
        · rename_i L3 master hi
          cases h
          exact ⟨seen, size, L2, hq, hlen, hfalse, hs, hi, rfl⟩

theorem hypot_step_left {k k' d : Nat} (h : k + 1 = k') : hypot k d ≤ hypot k' d := by
  subst h
  unfold hypot
  have : k * k ≤ (k + 1) * (k + 1) := Nat.mul_le_mul (by omega) (by omega)
  omega

theorem hypot_step_right {k k' d : Nat} (h : k + 1 = k') : hypot d k ≤ hypot d k' := by
  subst h
  unfold hypot
  have : k * k ≤ (k + 1) * (k + 1) := Nat.mul_le_mul (by omega) (by omega)
  omega

theorem closed_reaches {a b size_x size_y r : Nat} {L : InflationLayer}
    (ha : a < size_x) (hb : b < size_y) (hcl : Closed a b size_x size_y r L)
    (hq : L.inflation_queue_ = []) :
    ∀ (n x y : Nat), x < size_x → y < size_y → absDiff x a + absDiff y b = n →
      hypot (absDiff x a) (absDiff y b) ≤ r * r → SeenAt L size_x x y := by
  have hseen : ∀ x y, Pending L size_x x y → SeenAt L size_x x y := by
    intro x y hp
    rcases hp with h | ⟨c, hc, _⟩
    · exact h
    · rw [hq] at hc; cases hc
  intro n
  induction n with
  | zero =>
    intro x y hx hy hn _
    have h1 : x = a := by unfold absDiff at hn; split at hn <;> split at hn <;> omega
    have h2 : y = b := by unfold absDiff at hn; split at hn <;> split at hn <;> omega
    subst h1; subst h2
    exact hseen _ _ hcl.src
  | succ n ih =>
    intro x y hx hy hn hd
    by_cases hxa : x = a
    · -- move along the column
      have hyb : y ≠ b := by
        intro hyb; subst hxa; subst hyb
        rw [absDiff_self, absDiff_self] at hn; omega
      by_cases hlt : b < y
      · have hk : absDiff (y - 1) b + 1 = absDiff y b := by
          unfold absDiff; split <;> split <;> omega
        have hprev := ih x (y - 1) hx (by omega) (by omega)
          (le_trans (hypot_step_right hk) hd)
        exact hseen _ _ (hcl.step x (y - 1) hx (by omega) hprev x y
          (Or.inr (Or.inr (Or.inr ⟨rfl, by omega⟩))) hx hy hd)
      · have hk : absDiff (y + 1) b + 1 = absDiff y b := by
          unfold absDiff; split <;> split <;> omega
        have hprev := ih x (y + 1) hx (by omega) (by omega)
          (le_trans (hypot_step_right hk) hd)
        exact hseen _ _ (hcl.step x (y + 1) hx (by omega) hprev x y
          (Or.inr (Or.inr (Or.inl ⟨rfl, rfl⟩))) hx hy hd)
    · -- move along the row
      by_cases hlt : a < x
      · have hk : absDiff (x - 1) a + 1 = absDiff x a := by
          unfold absDiff; split <;> split <;> omega
        have hprev := ih (x - 1) y (by omega) hy (by omega)
          (le_trans (hypot_step_left hk) hd)
        exact hseen _ _ (hcl.step (x - 1) y (by omega) hy hprev x y
          (Or.inr (Or.inl ⟨by omega, rfl⟩)) hx hy hd)
      · have hk : absDiff (x + 1) a + 1 = absDiff x a := by
          unfold absDiff; split <;> split <;> omega
        have hprev := ih (x + 1) y (by omega) hy (by omega)
          (le_trans (hypot_step_left hk) hd)
        exact hseen _ _ (hcl.step (x + 1) y (by omega) hy hprev x y
          (Or.inl ⟨rfl, rfl⟩) hx hy hd)

theorem loopInv_init {S : Nat → Nat → Prop} {L : InflationLayer} {g : Costmap2D}
    {seen : List Bool} (size : Nat) (hd : DistancesSound L) (hq : L.inflation_queue_ = [])
    (hlen : g.size_x_ * g.size_y_ ≤ seen.length)
    (hfalse : ∀ idx, idx < g.size_x_ * g.size_y_ → seen[idx]? = some false) :
    LoopInv S g.size_x_ g.size_y_ L.cell_inflation_radius_ L.cached_costs_ g.costmap_
      { L with seen_size_ := size, seen_ := some seen } g.costmap_ := by
  refine ⟨hd, rfl, rfl, rfl, ?_, ⟨seen, rfl, hlen, ?_⟩⟩
  · intro c hc
    simp only [hq] at hc
    cases hc
  · intro idx hidx
    refine ⟨fun _ => rfl, fun ht => ?_⟩
    rw [hfalse idx hidx] at ht
    cases ht

theorem seed_ranges (g : Costmap2D) (lo_i hi_i lo_j hi_j : Nat) (hi : hi_i ≤ g.size_x_)
    (hj : hi_j ≤ g.size_y_) :
    ∀ j ∈ List.range' lo_j (hi_j - lo_j), j < g.size_y_ ∧
      ∀ i ∈ List.range' lo_i (hi_i - lo_i), i < g.size_x_ ∧
        (g.costmap_[j * g.size_x_ + i]? = some LETHAL_OBSTACLE →
          IsSeed g lo_i hi_i lo_j hi_j i j) := by
  intro j hj'
  rw [List.mem_range'_1] at hj'
  refine ⟨by omega, ?_⟩
  intro i hi'
  rw [List.mem_range'_1] at hi'
  refine ⟨by omega, ?_⟩
  intro hl
  exact ⟨by omega, by omega, by omega, by omega, by omega, by omega, hl⟩

theorem updateCosts_single_source {tie : Nat → Nat} {L L' : InflationLayer} {g g' : Costmap2D}
    {min_i min_j max_i max_j : Int} (hg : g.WellFormed) (hd : DistancesSound L)
    (hen : L.enabled_ = true)
    (h : updateCosts tie L g min_i min_j max_i max_j = .ok (L', g')) {a b : Nat}
    (hseed : IsSeed g (expandLo min_i L.cell_inflation_radius_)
      (expandHi g.size_x_ max_i L.cell_inflation_radius_)
      (expandLo min_j L.cell_inflation_radius_)
      (expandHi g.size_y_ max_j L.cell_inflation_radius_) a b)
    (hone : ∀ a', a' < g.size_x_ → ∀ b', b' < g.size_y_ →
      g.getCost a' b' = some LETHAL_OBSTACLE → a' = a ∧ b' = b)
    {x y : Nat} (hx : x < g.size_x_) (hy : y < g.size_y_)
    (hdist : hypot (absDiff x a) (absDiff y b) ≤
      L.cell_inflation_radius_ * L.cell_inflation_radius_) :
    ∃ cost old, tableAt L.cached_costs_ (absDiff x a) (absDiff y b) = .ok cost ∧
      g.getCost x y = some old ∧ g'.getCost x y = some (writeRule old cost) := by
  obtain ⟨seen, size, L2, hq, hlen, hfalse, hs, hi, hg'⟩ := updateCosts_stages hen h
  have hS : ∀ a' b', IsSeed g (expandLo min_i L.cell_inflation_radius_)
      (expandHi g.size_x_ max_i L.cell_inflation_radius_)
      (expandLo min_j L.cell_inflation_radius_)
      (expandHi g.size_y_ max_j L.cell_inflation_radius_) a' b' → a' = a ∧ b' = b :=
    fun a' b' hs' => hone a' hs'.2.2.2.2.1 b' hs'.2.2.2.2.2.1 hs'.2.2.2.2.2.2
  have hinv0 := loopInv_init
    (S := IsSeed g (expandLo min_i L.cell_inflation_radius_)
      (expandHi g.size_x_ max_i L.cell_inflation_radius_)
      (expandLo min_j L.cell_inflation_radius_)
      (expandHi g.size_y_ max_j L.cell_inflation_radius_)) size hd hq hlen hfalse
  have hranges := seed_ranges g (expandLo min_i L.cell_inflation_radius_)
      (expandHi g.size_x_ max_i L.cell_inflation_radius_)
      (expandLo min_j L.cell_inflation_radius_)
      (expandHi g.size_y_ max_j L.cell_inflation_radius_)
      (expandHi_le _ _ _) (expandHi_le _ _ _)
  obtain ⟨hp, hpend⟩ := seedRows_pushes _ _ _ L2 hranges hinv0 hs
  have hinv2 := hinv0.pushes hp
  obtain ⟨h1, h2, h3, h4, ha, hb, hl⟩ := hseed
  have hcl2 : Closed a b g.size_x_ g.size_y_ L.cell_inflation_radius_ L2 := by
    refine ⟨hpend a b (by rw [List.mem_range'_1]; omega) (by rw [List.mem_range'_1]; omega) hl,
      ?_⟩
    intro x1 y1 hx1 hy1 hsn
    obtain ⟨sn, hsn1, hst⟩ := hp.seenAt hsn
    cases hsn1
    rw [hfalse _ (idx_lt hx1 hy1)] at hst
    cases hst
  have hinv' := inflate_inv tie hg.1 _ _ _ _ _ _ hinv2 hi
  have hcl' := inflate_closed tie hg.1 hS _ _ _ _ _ _ hinv2 hcl2 hi
  obtain ⟨sn, hsn, hst⟩ := closed_reaches ha hb hcl' hinv'.2 _ x y hx hy rfl hdist
  obtain ⟨seen', hseen', _, hcells⟩ := hinv'.1.seen
  rw [hseen'] at hsn
  cases hsn
  obtain ⟨x', y', a', b', cost, old, hx', _, hidx, hsrc, _, hcost, hold, hnew⟩ :=
    (hcells _ (idx_lt hx hy)).2 hst
  obtain ⟨rfl, rfl⟩ := cell_unique hx hx' hidx
  obtain ⟨rfl, rfl⟩ := hS _ _ hsrc
  refine ⟨cost, old, hcost, hold, ?_⟩
  rw [hg']
  exact hnew

theorem fillCostRow_spec (cc : Nat → Nat) (dists : List Nat) :
    ∀ (js : List Nat) (costs : List Nat),
      (∀ j ∈ js, j < costs.length ∧ j < dists.length) →
      ∃ costs', fillCostRow cc dists js costs = .ok costs' ∧ costs'.length = costs.length ∧
        (∀ (k d : Nat), k ∈ js → dists[k]? = some d → costs'[k]? = some (cc d % 256)) ∧
        ∀ k : Nat, k ∉ js → costs'[k]? = costs[k]?
  | [], costs, _ => ⟨costs, rfl, rfl, by simp, fun _ _ => rfl⟩
  | j :: js, costs, h => by
    obtain ⟨hjc, hjd⟩ := h j (by simp)
    have hd : dists[j]? = some dists[j] := List.getElem?_eq_getElem hjd
    obtain ⟨costs', hp, hl, hk, hf⟩ := fillCostRow_spec cc dists js
      (costs.set j (cc dists[j] % 256))
      (fun k hk => by
        have := h k (List.mem_cons_of_mem _ hk)
        simpa using this)
    refine ⟨costs', ?_, by simpa using hl, ?_, ?_⟩
    · unfold fillCostRow
      rw [hd]
      simp only
      rw [if_pos hjc]
      exact hp
    · intro k d hmem hkd
      by_cases hin : k ∈ js
      · exact hk k d hin hkd
      · have hkj : k = j := by
          rcases List.mem_cons.1 hmem with h1 | h1
          · exact h1
          · exact absurd h1 hin
        subst hkj
        rw [hd] at hkd
        cases hkd
        rw [hf k hin, List.getElem?_set_eq_of_lt _ hjc]
    · intro k hk'
      have h1 : k ∉ js := fun hh => hk' (List.mem_cons_of_mem _ hh)
      have h2 : j ≠ k := fun hh => hk' (by simp [hh])
      rw [hf k h1, List.getElem?_set_ne h2]

theorem fillCostRow_kernel (cc : Nat → Nat) (n i : Nat) (costs : List Nat)
    (hc : costs.length = n) :
    fillCostRow cc ((List.range n).map fun j => hypot i j) (List.range n) costs =
      .ok ((List.range n).map fun j => cc (hypot i j) % 256) := by
  obtain ⟨costs', hp, hl, hk, _⟩ := fillCostRow_spec cc ((List.range n).map fun j => hypot i j)
    (List.range n) costs (fun j hj => by
      rw [List.mem_range] at hj
      simp only [List.length_map, List.length_range]
      omega)
  rw [hp]
  congr 1
  apply List.ext_getElem?
  intro k
  by_cases hkn : k < n
  · rw [hk k (hypot i k) (List.mem_range.2 hkn) (by
      rw [List.getElem?_map, List.getElem?_range hkn]; rfl)]
    rw [List.getElem?_map, List.getElem?_range hkn]; rfl
  · rw [List.getElem?_eq_none (by omega), List.getElem?_eq_none (by simp; omega)]

theorem fillCosts_spec (cc : Nat → Nat) (n : Nat) :
    ∀ (is : List Nat) (costs : List (List Nat)),
      costs.length = n → (∀ row ∈ costs, row.length = n) → (∀ i ∈ is, i < n) →
      ∃ costs', fillCosts cc n (kernelDistances n) is costs = .ok costs' ∧
        costs'.length = n ∧ (∀ row ∈ costs', row.length = n) ∧
        (∀ k : Nat, k ∈ is →
          costs'[k]? = some ((List.range n).map fun j => cc (hypot k j) % 256)) ∧
        ∀ k : Nat, k ∉ is → costs'[k]? = costs[k]?
  | [], costs, hl, hrows, _ => ⟨costs, rfl, hl, hrows, by simp, fun _ _ => rfl⟩
  | i :: is, costs, hl, hrows, his => by
    have hi : i < n := his i (by simp)
    have hd : (kernelDistances n)[i]? = some ((List.range n).map fun j => hypot i j) := by
      unfold kernelDistances
      rw [List.getElem?_map, List.getElem?_range hi]; rfl
    have hic : i < costs.length := by omega
    have hc : costs[i]? = some costs[i] := List.getElem?_eq_getElem hic
    have hrow : costs[i].length = n := hrows _ (List.getElem_mem _)
    have hfill := fillCostRow_kernel cc n i costs[i] hrow
    obtain ⟨costs', hp, hl', hrows', hk, hf⟩ := fillCosts_spec cc n is
      (costs.set i ((List.range n).map fun j => cc (hypot i j) % 256))
      (by simpa using hl)
      (fun row hr => by
        rcases List.mem_or_eq_of_mem_set hr with h1 | h1
        · exact hrows row h1
        · subst h1; simp)
      (fun k hk => his k (List.mem_cons_of_mem _ hk))
    refine ⟨costs', ?_, hl', hrows', ?_, ?_⟩
    · unfold fillCosts
      rw [hd, hc]
      simp only
      rw [hfill]
      exact hp
    · intro k hmem
      by_cases hin : k ∈ is
      · exact hk k hin
      · have hki : k = i := by
          rcases List.mem_cons.1 hmem with h1 | h1
          · exact h1
          · exact absurd h1 hin
        subst hki
        rw [hf k hin, List.getElem?_set_eq_of_lt _ hic]
    · intro k hk'
      have h1 : k ∉ is := fun hh => hk' (List.mem_cons_of_mem _ hh)
      have h2 : i ≠ k := fun hh => hk' (by simp [hh])
      rw [hf k h1, List.getElem?_set_ne h2]

theorem fillCosts_kernel (cc : Nat → Nat) (n : Nat) (costs : List (List Nat))
    (hl : costs.length = n) (hrows : ∀ row ∈ costs, row.length = n) :
    fillCosts cc n (kernelDistances n) (List.range n) costs = .ok (kernelCosts cc n) := by
  obtain ⟨costs', hp, hl', _, hk, _⟩ := fillCosts_spec cc n (List.range n) costs hl hrows
    (fun i hi => List.mem_range.1 hi)
  rw [hp]
  congr 1
  apply List.ext_getElem?
  intro k
  unfold kernelCosts
  by_cases hkn : k < n
  · rw [hk k (List.mem_range.2 hkn), List.getElem?_map, List.getElem?_range hkn]; rfl
  · rw [List.getElem?_eq_none (by omega), List.getElem?_eq_none (by simp; omega)]

theorem uadd_small {a b : Nat} (h : a + b < 4294967296) : uadd a b = a + b := by
  unfold uadd
  rw [if_pos h]

theorem uadd_next {r : Nat} (h : uadd r 1 < uadd r 2) : uadd r 1 + 1 = uadd r 2 := by
  unfold uadd at *
  by_cases h1 : r + 1 < 4294967296
  · by_cases h2 : r + 2 < 4294967296
    · rw [if_pos h1, if_pos h2]
    · rw [if_pos h1, if_neg h2] at h
      omega
  · have h2 : ¬ r + 2 < 4294967296 := by omega
    rw [if_neg h1, if_neg h2]
    omega

theorem uadd_lt {r : Nat} (h : r ≠ 4294967294) : uadd r 1 < uadd r 2 := by
  unfold uadd
  by_cases h1 : r + 1 < 4294967296
  · have h2 : r + 2 < 4294967296 := by omega
    rw [if_pos h1, if_pos h2]
    omega
  · have h2 : ¬ r + 2 < 4294967296 := by omega
    rw [if_neg h1, if_neg h2]
    omega

theorem uadd_wrap : uadd 4294967294 1 = 4294967295 ∧ uadd 4294967294 2 = 0 ∧
    uadd 4294967295 1 = 0 ∧ uadd 4294967295 2 = 1 := by
  unfold uadd
  refine ⟨?_, ?_, ?_, ?_⟩ <;> simp

theorem deleteKernels_ok (L : InflationLayer) (hf : Freeable L) :
    deleteKernels L = .ok { L with cached_distances_ := none, cached_costs_ := none } := by
  unfold deleteKernels
  rw [if_neg (by simp [hf.1]), if_neg (by simp [hf.2])]

theorem freeable_of_null {L : InflationLayer} (hd : L.cached_distances_ = none)
    (hc : L.cached_costs_ = none) : Freeable L := by
  unfold Freeable
  rw [hd, hc]
  exact ⟨rfl, rfl⟩

theorem computeCaches_rebuilds (cc : Nat → Nat) (L : InflationLayer) (hf : Freeable L)
    (hr : 1 ≤ L.cell_inflation_radius_)
    (hne : L.cell_inflation_radius_ ≠ L.cached_cell_inflation_radius_)
    (hw : uadd L.cell_inflation_radius_ 1 < uadd L.cell_inflation_radius_ 2) :
    computeCaches cc L = .ok { L with
      cached_cell_inflation_radius_ := L.cell_inflation_radius_,
      cached_distances_ := some (kernelDistances (uadd L.cell_inflation_radius_ 2)),
      cached_costs_ := some (kernelCosts cc (uadd L.cell_inflation_radius_ 2)) } := by
  unfold computeCaches
  rw [if_neg (by omega)]
  simp only [if_pos hne, deleteKernels_ok L hf, if_neg (not_le.2 hw), uadd_next hw]
  rw [fillCosts_kernel cc _ _ (by simp) (by
    intro row hrow
    rw [List.eq_of_mem_replicate hrow]; simp)]

theorem computeCaches_overruns (cc : Nat → Nat) (L : InflationLayer) (hf : Freeable L)
    (hr : 1 ≤ L.cell_inflation_radius_)
    (hne : L.cell_inflation_radius_ ≠ L.cached_cell_inflation_radius_)
    (hw : uadd L.cell_inflation_radius_ 2 ≤ uadd L.cell_inflation_radius_ 1) :
    computeCaches cc L = .error .kernelOutOfBounds := by
  unfold computeCaches
  rw [if_neg (by omega)]
  simp only [if_pos hne, deleteKernels_ok L hf, if_pos hw]

theorem computeCaches_refills (cc cc' : Nat → Nat) (L : InflationLayer)
    (hr : 1 ≤ L.cell_inflation_radius_)
    (hc : L.cached_cell_inflation_radius_ = L.cell_inflation_radius_)
    (hw : uadd L.cell_inflation_radius_ 1 < uadd L.cell_inflation_radius_ 2)
    (hd : L.cached_distances_ = some (kernelDistances (uadd L.cell_inflation_radius_ 2)))
    (hcc : L.cached_costs_ = some (kernelCosts cc' (uadd L.cell_inflation_radius_ 2))) :
    computeCaches cc L = .ok { L with
      cached_costs_ := some (kernelCosts cc (uadd L.cell_inflation_radius_ 2)) } := by
  unfold computeCaches
  rw [if_neg (by omega)]
  simp only [if_neg (not_not.2 hc.symm), hd, hcc, uadd_next hw]
  rw [fillCosts_kernel cc _ _ (by simp [kernelCosts]) (by
    intro row hrow
    unfold kernelCosts at hrow
    rw [List.mem_map] at hrow
    obtain ⟨i, _, rfl⟩ := hrow
    simp)]

theorem computeCaches_example (r : Nat) (hr : 1 ≤ r) (hb : r + 2 < 4294967296) :
    computeCaches exampleCost (layerOfRadius r) = .ok (exampleLayer r) := by
  have hlt : uadd r 1 < uadd r 2 := uadd_lt (by omega)
  rw [computeCaches_rebuilds exampleCost (layerOfRadius r) (freeable_of_null rfl rfl) hr (by
    show r ≠ 0
    omega) hlt]
  show Except.ok { layerOfRadius r with
      cached_cell_inflation_radius_ := r,
      cached_distances_ := some (kernelDistances (uadd r 2)),
      cached_costs_ := some (kernelCosts exampleCost (uadd r 2)) } = _
  rw [uadd_small hb]
  rfl

theorem kernelInv_freeable {L : InflationLayer} (h : KernelInv L) : Freeable L := by
  rcases h with ⟨_, hd, hc⟩ | ⟨_, hw, hd, cc, hc⟩
  · exact freeable_of_null hd hc
  · unfold Freeable
    rw [hd, hc]
    simp [rowsReadable, kernelDistances, kernelCosts, hw]

theorem kernelInv_of_built {cc : Nat → Nat} {L : InflationLayer} (h : KernelBuilt cc L)
    (hb : L.cell_inflation_radius_ + 2 < 4294967296) : KernelInv L := by
  obtain ⟨hr, hc, hd, hcc⟩ := h
  right
  rw [hc, uadd_small hb]
  exact ⟨hr, by rw [uadd_small (by omega)]; omega, hd, cc, hcc⟩

theorem kernelInv_new : KernelInv InflationLayer.new := Or.inl ⟨rfl, rfl, rfl⟩

theorem computeCaches_frame {cc : Nat → Nat} {L L' : InflationLayer}
    (h : computeCaches cc L = .ok L') :
    L' = { L with cached_cell_inflation_radius_ := L'.cached_cell_inflation_radius_,
                  cached_distances_ := L'.cached_distances_,
                  cached_costs_ := L'.cached_costs_ } := by
  unfold computeCaches at h
  by_cases h0 : L.cell_inflation_radius_ = 0
  · rw [if_pos h0] at h
    cases h
    rfl
  · rw [if_neg h0] at h
    simp only at h
    generalize hreb : (if L.cell_inflation_radius_ ≠ L.cached_cell_inflation_radius_ then
        match deleteKernels L with
        | .error e => Except.error e
        | .ok L0 =>
          if uadd L.cell_inflation_radius_ 2 ≤ uadd L.cell_inflation_radius_ 1 then
            Except.error Fault.kernelOutOfBounds
          else
            Except.ok { L0 with
              cached_costs_ := some (List.replicate (uadd L.cell_inflation_radius_ 2)
                (List.replicate (uadd L.cell_inflation_radius_ 2) 0)),
              cached_distances_ := some (kernelDistances (uadd L.cell_inflation_radius_ 2)),
              cached_cell_inflation_radius_ := L.cell_inflation_radius_ }
      else Except.ok L) = reb at h
    cases reb with
    | error e => cases h
    | ok L1 =>
      simp only at h
      have h1 : L1 = { L with
          cached_cell_inflation_radius_ := L1.cached_cell_inflation_radius_,
          cached_distances_ := L1.cached_distances_,
          cached_costs_ := L1.cached_costs_ } := by
        by_cases hne : L.cell_inflation_radius_ ≠ L.cached_cell_inflation_radius_
        · rw [if_pos hne] at hreb
          cases hdel : deleteKernels L with
          | error e => rw [hdel] at hreb; cases hreb
          | ok L0 =>
            rw [hdel] at hreb
            simp only at hreb
            have hL0 : L0 = { L with cached_distances_ := none, cached_costs_ := none } := by
              unfold deleteKernels at hdel
              split at hdel
              · cases hdel
              · split at hdel
                · cases hdel
                · cases hdel; rfl
            by_cases hsz : uadd L.cell_inflation_radius_ 2 ≤ uadd L.cell_inflation_radius_ 1
            · rw [if_pos hsz] at hreb
              cases hreb
            · rw [if_neg hsz] at hreb
              cases hreb
              rw [hL0]
        · rw [if_neg hne] at hreb
          cases hreb
          rfl
      cases hd : L1.cached_distances_ with
      | none => rw [hd] at h; cases h
      | some dists =>
        cases hc : L1.cached_costs_ with
        | none => rw [hd, hc] at h; cases h
        | some costs =>
          rw [hd, hc] at h
          simp only at h
          split at h
          · cases h
          · cases h
            rw [h1]

theorem computeCaches_inv (cc : Nat → Nat) (L : InflationLayer) (hk : KernelInv L)
    (hw : L.cell_inflation_radius_ ≠ 4294967294) :
    ∃ L', computeCaches cc L = .ok L' ∧ KernelInv L' ∧
      (1 ≤ L.cell_inflation_radius_ → L.cell_inflation_radius_ + 2 < 4294967296 →
        KernelBuilt cc L') ∧
      (L.cell_inflation_radius_ = 0 → L' = L) ∧
      L' = { L with cached_cell_inflation_radius_ := L'.cached_cell_inflation_radius_,
                    cached_distances_ := L'.cached_distances_,
                    cached_costs_ := L'.cached_costs_ } := by
  by_cases h0 : L.cell_inflation_radius_ = 0
  · refine ⟨L, ?_, hk, fun h => by omega, fun _ => rfl, rfl⟩
    unfold computeCaches
    rw [if_pos h0]
  · have hr : 1 ≤ L.cell_inflation_radius_ := by omega
    have hlt := uadd_lt hw
    by_cases hne : L.cell_inflation_radius_ ≠ L.cached_cell_inflation_radius_
    · refine ⟨_, computeCaches_rebuilds cc L (kernelInv_freeable hk) hr hne hlt, ?_,
        fun _ hb => ⟨hr, rfl, ?_, ?_⟩, fun h => absurd h h0, rfl⟩
      · exact Or.inr ⟨hr, hlt, rfl, cc, rfl⟩
      · show some (kernelDistances (uadd L.cell_inflation_radius_ 2)) = _
        rw [uadd_small hb]
      · show some (kernelCosts cc (uadd L.cell_inflation_radius_ 2)) = _
        rw [uadd_small hb]
    · have heq : L.cached_cell_inflation_radius_ = L.cell_inflation_radius_ :=
        (not_not.1 hne).symm
      rcases hk with ⟨hz, _, _⟩ | ⟨_, _, hd, cc', hc⟩
      · omega
      · rw [heq] at hd hc
        refine ⟨_, computeCaches_refills cc cc' L hr heq hlt hd hc, ?_,
          fun _ hb => ⟨hr, heq, ?_, ?_⟩, fun h => absurd h h0, rfl⟩
        · exact Or.inr ⟨heq ▸ hr, by rw [heq]; exact hlt, by rw [heq]; exact hd, cc, by
            rw [heq]⟩
        · show L.cached_distances_ = _
          rw [hd, uadd_small hb]
        · show some (kernelCosts cc (uadd L.cell_inflation_radius_ 2)) = _
          rw [uadd_small hb]


theorem kernelDistances_dims (n : Nat) :
    (kernelDistances n).length = n ∧ ∀ row ∈ kernelDistances n, row.length = n := by
  unfold kernelDistances
  refine ⟨by simp, ?_⟩
  intro row hrow
  rw [List.mem_map] at hrow
  obtain ⟨i, _, rfl⟩ := hrow
  simp

theorem kernelCosts_dims (cc : Nat → Nat) (n : Nat) :
    (kernelCosts cc n).length = n ∧ ∀ row ∈ kernelCosts cc n, row.length = n := by
  unfold kernelCosts
  refine ⟨by simp, ?_⟩
  intro row hrow
  rw [List.mem_map] at hrow
  obtain ⟨i, _, rfl⟩ := hrow
  simp

theorem kernelBuilt_entries {cc : Nat → Nat} {L : InflationLayer} (h : KernelBuilt cc L)
    {i j : Nat} (hi : i ≤ L.cell_inflation_radius_ + 1) (hj : j ≤ L.cell_inflation_radius_ + 1) :
    tableAt L.cached_distances_ i j = .ok (hypot i j) ∧
    tableAt L.cached_costs_ i j = .ok (cc (hypot i j) % 256) := by
  have hc : i < L.cell_inflation_radius_ + 2 ∧ j < L.cell_inflation_radius_ + 2 :=
    ⟨by omega, by omega⟩
  rw [h.2.2.1, h.2.2.2]
  unfold kernelDistances kernelCosts
  rw [tableAt_map_range, tableAt_map_range, if_pos hc, if_pos hc]
  exact ⟨rfl, rfl⟩

theorem updateBounds_then (L : InflationLayer) (b : Bounds) (h : L.need_reinflation_ = true) :
    updateBounds L b =
      ({ L with last_min_x_ := b.min_x, last_min_y_ := b.min_y,
                last_max_x_ := b.max_x, last_max_y_ := b.max_y,
                need_reinflation_ := false },
       { min_x := -FLT_MAX, min_y := -FLT_MAX, max_x := FLT_MAX, max_y := FLT_MAX }) := by
  unfold updateBounds
  rw [if_pos h]

theorem setInflationParameters_changed (costModel : ℚ → ℚ → ℚ → Nat → Nat)
    (cellDistance : ℚ → Nat) (L : InflationLayer) (r w : ℚ) (hk : KernelInv L)
    (hne : L.weight_ ≠ w ∨ L.inflation_radius_ ≠ r) (hw : cellDistance r ≠ 4294967294) :
    ∃ L', setInflationParameters costModel cellDistance L r w = .ok L' ∧ KernelInv L' := by
  have hk4 : KernelInv
      { L with inflation_radius_ := r, cell_inflation_radius_ := cellDistance r,
               weight_ := w, need_reinflation_ := true } := hk
  obtain ⟨L', h, hk', _⟩ := computeCaches_inv
    (InflationLayer.computeCost costModel
      { L with inflation_radius_ := r, cell_inflation_radius_ := cellDistance r,
               weight_ := w, need_reinflation_ := true })
    _ hk4 hw
  refine ⟨L', ?_, hk'⟩
  unfold setInflationParameters
  rw [if_pos hne]
  exact h

theorem setInflationParameters_returned (costModel : ℚ → ℚ → ℚ → Nat → Nat)
    (cellDistance : ℚ → Nat) (L L' : InflationLayer) (r w : ℚ)
    (hne : L.weight_ ≠ w ∨ L.inflation_radius_ ≠ r)
    (h : setInflationParameters costModel cellDistance L r w = .ok L') :
    L' = { L with inflation_radius_ := r, cell_inflation_radius_ := cellDistance r,
                  weight_ := w, need_reinflation_ := true,
                  cached_cell_inflation_radius_ := L'.cached_cell_inflation_radius_,
                  cached_distances_ := L'.cached_distances_,
                  cached_costs_ := L'.cached_costs_ } := by
  unfold setInflationParameters at h
  rw [if_pos hne] at h
  exact computeCaches_frame h

theorem setInflationParameters_same (costModel : ℚ → ℚ → ℚ → Nat → Nat)
    (cellDistance : ℚ → Nat) (L : InflationLayer) (r w : ℚ)
    (hw : L.weight_ = w) (hr : L.inflation_radius_ = r) :
    setInflationParameters costModel cellDistance L r w = .ok L := by
  unfold setInflationParameters
  rw [if_neg (by simp [hw, hr])]

theorem matchSize_returned (costModel : ℚ → ℚ → ℚ → Nat → Nat) (cellDistance : ℚ → Nat)
    (fresh : Nat → Bool) (g : Costmap2D) (L L' : InflationLayer)
    (h : matchSize costModel cellDistance fresh g L = .ok L') :
    L'.weight_ = L.weight_ ∧ L'.inflation_radius_ = L.inflation_radius_ := by
  unfold matchSize at h
  simp only at h
  split at h
  · cases h
  · rename_i L3 hc
    cases h
    have hframe := computeCaches_frame hc
    constructor
    · show L3.weight_ = L.weight_
      rw [hframe]
    · show L3.inflation_radius_ = L.inflation_radius_
      rw [hframe]

theorem matchSize_inv (costModel : ℚ → ℚ → ℚ → Nat → Nat) (cellDistance : ℚ → Nat)
    (fresh : Nat → Bool) (g : Costmap2D) (L : InflationLayer) (hk : KernelInv L)
    (hw : cellDistance L.inflation_radius_ ≠ 4294967294) :
    ∃ L', matchSize costModel cellDistance fresh g L = .ok L' ∧ KernelInv L' := by
  have hk2 : KernelInv
      { L with resolution_ := g.resolution_,
               cell_inflation_radius_ := cellDistance L.inflation_radius_ } := hk
  obtain ⟨L3, h, hk3, _⟩ := computeCaches_inv
    (InflationLayer.computeCost costModel
      { L with resolution_ := g.resolution_,
               cell_inflation_radius_ := cellDistance L.inflation_radius_ }) _ hk2 hw
  refine ⟨{ L3 with seen_size_ := g.size_x_ * g.size_y_,
                    seen_ := some ((List.range (g.size_x_ * g.size_y_)).map fresh) }, ?_, hk3⟩
  unfold matchSize
  simp only
  rw [h]

theorem cellDistanceAt_example :
    cellDistanceAt (1 / 100) (110 / 100) = 110 ∧ cellDistanceAt (1 / 100) (55 / 100) = 55 ∧
      cellDistanceAt (1 / 100) 0 = 0 := by
  unfold cellDistanceAt
  refine ⟨?_, ?_, ?_⟩ <;> norm_num <;> rfl

theorem seenAt_iff {L : InflationLayer} {seen : List Bool} (size_x u v : Nat)
    (h : L.seen_ = some seen) : SeenAt L size_x u v ↔ seen[v * size_x + u]? = some true := by
  constructor
  · rintro ⟨s, hs, ht⟩
    rw [h] at hs
    cases hs
    exact ht
  · intro ht
    exact ⟨seen, h, ht⟩

theorem seen_false_of_not {seen : List Bool} {i : Nat} (hi : i < seen.length)
    (h : seen[i]? ≠ some true) : seen[i]? = some false := by
  have hs : seen[i]? = some seen[i] := List.getElem?_eq_getElem hi
  rw [hs] at h ⊢
  cases hb : seen[i] with
  | false => rfl
  | true => rw [hb] at h; exact absurd rfl h

theorem hypot_eq_zero {i j : Nat} (h : hypot i j = 0) : i = 0 ∧ j = 0 := by
  unfold hypot at h
  have h1 : i * i = 0 := by omega
  have h2 : j * j = 0 := by omega
  exact ⟨by simpa using h1, by simpa using h2⟩

theorem hypot_le_one {i j : Nat} (h : hypot i j ≤ 1) :
    (i = 0 ∧ j = 0) ∨ (i = 1 ∧ j = 0) ∨ (i = 0 ∧ j = 1) := by
  have hij := hypot_le (r := 1) (by simpa using h)
  unfold hypot at h
  have hi : i = 0 ∨ i = 1 := by omega
  have hj : j = 0 ∨ j = 1 := by omega
  rcases hi with rfl | rfl <;> rcases hj with rfl | rfl <;> simp at h ⊢

theorem absDiff_eq_zero {u v : Nat} (h : absDiff u v = 0) : u = v := by
  unfold absDiff at h
  split at h <;> omega

theorem hypot_adjacent {a b x y : Nat} (h : Adjacent a b x y) :
    hypot (absDiff x a) (absDiff y b) = 1 := by
  unfold Adjacent at h
  have hx : (absDiff x a = 1 ∧ absDiff y b = 0) ∨ (absDiff x a = 0 ∧ absDiff y b = 1) := by
    unfold absDiff
    rcases h with ⟨h1, h2⟩ | ⟨h1, h2⟩ | ⟨h1, h2⟩ | ⟨h1, h2⟩ <;> split <;> split <;> omega
  rcases hx with ⟨h1, h2⟩ | ⟨h1, h2⟩ <;> rw [h1, h2] <;> rfl

theorem Pushes.mem {P : CellData → Prop} {n : Nat} {L L' : InflationLayer}
    (h : Pushes P n L L') {c : CellData} (hc : c ∈ L.inflation_queue_) :
    c ∈ L'.inflation_queue_ := by
  obtain ⟨q, _, _, rfl⟩ := h
  exact List.mem_append_right _ hc

theorem Pushes.queued {P : CellData → Prop} {n x y d : Nat} {L L' : InflationLayer}
    (h : Pushes P n L L') (hq : Queued L x y d) : Queued L' x y d := by
  obtain ⟨c, hc, hxy⟩ := hq
  exact ⟨c, h.mem hc, hxy⟩

theorem enqueue_queued {L L' : InflationLayer} {seen : List Bool} {index mx my sx sy : Nat}
    (hd : DistancesSound L) (hseen : L.seen_ = some seen) (hf : seen[index]? = some false)
    (hr : hypot (absDiff mx sx) (absDiff my sy) ≤
      L.cell_inflation_radius_ * L.cell_inflation_radius_)
    (h : enqueue L index mx my sx sy = .ok L') :
    Queued L' mx my (hypot (absDiff mx sx) (absDiff my sy)) := by
  unfold enqueue at h
  rw [hseen] at h
  simp only [hf] at h
  split at h
  · cases h
  · rename_i d hdl
    have hv := hd _ _ _ hdl
    split at h
    · omega
    · cases h
      exact ⟨_, List.mem_cons_self _ _, rfl, rfl, hv⟩

theorem enqueue_if_queued {L L' : InflationLayer} {seen : List Bool}
    {index mx my sx sy : Nat} (c : Prop) [Decidable c] (hc : c) (hd : DistancesSound L)
    (hseen : L.seen_ = some seen) (hf : seen[index]? = some false)
    (hr : hypot (absDiff mx sx) (absDiff my sy) ≤
      L.cell_inflation_radius_ * L.cell_inflation_radius_)
    (h : (if c then enqueue L index mx my sx sy else .ok L) = .ok L') :
    Queued L' mx my (hypot (absDiff mx sx) (absDiff my sy)) := by
  rw [if_pos hc] at h
  exact enqueue_queued hd hseen hf hr h

theorem enqueueNeighbours_queued {S : Nat → Nat → Prop} {size_x size_y r : Nat}
    {L L' : InflationLayer} {seen : List Bool} {index mx my sx sy : Nat}
    (hd : DistancesSound L) (hr : L.cell_inflation_radius_ = r)
    (hx : mx < size_x) (hy : my < size_y) (hidx : index = my * size_x + mx) (hs : S sx sy)
    (hseen : L.seen_ = some seen)
    (h : enqueueNeighbours L size_x size_y index mx my sx sy = .ok L')
    {x' y' : Nat} (hadj : Adjacent mx my x' y') (hx' : x' < size_x) (hy' : y' < size_y)
    (hf : seen[y' * size_x + x']? = some false)
    (hdist : hypot (absDiff x' sx) (absDiff y' sy) ≤ r * r) :
    Queued L' x' y' (hypot (absDiff x' sx) (absDiff y' sy)) := by
  unfold enqueueNeighbours at h
  cases h1 : (if 0 < mx then enqueue L (index - 1) (mx - 1) my sx sy else Except.ok L) with
  | error e => rw [h1] at h; cases h
  | ok L1 =>
    rw [h1] at h
    simp only at h
    have p1 : Pushes (GoodEntry S size_x size_y r) 1 L L1 :=
      enqueue_if_pushes S size_x size_y (0 < mx) hd hr
        (fun _ => Nat.lt_of_le_of_lt (Nat.sub_le _ _) hx) (fun _ => hy)
        (fun hc => by subst hidx; omega) hs h1
    cases h2 : (if 0 < my then enqueue L1 (index - size_x) mx (my - 1) sx sy else Except.ok L1) with
    | error e => rw [h2] at h; cases h
    | ok L2 =>
      rw [h2] at h
      simp only at h
      have p2 : Pushes (GoodEntry S size_x size_y r) 1 L1 L2 :=
        enqueue_if_pushes S size_x size_y (0 < my) (p1.sound hd) (p1.radius.trans hr)
          (fun _ => hx) (fun _ => Nat.lt_of_le_of_lt (Nat.sub_le _ _) hy)
          (fun hc => idx_up hidx hc) hs h2
      have p12 := p1.trans p2
      cases h3 : (if mx < usub1 size_x then enqueue L2 (index + 1) (mx + 1) my sx sy
          else Except.ok L2) with
      | error e => rw [h3] at h; cases h
      | ok L3 =>
        rw [h3] at h
        simp only at h
        have p3 : Pushes (GoodEntry S size_x size_y r) 1 L2 L3 :=
          enqueue_if_pushes S size_x size_y (mx < usub1 size_x) (p12.sound hd)
            (p12.radius.trans hr) (fun hc => lt_of_lt_usub1 hx hc) (fun _ => hy)
            (fun hc => by subst hidx; omega) hs h3
        have p123 := p12.trans p3
        have p4 : Pushes (GoodEntry S size_x size_y r) 1 L3 L' :=
          enqueue_if_pushes S size_x size_y (my < usub1 size_y) (p123.sound hd)
            (p123.radius.trans hr) (fun _ => hx) (fun hc => lt_of_lt_usub1 hy hc)
            (fun _ => idx_down hidx) hs h
        rcases hadj with ⟨ha, hb⟩ | ⟨ha, hb⟩ | ⟨ha, hb⟩ | ⟨ha, hb⟩
        · have hmx : x' = mx - 1 := by omega
          subst hmx; subst hb
          have he : index - 1 = y' * size_x + (mx - 1) := by subst hidx; omega
          have := enqueue_if_queued (0 < mx) (by omega) hd hseen (he ▸ hf)
            (by rw [hr]; exact hdist) h1
          exact p4.queued (p3.queued (p2.queued this))
        · subst ha; subst hb
          have he : index + 1 = y' * size_x + (mx + 1) := by subst hidx; omega
          have := enqueue_if_queued (mx < usub1 size_x) (usub1_lt hx')
            (p12.sound hd) (p12.seen.trans hseen) (he ▸ hf)
            (by rw [p12.radius, hr]; exact hdist) h3
          exact p4.queued this
        · have hmy : y' = my - 1 := by omega
          subst hmy; subst ha
          have := enqueue_if_queued (0 < my) (by omega) (p1.sound hd) (p1.seen.trans hseen)
            ((idx_up hidx (by omega)) ▸ hf) (by rw [p1.radius, hr]; exact hdist) h2
          exact p4.queued (p3.queued this)
        · subst ha; subst hb
          exact enqueue_if_queued (my < usub1 size_y) (usub1_lt hy')
            (p123.sound hd) (p123.seen.trans hseen) ((idx_down hidx) ▸ hf)
            (by rw [p123.radius, hr]; exact hdist) h

theorem inflate_induct {S : Nat → Nat → Prop} {size_x size_y r : Nat}
    {costs : Option (List (List Nat))} {m0 : List Nat} (tie : Nat → Nat)
    (hm0 : m0.length = size_x * size_y) (I : InflationLayer → List Nat → Prop)
    (hstep : ∀ (k : Nat) (L L1 : InflationLayer) (master master1 : List Nat) (cur : CellData),
      LoopInv S size_x size_y r costs m0 L master → I L master →
      top k L.inflation_queue_ = some cur →
      visit size_x size_y cur { L with inflation_queue_ := L.inflation_queue_.erase cur }
        master = .ok (L1, master1) → I L1 master1) :
    ∀ (fuel n : Nat) (L L' : InflationLayer) (master master' : List Nat),
      LoopInv S size_x size_y r costs m0 L master → I L master →
      inflate tie size_x size_y fuel n L master = .ok (L', master') → I L' master'
  | 0, n, L, L', master, master', _, hI, h => by
    unfold inflate at h
    split at h
    · cases h; exact hI
    · cases h
  | fuel + 1, n, L, L', master, master', hinv, hI, h => by
    unfold inflate at h
    split at h
    · cases h; exact hI
    · rename_i cur ht
      split at h
      · cases h
      · rename_i L1 master1 hv
        have hcur := hinv.queue cur (top_mem ht)
        have hinv1 := visit_inv hm0
          (hinv.setQueue (L.inflation_queue_.erase cur)
            (fun c hc => hinv.queue c (List.mem_of_mem_erase hc))) hcur hv
        exact inflate_induct tie hm0 I hstep fuel (n + 1) L1 L' master1 master' hinv1
          (hstep _ L L1 master master1 cur hinv hI ht hv) h

theorem visit_nextTo {S : Nat → Nat → Prop} {a b x y size_x size_y r : Nat}
    {costs : Option (List (List Nat))} {m0 : List Nat}
    (ha : a < size_x) (hx : x < size_x) (hy : y < size_y)
    (hadj : Adjacent a b x y) (hr : 1 ≤ r) (hnot : ¬ S x y)
    (k : Nat) (L L1 : InflationLayer) (master master1 : List Nat) (cur : CellData)
    (hinv : LoopInv S size_x size_y r costs m0 L master)
    (hI : NextTo a b x y size_x costs m0 L master)
    (ht : top k L.inflation_queue_ = some cur)
    (hv : visit size_x size_y cur { L with inflation_queue_ := L.inflation_queue_.erase cur }
      master = .ok (L1, master1)) :
    NextTo a b x y size_x costs m0 L1 master1 := by
  obtain ⟨seen, hseen, hlen, hcells⟩ := hinv.seen
  have hcur := hinv.queue cur (top_mem ht)
  have hleast := top_least ht
  have hcidx : cur.index_ < seen.length := by
    have := idx_lt hcur.hx hcur.hy
    rw [hcur.hidx]; omega
  have hxy : y * size_x + x < seen.length := by
    have := idx_lt hx hy
    omega
  have hzero : ∀ c ∈ L.inflation_queue_, c.distance_ = 0 →
      cur.src_x_ = cur.x_ ∧ cur.src_y_ = cur.y_ := by
    intro c hc hcd
    have h0 : cur.distance_ = 0 := by
      have := hleast c hc
      omega
    rw [hcur.hval] at h0
    obtain ⟨h1, h2⟩ := hypot_eq_zero h0
    exact ⟨(absDiff_eq_zero h1).symm, (absDiff_eq_zero h2).symm⟩
  have hkeep : ∀ c ∈ L.inflation_queue_, c.index_ ≠ cur.index_ →
      c ∈ L.inflation_queue_.erase cur := by
    intro c hc hne
    exact (List.mem_erase_of_ne (fun e => hne (by rw [e]))).2 hc
  have hcidx' : ∀ c ∈ L.inflation_queue_, ∀ u v, c.x_ = u → c.y_ = v →
      c.index_ = v * size_x + u := by
    intro c hc u v hu hv'
    rw [(hinv.queue c hc).hidx, hu, hv']
  rcases visit_cases (L := { L with inflation_queue_ := L.inflation_queue_.erase cur })
      hinv.sound hinv.radius hseen hcur hv with
    ⟨hs, rfl, rfl⟩ | ⟨hs, cost, old, hcost, hold, rfl, hn, hp⟩
  · -- the popped cell was marked before: only the queue shrinks
    constructor
    · intro hns
      have hns' : ¬ SeenAt L size_x x y := fun h => hns h
      rcases hI.wait hns' with ⟨hna, c, hc, hcx, hcy, hcd⟩ | ⟨c, hc, hcx, hcy, hcd⟩
      · left
        refine ⟨fun h => hna h, c, hkeep c hc ?_, hcx, hcy, hcd⟩
        intro e
        apply hna
        rw [seenAt_iff size_x a b hseen, ← hcidx' c hc a b hcx hcy, e]
        exact hs
      · right
        refine ⟨c, hkeep c hc ?_, hcx, hcy, hcd⟩
        intro e
        apply hns'
        rw [seenAt_iff size_x x y hseen, ← hcidx' c hc x y hcx hcy, e]
        exact hs
    · intro hsn
      exact hI.done hsn
  · -- the popped cell is marked and written now
    have hseen1 : L1.seen_ = some (seen.set cur.index_ true) := hp.seen
    have hmem1 : ∀ c ∈ L.inflation_queue_, c.index_ ≠ cur.index_ →
        c ∈ L1.inflation_queue_ := fun c hc hne => hp.mem (hkeep c hc hne)
    constructor
    · intro hns1
      rw [seenAt_iff size_x x y hseen1] at hns1
      have hne : cur.index_ ≠ y * size_x + x := by
        intro e
        apply hns1
        rw [← e, List.getElem?_set_eq_of_lt _ hcidx]
      rw [List.getElem?_set_ne hne] at hns1
      have hns : ¬ SeenAt L size_x x y := by
        rw [seenAt_iff size_x x y hseen]; exact hns1
      rcases hI.wait hns with ⟨hna, c, hc, hcx, hcy, hcd⟩ | ⟨c, hc, hcx, hcy, hcd⟩
      · by_cases he : cur.index_ = b * size_x + a
        · right
          have hcell : cur.x_ = a ∧ cur.y_ = b := by
            apply cell_unique hcur.hx ha
            rw [← hcur.hidx, he]
          obtain ⟨hsx, hsy⟩ := hzero c hc hcd
          rw [hcell.1] at hsx
          rw [hcell.2] at hsy
          rw [hcell.1, hcell.2, hsx, hsy] at hn
          have hd1 := hypot_adjacent hadj
          have hq := enqueueNeighbours_queued (S := fun _ _ => True)
            (L := { L with inflation_queue_ := L.inflation_queue_.erase cur,
                           seen_ := some (seen.set cur.index_ true) })
            hinv.sound hinv.radius (hcell.1 ▸ hcur.hx) (hcell.2 ▸ hcur.hy) he trivial rfl hn
            hadj hx hy (by rw [List.getElem?_set_ne hne]; exact seen_false_of_not hxy hns1)
            (by rw [hd1]; exact Nat.mul_le_mul hr hr)
          rw [hd1] at hq
          exact hq
        · left
          refine ⟨?_, c, hmem1 c hc ?_, hcx, hcy, hcd⟩
          · rw [seenAt_iff size_x a b hseen1, List.getElem?_set_ne he]
            rw [seenAt_iff size_x a b hseen] at hna
            exact hna
          · rw [hcidx' c hc a b hcx hcy]
            exact fun e => he e.symm
      · right
        refine ⟨c, hmem1 c hc ?_, hcx, hcy, hcd⟩
        rw [hcidx' c hc x y hcx hcy]
        exact fun e => hne e.symm
    · intro hs1
      rw [seenAt_iff size_x x y hseen1] at hs1
      by_cases he : cur.index_ = y * size_x + x
      · have hcell : cur.x_ = x ∧ cur.y_ = y := by
          apply cell_unique hcur.hx hx
          rw [← hcur.hidx, he]
        have hns : ¬ SeenAt L size_x x y := by
          rw [seenAt_iff size_x x y hseen, ← he, hs]
          simp
        have hsrc := hcur.hsrc
        have hne0 : cur.distance_ ≠ 0 := by
          intro h0
          rw [hcur.hval] at h0
          obtain ⟨h1, h2⟩ := hypot_eq_zero h0
          rw [← absDiff_eq_zero h1, ← absDiff_eq_zero h2, hcell.1, hcell.2] at hsrc
          exact hnot hsrc
        rcases hI.wait hns with ⟨_, c, hc, _, _, hcd⟩ | ⟨c, hc, _, _, hcd⟩
        · have := hleast c hc
          omega
        · have hle : cur.distance_ ≤ 1 := by
            have := hleast c hc
            omega
          have hval := hcur.hval
          have hm : master[cur.index_]? = m0[cur.index_]? :=
            (hcells _ (by rw [hcur.hidx]; exact idx_lt hcur.hx hcur.hy)).1 hs
          have hml : cur.index_ < master.length := by
            by_contra hcon
            rw [List.getElem?_eq_none (by omega)] at hold
            cases hold
          have hcost' : tableAt costs (absDiff cur.x_ cur.src_x_) (absDiff cur.y_ cur.src_y_) =
              .ok cost := hinv.costs_eq ▸ hcost
          refine ⟨cost, old, ?_, by rw [← he, ← hm]; exact hold, by
            rw [← he, List.getElem?_set_eq_of_lt _ hml]⟩
          rcases hypot_le_one (hval ▸ hle) with ⟨h1, h2⟩ | ⟨h1, h2⟩ | ⟨h1, h2⟩
          · rw [hval, h1, h2] at hne0
            exact absurd rfl hne0
          · rw [h1, h2] at hcost'
            exact Or.inl hcost'
          · rw [h1, h2] at hcost'
            exact Or.inr hcost'
      · rw [List.getElem?_set_ne he] at hs1
        obtain ⟨k', old', hk', ho', hm'⟩ := hI.done ((seenAt_iff size_x x y hseen).2 hs1)
        exact ⟨k', old', hk', ho', by rw [List.getElem?_set_ne he]; exact hm'⟩

theorem seedRow_queued {S : Nat → Nat → Prop} {size_x size_y r : Nat}
    {costs : Option (List (List Nat))} {m0 : List Nat} {j : Nat} (hj : j < size_y)
    (seen : List Bool) (hfalse : ∀ idx, idx < size_x * size_y → seen[idx]? = some false) :
    ∀ (cols : List Nat) (L L' : InflationLayer),
      (∀ i ∈ cols, i < size_x ∧ (m0[j * size_x + i]? = some LETHAL_OBSTACLE → S i j)) →
      LoopInv S size_x size_y r costs m0 L m0 → L.seen_ = some seen →
      seedRow m0 size_x j cols L = .ok L' →
      ∀ a, a ∈ cols → m0[j * size_x + a]? = some LETHAL_OBSTACLE → Queued L' a j 0
  | [], L, L', _, _, _, h => by
    intro a ha
    simp at ha
  | i :: is, L, L', hcols, hinv, hseen, h => by
    unfold seedRow at h
    have hi := hcols i (by simp)
    have hrest : ∀ i ∈ is, i < size_x ∧ (m0[j * size_x + i]? = some LETHAL_OBSTACLE → S i j) :=
      fun k hk => hcols k (List.mem_cons_of_mem _ hk)
    split at h
    · cases h
    · rename_i cost hcost
      split at h
      · rename_i hl
        subst hl
        split at h
        · cases h
        · rename_i L1 he
          have hp := enqueue_pushes (S := S) hinv.sound hi.1 hj rfl (hi.2 hcost) he
          rw [hinv.radius] at hp
          have hq : Queued L1 i j 0 := by
            have := enqueue_queued hinv.sound hseen (hfalse _ (idx_lt hi.1 hj))
              (by rw [absDiff_self, absDiff_self]; exact Nat.zero_le _) he
            rw [absDiff_self, absDiff_self] at this
            exact this
          have hp2 := (seedRow_pushes hj is L1 L' hrest (hinv.pushes hp) h).1
          have hrec := seedRow_queued hj seen hfalse is L1 L' hrest (hinv.pushes hp)
            (hp.seen.trans hseen) h
          intro a ha hla
          rcases List.mem_cons.1 ha with h1 | h1
          · subst h1; exact hp2.queued hq
          · exact hrec a h1 hla
      · rename_i hl
        have hrec := seedRow_queued hj seen hfalse is L L' hrest hinv hseen h
        intro a ha hla
        rcases List.mem_cons.1 ha with h1 | h1
        · subst h1
          rw [hcost] at hla
          exact absurd (Option.some.inj hla) hl
        · exact hrec a h1 hla

theorem seedRows_queued {S : Nat → Nat → Prop} {size_x size_y r : Nat}
    {costs : Option (List (List Nat))} {m0 : List Nat} (cols : List Nat)
    (seen : List Bool) (hfalse : ∀ idx, idx < size_x * size_y → seen[idx]? = some false) :
    ∀ (rows : List Nat) (L L' : InflationLayer),
      (∀ j ∈ rows, j < size_y ∧
        ∀ i ∈ cols, i < size_x ∧ (m0[j * size_x + i]? = some LETHAL_OBSTACLE → S i j)) →
      LoopInv S size_x size_y r costs m0 L m0 → L.seen_ = some seen →
      seedRows m0 size_x cols rows L = .ok L' →
      ∀ a b, a ∈ cols → b ∈ rows → m0[b * size_x + a]? = some LETHAL_OBSTACLE →
        Queued L' a b 0
  | [], L, L', _, _, _, h => by
    intro a b _ hb
    simp at hb
  | j :: js, L, L', hrows, hinv, hseen, h => by
    unfold seedRows at h
    have hj := hrows j (by simp)
    split at h
    · cases h
    · rename_i L1 h1
      have hp1 := (seedRow_pushes hj.1 cols L L1 hj.2 hinv h1).1
      have hq1 := seedRow_queued hj.1 seen hfalse cols L L1 hj.2 hinv hseen h1
      have hrest : ∀ k ∈ js, k < size_y ∧
          ∀ i ∈ cols, i < size_x ∧ (m0[k * size_x + i]? = some LETHAL_OBSTACLE → S i k) :=
        fun k hk => hrows k (List.mem_cons_of_mem _ hk)
      have hp2 := (seedRows_pushes cols js L1 L' hrest (hinv.pushes hp1) h).1
      have hrec := seedRows_queued cols seen hfalse js L1 L' hrest (hinv.pushes hp1)
        (hp1.seen.trans hseen) h
      intro a b ha hb hl
      rcases List.mem_cons.1 hb with h2 | h2
      · subst h2; exact hp2.queued (hq1 a ha hl)
      · exact hrec a b ha h2 hl

theorem updateCosts_next_to_seed {tie : Nat → Nat} {L L' : InflationLayer} {g g' : Costmap2D}
    {min_i min_j max_i max_j : Int} (hg : g.WellFormed) (hd : DistancesSound L)
    (hen : L.enabled_ = true) (hr : 1 ≤ L.cell_inflation_radius_)
    (h : updateCosts tie L g min_i min_j max_i max_j = .ok (L', g')) {a b x y : Nat}
    (hseed : IsSeed g (expandLo min_i L.cell_inflation_radius_)
      (expandHi g.size_x_ max_i L.cell_inflation_radius_)
      (expandLo min_j L.cell_inflation_radius_)
      (expandHi g.size_y_ max_j L.cell_inflation_radius_) a b)
    (hadj : Adjacent a b x y) (hx : x < g.size_x_) (hy : y < g.size_y_)
    (hnl : g.getCost x y ≠ some LETHAL_OBSTACLE) :
    ∃ k old, (tableAt L.cached_costs_ 1 0 = .ok k ∨ tableAt L.cached_costs_ 0 1 = .ok k) ∧
      g.getCost x y = some old ∧ g'.getCost x y = some (writeRule old k) := by
  obtain ⟨seen, size, L2, hq, hlen, hfalse, hs, hi, hg'⟩ := updateCosts_stages hen h
  have hinv0 := loopInv_init
    (S := IsSeed g (expandLo min_i L.cell_inflation_radius_)
      (expandHi g.size_x_ max_i L.cell_inflation_radius_)
      (expandLo min_j L.cell_inflation_radius_)
      (expandHi g.size_y_ max_j L.cell_inflation_radius_)) size hd hq hlen hfalse
  have hranges := seed_ranges g (expandLo min_i L.cell_inflation_radius_)
      (expandHi g.size_x_ max_i L.cell_inflation_radius_)
      (expandLo min_j L.cell_inflation_radius_)
      (expandHi g.size_y_ max_j L.cell_inflation_radius_)
      (expandHi_le _ _ _) (expandHi_le _ _ _)
  have hp := (seedRows_pushes _ _ _ _ hranges hinv0 hs).1
  have hqd := seedRows_queued _ seen hfalse _ _ _ hranges hinv0 rfl hs
  have hinv2 := hinv0.pushes hp
  obtain ⟨h1, h2, h3, h4, ha, hb, hl⟩ := hseed
  have hseen2 : L2.seen_ = some seen := hp.seen
  have hnot : ¬ IsSeed g (expandLo min_i L.cell_inflation_radius_)
      (expandHi g.size_x_ max_i L.cell_inflation_radius_)
      (expandLo min_j L.cell_inflation_radius_)
      (expandHi g.size_y_ max_j L.cell_inflation_radius_) x y := fun hsx => hnl hsx.2.2.2.2.2.2
  have hunseen : ∀ u v, u < g.size_x_ → v < g.size_y_ → ¬ SeenAt L2 g.size_x_ u v := by
    intro u v hu hv'
    rw [seenAt_iff g.size_x_ u v hseen2, hfalse _ (idx_lt hu hv')]
    simp
  have hI2 : NextTo a b x y g.size_x_ L.cached_costs_ g.costmap_ L2 g.costmap_ := by
    constructor
    · intro _
      exact Or.inl ⟨hunseen a b ha hb,
        hqd a b (by rw [List.mem_range'_1]; omega) (by rw [List.mem_range'_1]; omega) hl⟩
    · intro hsn
      exact absurd hsn (hunseen x y hx hy)
  have hinv' := inflate_inv tie hg.1 _ _ _ _ _ _ hinv2 hi
  have hI' := inflate_induct tie hg.1
    (NextTo a b x y g.size_x_ L.cached_costs_ g.costmap_)
    (visit_nextTo ha hx hy hadj hr hnot) _ _ _ _ _ _ hinv2 hI2 hi
  have hsn : SeenAt L' g.size_x_ x y := by
    by_contra hns
    rcases hI'.wait hns with ⟨_, c, hc, _⟩ | ⟨c, hc, _⟩
    · rw [hinv'.2] at hc; cases hc
    · rw [hinv'.2] at hc; cases hc
  obtain ⟨k, old, hk, ho, hm⟩ := hI'.done hsn
  refine ⟨k, old, hk, ho, ?_⟩
  rw [hg']
  exact hm

theorem writeRule_eq (o k : Nat) :
    writeRule o k = if o = 255 ∧ 253 ≤ k then k else max o k := rfl

theorem visit_write {size_x size_y : Nat} {cur : CellData} {L0 L1 : InflationLayer}
    {master master1 : List Nat} {seen : List Bool} (hseen : L0.seen_ = some seen)
    (hf : seen[cur.index_]? = some false)
    (h : visit size_x size_y cur L0 master = .ok (L1, master1)) :
    ∃ o k, master[cur.index_]? = some o ∧
      costLookup L0 cur.x_ cur.y_ cur.src_x_ cur.src_y_ = .ok k ∧
      master1 = master.set cur.index_ (writeRule o k) ∧
      master1[cur.index_]? = some (writeRule o k) := by
  unfold visit at h
  rw [hseen] at h
  simp only [hf] at h
  split at h
  · cases h
  · rename_i cost hcost
    split at h
    · cases h
    · rename_i old hold
      split at h
      · cases h
      · cases h
        have hml : cur.index_ < master.length := by
          by_contra hcon
          rw [List.getElem?_eq_none (by omega)] at hold
          cases hold
        exact ⟨old, cost, hold, hcost, rfl, List.getElem?_set_eq_of_lt _ hml⟩

theorem getCost_some {g : Costmap2D} (hg : g.WellFormed) {x y : Nat} (hx : x < g.size_x_)
    (hy : y < g.size_y_) : ∃ old, g.getCost x y = some old := by
  have hi : y * g.size_x_ + x < g.costmap_.length := by rw [hg.1]; exact idx_lt hx hy
  exact ⟨g.costmap_[y * g.size_x_ + x], List.getElem?_eq_getElem hi⟩

theorem exampleCost_le (d : Nat) : exampleCost d % 256 ≤ 254 := by
  unfold exampleCost
  split <;> decide

theorem steepCost_le (d : Nat) : steepCost d % 256 ≤ 254 := by
  unfold steepCost
  split <;> decide

theorem steepLayer_built : KernelBuilt steepCost steepLayer := ⟨by decide, rfl, rfl, rfl⟩

theorem kernelBuilt_unit {cc : Nat → Nat} {L : InflationLayer} (h : KernelBuilt cc L)
    {k : Nat} (hk : tableAt L.cached_costs_ 1 0 = .ok k ∨ tableAt L.cached_costs_ 0 1 = .ok k) :
    k = cc 1 % 256 := by
  rcases hk with h1 | h1
  · exact kernelBuilt_cost h h1
  · exact kernelBuilt_cost h h1

theorem Frame.same (L : InflationLayer) : Frame L L := ⟨rfl, rfl, rfl⟩

theorem Frame.andThen {L L1 L2 : InflationLayer} (h1 : Frame L L1) (h2 : Frame L1 L2) :
    Frame L L2 :=
  ⟨h2.settings.trans h1.settings, h2.size.trans h1.size, h2.seen.trans h1.seen⟩


theorem Frame.sized {L L' : InflationLayer} (h : Frame L L') (hs : SeenSized L) :
    SeenSized L' := by
  intro seen' hs'
  have hm := h.seen
  rw [hs', h.size] at *
  cases hL : L.seen_ with
  | none => rw [hL] at hm; cases hm
  | some seen =>
    rw [hL] at hm
    simp only [Option.map_some', Option.some.injEq] at hm
    rw [hm]
    exact hs seen hL

theorem enqueue_frame {L L' : InflationLayer} {index mx my sx sy : Nat}
    (h : enqueue L index mx my sx sy = .ok L') : Frame L L' := by
  unfold enqueue at h
  split at h
  · cases h
  · split at h
    · cases h
    · cases h; exact Frame.same _
    · split at h
      · cases h
      · split at h
        · cases h; exact Frame.same _
        · cases h; exact ⟨rfl, rfl, rfl⟩

theorem enqueue_if_frame {L L' : InflationLayer} {index mx my sx sy : Nat} (c : Prop)
    [Decidable c] (h : (if c then enqueue L index mx my sx sy else .ok L) = .ok L') :
    Frame L L' := by
  split at h
  · exact enqueue_frame h
  · cases h; exact Frame.same _

theorem enqueueNeighbours_frame {L L' : InflationLayer} {size_x size_y index mx my sx sy : Nat}
    (h : enqueueNeighbours L size_x size_y index mx my sx sy = .ok L') : Frame L L' := by
  unfold enqueueNeighbours at h
  cases h1 : (if 0 < mx then enqueue L (index - 1) (mx - 1) my sx sy else Except.ok L) with
  | error e => rw [h1] at h; cases h
  | ok L1 =>
    rw [h1] at h
    simp only at h
    cases h2 : (if 0 < my then enqueue L1 (index - size_x) mx (my - 1) sx sy else Except.ok L1) with
    | error e => rw [h2] at h; cases h
    | ok L2 =>
      rw [h2] at h
      simp only at h
      cases h3 : (if mx < usub1 size_x then enqueue L2 (index + 1) (mx + 1) my sx sy
          else Except.ok L2) with
      | error e => rw [h3] at h; cases h
      | ok L3 =>
        rw [h3] at h
        simp only at h
        exact (((enqueue_if_frame _ h1).andThen (enqueue_if_frame _ h2)).andThen
          (enqueue_if_frame _ h3)).andThen (enqueue_if_frame _ h)

theorem enqueueNeighbours_seen {L L' : InflationLayer} {size_x size_y index mx my sx sy : Nat}
    {seen : List Bool} (hseen : L.seen_ = some seen)
    (h : enqueueNeighbours L size_x size_y index mx my sx sy = .ok L') :
    L'.seen_ = some seen := by
  unfold enqueueNeighbours at h
  have key : ∀ (c : Prop) [Decidable c] (K K' : InflationLayer) (i a b : Nat),
      K.seen_ = some seen → (if c then enqueue K i a b sx sy else .ok K) = .ok K' →
      K'.seen_ = some seen := by
    intro c _ K K' i a b hK hc
    split at hc
    · unfold enqueue at hc
      rw [hK] at hc
      simp only at hc
      split at hc
      · cases hc
      · cases hc; exact hK
      · split at hc
        · cases hc
        · split at hc
          · cases hc; exact hK
          · cases hc; rfl
    · cases hc; exact hK
  cases h1 : (if 0 < mx then enqueue L (index - 1) (mx - 1) my sx sy else Except.ok L) with
  | error e => rw [h1] at h; cases h
  | ok L1 =>
    rw [h1] at h
    simp only at h
    cases h2 : (if 0 < my then enqueue L1 (index - size_x) mx (my - 1) sx sy else Except.ok L1) with
    | error e => rw [h2] at h; cases h
    | ok L2 =>
      rw [h2] at h
      simp only at h
      cases h3 : (if mx < usub1 size_x then enqueue L2 (index + 1) (mx + 1) my sx sy
          else Except.ok L2) with
      | error e => rw [h3] at h; cases h
      | ok L3 =>
        rw [h3] at h
        simp only at h
        exact key _ _ _ _ _ _ (key _ _ _ _ _ _ (key _ _ _ _ _ _ (key _ _ _ _ _ _ hseen h1) h2) h3) h

theorem visit_step {size_x size_y : Nat} {cur : CellData} {L0 L1 : InflationLayer}
    {master master1 : List Nat}
    (h : visit size_x size_y cur L0 master = .ok (L1, master1)) :
    ∃ seen, L0.seen_ = some seen ∧
      ((seen[cur.index_]? = some true ∧ L1 = L0 ∧ master1 = master ∧
          visitWrites cur L0 master = []) ∨
        (seen[cur.index_]? = some false ∧ L1.seen_ = some (seen.set cur.index_ true) ∧
          Frame L0 L1 ∧ (∃ v, master1 = master.set cur.index_ v) ∧
          visitWrites cur L0 master = [cur.index_])) := by
  cases hseen : L0.seen_ with
  | none =>
    unfold visit at h
    rw [hseen] at h
    cases h
  | some seen =>
    refine ⟨seen, rfl, ?_⟩
    unfold visit at h
    rw [hseen] at h
    simp only at h
    split at h
    · cases h
    · rename_i hs
      cases h
      left
      refine ⟨hs, rfl, rfl, ?_⟩
      unfold visitWrites
      rw [hseen]
      simp only [hs]
    · rename_i hs
      right
      split at h
      · cases h
      · rename_i cost hcost
        split at h
        · cases h
        · rename_i old hold
          split at h
          · cases h
          · rename_i L2 hn
            cases h
            have hcost' : costLookup L0 cur.x_ cur.y_ cur.src_x_ cur.src_y_ = .ok cost := hcost
            refine ⟨hs, enqueueNeighbours_seen rfl hn, ?_, ⟨_, rfl⟩, ?_⟩
            · have hf := enqueueNeighbours_frame hn
              refine ⟨hf.settings, hf.size, hf.seen.trans ?_⟩
              rw [hseen]
              simp
            · unfold visitWrites
              rw [hseen]
              simp only [hs, hcost', hold]

theorem visitWrites_cases (cur : CellData) (L : InflationLayer) (master : List Nat) :
    visitWrites cur L master = [] ∨
    (visitWrites cur L master = [cur.index_] ∧
      ∃ seen, L.seen_ = some seen ∧ seen[cur.index_]? = some false) := by
  unfold visitWrites
  split
  · exact Or.inl rfl
  · rename_i seen hseen
    split
    · rename_i hs
      split
      · exact Or.inr ⟨rfl, seen, hseen, hs⟩
      · exact Or.inl rfl
    · exact Or.inl rfl

theorem inflate_queue_empty (tie : Nat → Nat) (size_x size_y : Nat) :
    ∀ (fuel n : Nat) (L L' : InflationLayer) (master master' : List Nat),
      inflate tie size_x size_y fuel n L master = .ok (L', master') →
      L'.inflation_queue_ = [] ∧ Frame L L'
  | 0, n, L, L', master, master', h => by
    unfold inflate at h
    split at h
    · rename_i hq; cases h; exact ⟨hq, Frame.same _⟩
    · cases h
  | fuel + 1, n, L, L', master, master', h => by
    unfold inflate at h
    split at h
    · rename_i ht; cases h; exact ⟨top_eq_none ht, Frame.same _⟩
    · rename_i cur ht
      split at h
      · cases h
      · rename_i L1 master1 hv
        obtain ⟨hq, hf⟩ := inflate_queue_empty tie size_x size_y fuel (n + 1) L1 L' master1
          master' h
        refine ⟨hq, Frame.andThen ?_ hf⟩
        obtain ⟨seen, hseen, hc⟩ := visit_step hv
        rcases hc with ⟨_, rfl, _, _⟩ | ⟨_, _, hfr, _, _⟩
        · exact ⟨rfl, rfl, rfl⟩
        · exact Frame.andThen
            (⟨rfl, rfl, rfl⟩ : Frame L { L with inflation_queue_ := L.inflation_queue_.erase cur })
            hfr

theorem inflateWrites_nodup (tie : Nat → Nat) (size_x size_y : Nat) :
    ∀ (fuel n : Nat) (L : InflationLayer) (master : List Nat),
      (inflateWrites tie size_x size_y fuel n L master).Nodup ∧
      ∀ i ∈ inflateWrites tie size_x size_y fuel n L master,
        ∃ seen, L.seen_ = some seen ∧ seen[i]? = some false
  | 0, n, L, master => by
    unfold inflateWrites
    exact ⟨List.nodup_nil, fun i hi => by cases hi⟩
  | fuel + 1, n, L, master => by
    unfold inflateWrites
    split
    · exact ⟨List.nodup_nil, fun i hi => by cases hi⟩
    · rename_i cur ht
      split
      · rename_i e he
        rcases visitWrites_cases cur
            { L with inflation_queue_ := L.inflation_queue_.erase cur } master with
          h0 | ⟨h1, seen, hseen, hs⟩
        · rw [h0]
          exact ⟨List.nodup_nil, fun i hi => by cases hi⟩
        · rw [h1]
          refine ⟨List.nodup_singleton _, fun i hi => ?_⟩
          rw [List.mem_singleton] at hi
          subst hi
          exact ⟨seen, hseen, hs⟩
      · rename_i L1 master1 hv
        obtain ⟨hnd, hmem⟩ := inflateWrites_nodup tie size_x size_y fuel (n + 1) L1 master1
        obtain ⟨seen, hseen, hc⟩ := visit_step hv
        rcases hc with ⟨_, rfl, _, hw⟩ | ⟨hs, hseen1, _, _, hw⟩
        · rw [hw, List.nil_append]
          exact ⟨hnd, hmem⟩
        · rw [hw]
          have hlt : cur.index_ < seen.length := by
            by_contra hcon
            rw [List.getElem?_eq_none (by omega)] at hs
            cases hs
          have hrest : ∀ i ∈ inflateWrites tie size_x size_y fuel (n + 1) L1 master1,
              i ≠ cur.index_ ∧ seen[i]? = some false := by
            intro i hi
            obtain ⟨s1, hs1, hf1⟩ := hmem i hi
            rw [hseen1] at hs1
            cases hs1
            have hne : i ≠ cur.index_ := by
              intro e
              rw [e, List.getElem?_set_eq_of_lt _ hlt] at hf1
              cases hf1
            rw [List.getElem?_set_ne (fun e => hne e.symm)] at hf1
            exact ⟨hne, hf1⟩
          constructor
          · rw [List.singleton_append, List.nodup_cons]
            exact ⟨fun hin => (hrest _ hin).1 rfl, hnd⟩
          · intro i hi
            rw [List.singleton_append, List.mem_cons] at hi
            rcases hi with rfl | hi
            · exact ⟨seen, hseen, hs⟩
            · exact ⟨seen, hseen, (hrest i hi).2⟩

theorem inflateWrites_complete (tie : Nat → Nat) (size_x size_y : Nat) :
    ∀ (fuel n : Nat) (L L' : InflationLayer) (master master' : List Nat),
      inflate tie size_x size_y fuel n L master = .ok (L', master') →
      ∀ i, i ∉ inflateWrites tie size_x size_y fuel n L master → master'[i]? = master[i]?
  | 0, n, L, L', master, master', h => by
    unfold inflate at h
    split at h
    · cases h; exact fun _ _ => rfl
    · cases h
  | fuel + 1, n, L, L', master, master', h => by
    unfold inflate at h
    split at h
    · cases h; exact fun _ _ => rfl
    · rename_i cur ht
      split at h
      · cases h
      · rename_i L1 master1 hv
        unfold inflateWrites
        simp only [ht, hv]
        have hrec := inflateWrites_complete tie size_x size_y fuel (n + 1) L1 L' master1
          master' h
        obtain ⟨seen, hseen, hc⟩ := visit_step hv
        intro i hi
        rw [List.mem_append, not_or] at hi
        rw [hrec i hi.2]
        rcases hc with ⟨_, _, rfl, _⟩ | ⟨_, _, _, ⟨v, rfl⟩, hw⟩
        · rfl
        · rw [hw, List.mem_singleton] at hi
          rw [List.getElem?_set_ne (fun e => hi.1 e.symm)]

theorem seedRow_frame (master : List Nat) (size_x j : Nat) :
    ∀ (cols : List Nat) (L L' : InflationLayer),
      seedRow master size_x j cols L = .ok L' → Frame L L'
  | [], L, L', h => by
    unfold seedRow at h; cases h; exact Frame.same _
  | i :: is, L, L', h => by
    unfold seedRow at h
    split at h
    · cases h
    · split at h
      · split at h
        · cases h
        · rename_i L1 he
          exact (enqueue_frame he).andThen (seedRow_frame master size_x j is L1 L' h)
      · exact seedRow_frame master size_x j is L L' h

theorem seedRows_frame (master : List Nat) (size_x : Nat) (cols : List Nat) :
    ∀ (rows : List Nat) (L L' : InflationLayer),
      seedRows master size_x cols rows L = .ok L' → Frame L L'
  | [], L, L', h => by
    unfold seedRows at h; cases h; exact Frame.same _
  | j :: js, L, L', h => by
    unfold seedRows at h
    split at h
    · cases h
    · rename_i L1 h1
      exact (seedRow_frame master size_x j cols L L1 h1).andThen
        (seedRows_frame master size_x cols js L1 L' h)

theorem resetSeen_frame {L L1 : InflationLayer} {cells : Nat} (h : resetSeen L cells = .ok L1) :
    L1.settings = L.settings ∧ L1.inflation_queue_ = L.inflation_queue_ ∧
      (SeenSized L → SeenSized L1) := by
  unfold resetSeen at h
  split at h
  · cases h
    refine ⟨rfl, rfl, fun _ seen hs => ?_⟩
    cases hs
    simp
  · rename_i seen hseen
    split at h
    · cases h
      refine ⟨rfl, rfl, fun _ seen hs => ?_⟩
      cases hs
      simp
    · rename_i hsz
      split at h
      · rename_i hle
        cases h
        refine ⟨rfl, rfl, fun hsd s hs => ?_⟩
        cases hs
        have := hsd seen hseen
        simp only [List.length_append, List.length_replicate, List.length_drop]
        omega
      · cases h

theorem updateCosts_frame {tie : Nat → Nat} {L L' : InflationLayer} {g g' : Costmap2D}
    {min_i min_j max_i max_j : Int}
    (h : updateCosts tie L g min_i min_j max_i max_j = .ok (L', g')) :
    L'.settings = L.settings ∧ (SeenSized L → SeenSized L') ∧
      (L.inflation_queue_ = [] → L'.inflation_queue_ = []) := by
  unfold updateCosts at h
  split at h
  · cases h
    exact ⟨rfl, id, id⟩
  · split at h
    · cases h
    · simp only at h
      split at h
      · cases h
      · rename_i L1 hr
        split at h
        · cases h
        · rename_i L2 hs
          split at h
          · cases h
          · rename_i L3 master hi
            cases h
            obtain ⟨h1, _, h1s⟩ := resetSeen_frame hr
            have h2 := seedRows_frame _ _ _ _ _ _ hs
            obtain ⟨hq, h3⟩ := inflate_queue_empty _ _ _ _ _ _ _ _ _ hi
            have h23 := h2.andThen h3
            exact ⟨h23.settings.trans h1, fun hsd => h23.sized (h1s hsd), fun _ => hq⟩

theorem settings_built {cc : Nat → Nat} {L L' : InflationLayer}
    (h : L'.settings = L.settings) (hk : KernelBuilt cc L) : KernelBuilt cc L' := by
  have h1 : L'.cell_inflation_radius_ = L.cell_inflation_radius_ := by
    have := congrArg (fun K : InflationLayer => K.cell_inflation_radius_) h
    exact this
  have h2 : L'.cached_cell_inflation_radius_ = L.cached_cell_inflation_radius_ := by
    have := congrArg (fun K : InflationLayer => K.cached_cell_inflation_radius_) h
    exact this
  have h3 : L'.cached_distances_ = L.cached_distances_ := by
    have := congrArg (fun K : InflationLayer => K.cached_distances_) h
    exact this
  have h4 : L'.cached_costs_ = L.cached_costs_ := by
    have := congrArg (fun K : InflationLayer => K.cached_costs_) h
    exact this
  unfold KernelBuilt
  rw [h1, h2, h3, h4]
  exact hk

theorem updateCostsWrites_nodup (tie : Nat → Nat) (L : InflationLayer) (g : Costmap2D)
    (min_i min_j max_i max_j : Int) :
    (updateCostsWrites tie L g min_i min_j max_i max_j).Nodup := by
  unfold updateCostsWrites
  split
  · exact List.nodup_nil
  · split
    · exact List.nodup_nil
    · simp only
      split
      · exact List.nodup_nil
      · split
        · exact List.nodup_nil
        · exact (inflateWrites_nodup _ _ _ _ _ _ _).1

theorem updateCostsWrites_complete {tie : Nat → Nat} {L L' : InflationLayer}
    {g g' : Costmap2D} {min_i min_j max_i max_j : Int}
    (h : updateCosts tie L g min_i min_j max_i max_j = .ok (L', g')) :
    ∀ i, i ∉ updateCostsWrites tie L g min_i min_j max_i max_j →
      g'.costmap_[i]? = g.costmap_[i]? := by
  unfold updateCosts at h
  split at h
  · cases h
    exact fun _ _ => rfl
  · rename_i hen
    split at h
    · cases h
    · rename_i hq
      simp only at h
      split at h
      · cases h
      · rename_i L1 hr
        split at h
        · cases h
        · rename_i L2 hs
          split at h
          · cases h
          · rename_i L3 master hi
            cases h
            unfold updateCostsWrites
            rw [if_neg hen, if_neg hq]
            simp only [hr, hs]
            exact inflateWrites_complete _ _ _ _ _ _ _ _ _ hi

theorem updateCostsSeq_total (cc : Nat → Nat) :
    ∀ (calls : List UpdateCall) (L : InflationLayer),
      (∀ c ∈ calls, c.master_grid.WellFormed) → KernelBuilt cc L → SeenSized L →
      L.inflation_queue_ = [] →
      ∃ L', updateCostsSeq L calls = .ok L' ∧ L'.inflation_queue_ = [] ∧
        KernelBuilt cc L' ∧ SeenSized L'
  | [], L, _, hk, hs, hq => ⟨L, rfl, hq, hk, hs⟩
  | c :: rest, L, hg, hk, hs, hq => by
    have ht : ∃ out, updateCosts c.tie L c.master_grid c.min_i c.min_j c.max_i c.max_j =
        .ok out :=
      updateCosts_total c.min_i c.min_j c.max_i c.max_j (hg c (by simp)) (kernelBuilt_sound hk)
        (kernelBuilt_covers hk) hs hq
    obtain ⟨⟨L1, g1⟩, h⟩ := ht
    obtain ⟨hset, hsz, hqe⟩ := updateCosts_frame h
    obtain ⟨L', hL', hrest⟩ := updateCostsSeq_total cc rest L1
      (fun d hd => hg d (List.mem_cons_of_mem _ hd)) (settings_built hset hk) (hsz hs) (hqe hq)
    refine ⟨L', ?_, hrest⟩
    unfold updateCostsSeq
    rw [h]
    exact hL'

theorem queuesAtEntry_empty :
    ∀ (calls : List UpdateCall) (L : InflationLayer), L.inflation_queue_ = [] →
      ∀ q ∈ queuesAtEntry L calls, q = []
  | [], L, _ => by
    intro q hq
    unfold queuesAtEntry at hq
    cases hq
  | c :: rest, L, hq0 => by
    intro q hq
    unfold queuesAtEntry at hq
    rcases List.mem_cons.1 hq with h1 | h1
    · rw [h1]; exact hq0
    · split at h1
      · cases h1
      · rename_i L1 g1 h
        exact queuesAtEntry_empty rest L1 ((updateCosts_frame h).2.2 hq0) q h1

theorem queuesAtEntry_length (cc : Nat → Nat) :
    ∀ (calls : List UpdateCall) (L : InflationLayer),
      (∀ c ∈ calls, c.master_grid.WellFormed) → KernelBuilt cc L → SeenSized L →
      L.inflation_queue_ = [] → (queuesAtEntry L calls).length = calls.length
  | [], L, _, _, _, _ => rfl
  | c :: rest, L, hg, hk, hs, hq => by
    have ht : ∃ out, updateCosts c.tie L c.master_grid c.min_i c.min_j c.max_i c.max_j =
        .ok out :=
      updateCosts_total c.min_i c.min_j c.max_i c.max_j (hg c (by simp)) (kernelBuilt_sound hk)
        (kernelBuilt_covers hk) hs hq
    obtain ⟨⟨L1, g1⟩, h⟩ := ht
    obtain ⟨hset, hsz, hqe⟩ := updateCosts_frame h
    have hrec := queuesAtEntry_length cc rest L1
      (fun d hd => hg d (List.mem_cons_of_mem _ hd)) (settings_built hset hk) (hsz hs) (hqe hq)
    unfold queuesAtEntry
    rw [h]
    simp only [List.length_cons, hrec]

theorem exampleLinear_range (v : Int) (h1 : 1 ≤ v) (h2 : v ≤ 99) :
    1 ≤ exampleLinear v ∧ exampleLinear v ≤ 252 := by
  unfold exampleLinear
  omega

theorem roundTrip_eq (linear : Int → Nat) (track : Bool) (fresh : Nat → Int) (c : Nat)
    (hc : c < 256) :
    roundTrip linear track fresh c = some (reverseTranslation linear track (forward c)) := by
  unfold roundTrip
  rw [makeTranslationTable_getElem? fresh c hc]
  rfl

theorem forward_graded (i : Nat) (h1 : 1 ≤ i) (h2 : i ≤ 252) :
    forward i = 1 + (97 * ((i : Int) - 1)) / 251 ∧ 1 ≤ forward i ∧ forward i ≤ 98 := by
  have h : forward i = 1 + (97 * ((i : Int) - 1)) / 251 := by
    unfold forward
    rw [if_neg (by omega), if_neg (by omega), if_neg (by omega), if_neg (by omega)]
  rw [h]
  refine ⟨rfl, ?_, ?_⟩ <;> omega

theorem forward_mono (a b : Nat) (hab : a ≤ b) (hb : b ≤ 254) : forward a ≤ forward b := by
  by_cases ha0 : a = 0
  · subst ha0
    by_cases hb0 : b = 0
    · subst hb0; exact le_refl _
    · by_cases hb1 : b ≤ 252
      · have := (forward_graded b (by omega) hb1).2.1
        have h0 : forward 0 = 0 := rfl
        omega
      · have hb2 : b = 253 ∨ b = 254 := by omega
        rcases hb2 with rfl | rfl <;> decide
  · by_cases hb1 : b ≤ 252
    · obtain ⟨ea, _, _⟩ := forward_graded a (by omega) (by omega)
      obtain ⟨eb, _, _⟩ := forward_graded b (by omega) hb1
      rw [ea, eb]
      omega
    · by_cases ha1 : a ≤ 252
      · have := (forward_graded a (by omega) ha1).2.2
        have hb2 : b = 253 ∨ b = 254 := by omega
        rcases hb2 with rfl | rfl
        · have h99 : forward 253 = 99 := rfl
          omega
        · have h100 : forward 254 = 100 := rfl
          omega
      · have ha2 : a = 253 ∨ a = 254 := by omega
        have hb2 : b = 253 ∨ b = 254 := by omega
        rcases ha2 with rfl | rfl <;> rcases hb2 with rfl | rfl <;> first | decide | omega

theorem wave_ahead {S : Nat → Nat → Prop} {a b size_x size_y r : Nat}
    {R : Nat → Nat → Prop} {L : InflationLayer}
    (hcar : Carries S a b size_x size_y r R)
    (hpush : ∀ u v, u < size_x → v < size_y → hypot (absDiff u a) (absDiff v b) ≤ r * r →
      ¬ SeenAt L size_x u v →
      ((u = a ∧ v = b) ∨ ∃ u' v', R u' v' ∧ Adjacent u' v' u v ∧ SeenAt L size_x u' v') →
      Queued L u v (hypot (absDiff u a) (absDiff v b))) :
    ∀ (n u v : Nat), R u v → hypot (absDiff u a) (absDiff v b) ≤ n →
      ¬ SeenAt L size_x u v →
      ∃ e ∈ L.inflation_queue_, e.distance_ ≤ hypot (absDiff u a) (absDiff v b) := by
  intro n
  induction n with
  | zero =>
    intro u v hR hn hns
    obtain ⟨hu, hv, hd, _, hfed⟩ := hcar u v hR
    rcases hfed with hseed | ⟨u', v', _, _, hlt⟩
    · obtain ⟨e, he, _, _, hed⟩ := hpush u v hu hv hd hns (Or.inl hseed)
      exact ⟨e, he, by omega⟩
    · omega
  | succ n ih =>
    intro u v hR hn hns
    obtain ⟨hu, hv, hd, _, hfed⟩ := hcar u v hR
    rcases hfed with hseed | ⟨u', v', hR', hadj, hlt⟩
    · obtain ⟨e, he, _, _, hed⟩ := hpush u v hu hv hd hns (Or.inl hseed)
      exact ⟨e, he, by omega⟩
    · by_cases hs' : SeenAt L size_x u' v'
      · obtain ⟨e, he, _, _, hed⟩ := hpush u v hu hv hd hns (Or.inr ⟨u', v', hR', hadj, hs'⟩)
        exact ⟨e, he, by omega⟩
      · obtain ⟨e, he, hed⟩ := ih u' v' hR' (by omega) hs'
        exact ⟨e, he, by omega⟩

theorem visit_wave {S : Nat → Nat → Prop} {a b x y size_x size_y r : Nat}
    {R : Nat → Nat → Prop} {costs : Option (List (List Nat))} {m0 : List Nat}
    (hcar : Carries S a b size_x size_y r R)
    (hx : x < size_x) (hy : y < size_y)
    (hnear : ∀ a' b', S a' b' →
      hypot (absDiff x a) (absDiff y b) ≤ hypot (absDiff x a') (absDiff y b'))
    (hfed : Fed a b R x y)
    (k : Nat) (L L1 : InflationLayer) (master master1 : List Nat) (cur : CellData)
    (hinv : LoopInv S size_x size_y r costs m0 L master)
    (hI : Wave a b R x y size_x size_y r costs m0 L master)
    (ht : top k L.inflation_queue_ = some cur)
    (hv : visit size_x size_y cur { L with inflation_queue_ := L.inflation_queue_.erase cur }
      master = .ok (L1, master1)) :
    Wave a b R x y size_x size_y r costs m0 L1 master1 := by
  obtain ⟨seen, hseen, hlen, hcells⟩ := hinv.seen
  have hcur := hinv.queue cur (top_mem ht)
  have hleast := top_least ht
  have hcidx : cur.index_ < seen.length := by
    have := idx_lt hcur.hx hcur.hy
    rw [hcur.hidx]; omega
  have hkeep : ∀ c ∈ L.inflation_queue_, c.index_ ≠ cur.index_ →
      c ∈ L.inflation_queue_.erase cur := by
    intro c hc hne
    exact (List.mem_erase_of_ne (fun e => hne (by rw [e]))).2 hc
  have hcidx' : ∀ c ∈ L.inflation_queue_, ∀ u v, c.x_ = u → c.y_ = v →
      c.index_ = v * size_x + u := by
    intro c hc u v hu hv'
    rw [(hinv.queue c hc).hidx, hu, hv']
  have hahead := wave_ahead hcar hI.push
  rcases visit_cases (L := { L with inflation_queue_ := L.inflation_queue_.erase cur })
      hinv.sound hinv.radius hseen hcur hv with
    ⟨hs, rfl, rfl⟩ | ⟨hs, cost, old, hcost, hold, rfl, hn, hp⟩
  · -- the popped cell was marked before: only the queue shrinks
    constructor
    · intro u v hu hv' hd hns hpre
      have hns' : ¬ SeenAt L size_x u v := fun h => hns h
      obtain ⟨c, hc, hcx, hcy, hcd⟩ := hI.push u v hu hv' hd hns' hpre
      refine ⟨c, hkeep c hc ?_, hcx, hcy, hcd⟩
      intro e
      apply hns'
      rw [seenAt_iff size_x u v hseen, ← hcidx' c hc u v hcx hcy, e]
      exact hs
    · intro hsn
      exact hI.stamp hsn
  · -- the popped cell is marked and written now
    have hseen1 : L1.seen_ = some (seen.set cur.index_ true) := hp.seen
    have hmem1 : ∀ c ∈ L.inflation_queue_, c.index_ ≠ cur.index_ →
        c ∈ L1.inflation_queue_ := fun c hc hne => hp.mem (hkeep c hc hne)
    have hcurUnseen : ¬ SeenAt L size_x cur.x_ cur.y_ := by
      rw [seenAt_iff size_x cur.x_ cur.y_ hseen, ← hcur.hidx, hs]
      simp
    constructor
    · intro u v hu hv' hd hns1 hpre
      rw [seenAt_iff size_x u v hseen1] at hns1
      have huv : v * size_x + u < seen.length := by
        have := idx_lt hu hv'
        omega
      have hne : cur.index_ ≠ v * size_x + u := by
        intro e
        apply hns1
        rw [← e, List.getElem?_set_eq_of_lt _ hcidx]
      rw [List.getElem?_set_ne hne] at hns1
      have hns : ¬ SeenAt L size_x u v := by
        rw [seenAt_iff size_x u v hseen]; exact hns1
      have hold' : ∀ (hpre' : (u = a ∧ v = b) ∨
          ∃ u' v', R u' v' ∧ Adjacent u' v' u v ∧ SeenAt L size_x u' v'),
          Queued L1 u v (hypot (absDiff u a) (absDiff v b)) := by
        intro hpre'
        obtain ⟨c, hc, hcx, hcy, hcd⟩ := hI.push u v hu hv' hd hns hpre'
        refine ⟨c, hmem1 c hc ?_, hcx, hcy, hcd⟩
        rw [hcidx' c hc u v hcx hcy]
        exact fun e => hne e.symm
      rcases hpre with hseed | ⟨u', v', hR', hadj, hs1⟩
      · exact hold' (Or.inl hseed)
      · rw [seenAt_iff size_x u' v' hseen1] at hs1
        by_cases he : cur.index_ = v' * size_x + u'
        · -- the neighbour in `R` is the cell marked now: its source is the seed
          obtain ⟨hu', hv'', hd', hstrict, _⟩ := hcar u' v' hR'
          have hcell : cur.x_ = u' ∧ cur.y_ = v' := by
            apply cell_unique hcur.hx hu'
            rw [← hcur.hidx, he]
          have hsrc : cur.src_x_ = a ∧ cur.src_y_ = b := by
            by_contra hcon
            have hlt := hstrict cur.src_x_ cur.src_y_ hcur.hsrc hcon
            have hnsR : ¬ SeenAt L size_x u' v' := by
              rw [← hcell.1, ← hcell.2]; exact hcurUnseen
            obtain ⟨e, hemem, hed⟩ := hahead _ u' v' hR' (le_refl _) hnsR
            have h1 := hleast e hemem
            have h2 := hcur.hval
            rw [hcell.1, hcell.2] at h2
            omega
          rw [hcell.1, hcell.2, hsrc.1, hsrc.2] at hn
          exact enqueueNeighbours_queued (S := fun _ _ => True)
            (L := { L with inflation_queue_ := L.inflation_queue_.erase cur,
                           seen_ := some (seen.set cur.index_ true) })
            hinv.sound hinv.radius hu' hv'' he trivial rfl hn
            hadj hu hv' (by rw [List.getElem?_set_ne hne]; exact seen_false_of_not huv hns1)
            hd
        · rw [List.getElem?_set_ne he] at hs1
          exact hold' (Or.inr ⟨u', v', hR', hadj, (seenAt_iff size_x u' v' hseen).2 hs1⟩)
    · intro hs1
      rw [seenAt_iff size_x x y hseen1] at hs1
      by_cases he : cur.index_ = y * size_x + x
      · have hcell : cur.x_ = x ∧ cur.y_ = y := by
          apply cell_unique hcur.hx hx
          rw [← hcur.hidx, he]
        have hns : ¬ SeenAt L size_x x y := by
          rw [← hcell.1, ← hcell.2]; exact hcurUnseen
        have hval := hcur.hval
        rw [hcell.1, hcell.2] at hval
        have hge := hnear cur.src_x_ cur.src_y_ hcur.hsrc
        have hdxy : hypot (absDiff x a) (absDiff y b) ≤ r * r := by
          have := hcur.hdist
          rw [hcell.1, hcell.2] at this
          omega
        have hle : cur.distance_ ≤ hypot (absDiff x a) (absDiff y b) := by
          rcases hfed with hseed | ⟨x', y', hR', hadj, hlt⟩
          · obtain ⟨e, hemem, _, _, hed⟩ := hI.push x y hx hy hdxy hns (Or.inl hseed)
            have := hleast e hemem
            omega
          · by_cases hs' : SeenAt L size_x x' y'
            · obtain ⟨e, hemem, _, _, hed⟩ := hI.push x y hx hy hdxy hns
                (Or.inr ⟨x', y', hR', hadj, hs'⟩)
              have := hleast e hemem
              omega
            · obtain ⟨e, hemem, hed⟩ := hahead _ x' y' hR' (le_refl _) hs'
              have := hleast e hemem
              omega
        have hm : master[cur.index_]? = m0[cur.index_]? :=
          (hcells _ (by rw [hcur.hidx]; exact idx_lt hcur.hx hcur.hy)).1 hs
        have hml : cur.index_ < master.length := by
          by_contra hcon
          rw [List.getElem?_eq_none (by omega)] at hold
          cases hold
        have hcost' : tableAt costs (absDiff cur.x_ cur.src_x_) (absDiff cur.y_ cur.src_y_) =
            .ok cost := hinv.costs_eq ▸ hcost
        rw [hcell.1, hcell.2] at hcost'
        exact ⟨_, _, cost, old, by omega, hcost', by rw [← he, ← hm]; exact hold, by
          rw [← he, List.getElem?_set_eq_of_lt _ hml]⟩
      · rw [List.getElem?_set_ne he] at hs1
        obtain ⟨i, j, cost', old', hij, hk', ho', hm'⟩ :=
          hI.stamp ((seenAt_iff size_x x y hseen).2 hs1)
        exact ⟨i, j, cost', old', hij, hk', ho', by rw [List.getElem?_set_ne he]; exact hm'⟩

theorem updateCosts_wave {tie : Nat → Nat} {cc : Nat → Nat} {L L' : InflationLayer}
    {g g' : Costmap2D} {min_i min_j max_i max_j : Int} (hg : g.WellFormed)
    (hk : KernelBuilt cc L) (hen : L.enabled_ = true)
    (h : updateCosts tie L g min_i min_j max_i max_j = .ok (L', g')) {a b x y : Nat}
    {R : Nat → Nat → Prop}
    (hseed : IsSeed g (expandLo min_i L.cell_inflation_radius_)
      (expandHi g.size_x_ max_i L.cell_inflation_radius_)
      (expandLo min_j L.cell_inflation_radius_)
      (expandHi g.size_y_ max_j L.cell_inflation_radius_) a b)
    (hcar : Carries (IsSeed g (expandLo min_i L.cell_inflation_radius_)
      (expandHi g.size_x_ max_i L.cell_inflation_radius_)
      (expandLo min_j L.cell_inflation_radius_)
      (expandHi g.size_y_ max_j L.cell_inflation_radius_)) a b g.size_x_ g.size_y_
      L.cell_inflation_radius_ R)
    (hx : x < g.size_x_) (hy : y < g.size_y_)
    (hdist : hypot (absDiff x a) (absDiff y b) ≤
      L.cell_inflation_radius_ * L.cell_inflation_radius_)
    (hnear : ∀ a' b', IsSeed g (expandLo min_i L.cell_inflation_radius_)
      (expandHi g.size_x_ max_i L.cell_inflation_radius_)
      (expandLo min_j L.cell_inflation_radius_)
      (expandHi g.size_y_ max_j L.cell_inflation_radius_) a' b' →
      hypot (absDiff x a) (absDiff y b) ≤ hypot (absDiff x a') (absDiff y b'))
    (hfed : Fed a b R x y) :
    ∃ cost old, tableAt L.cached_costs_ (absDiff x a) (absDiff y b) = .ok cost ∧
      g.getCost x y = some old ∧ g'.getCost x y = some (writeRule old cost) := by
  have hd := kernelBuilt_sound hk
  obtain ⟨seen, size, L2, hq, hlen, hfalse, hs, hi, hg'⟩ := updateCosts_stages hen h
  have hinv0 := loopInv_init
    (S := IsSeed g (expandLo min_i L.cell_inflation_radius_)
      (expandHi g.size_x_ max_i L.cell_inflation_radius_)
      (expandLo min_j L.cell_inflation_radius_)
      (expandHi g.size_y_ max_j L.cell_inflation_radius_)) size hd hq hlen hfalse
  have hranges := seed_ranges g (expandLo min_i L.cell_inflation_radius_)
      (expandHi g.size_x_ max_i L.cell_inflation_radius_)
      (expandLo min_j L.cell_inflation_radius_)
      (expandHi g.size_y_ max_j L.cell_inflation_radius_)
      (expandHi_le _ _ _) (expandHi_le _ _ _)
  have hp := (seedRows_pushes _ _ _ _ hranges hinv0 hs).1
  have hqd := seedRows_queued _ seen hfalse _ _ _ hranges hinv0 rfl hs
  have hinv2 := hinv0.pushes hp
  obtain ⟨h1, h2, h3, h4, ha, hb, hl⟩ := hseed
  have hseen2 : L2.seen_ = some seen := hp.seen
  have hunseen : ∀ u v, u < g.size_x_ → v < g.size_y_ → ¬ SeenAt L2 g.size_x_ u v := by
    intro u v hu hv'
    rw [seenAt_iff g.size_x_ u v hseen2, hfalse _ (idx_lt hu hv')]
    simp
  have hI2 : Wave a b R x y g.size_x_ g.size_y_ L.cell_inflation_radius_ L.cached_costs_
      g.costmap_ L2 g.costmap_ := by
    constructor
    · intro u v hu hv' _ _ hpre
      rcases hpre with ⟨rfl, rfl⟩ | ⟨u', v', hR', _, hs'⟩
      · have := hqd u v (by rw [List.mem_range'_1]; omega) (by rw [List.mem_range'_1]; omega) hl
        rw [absDiff_self, absDiff_self]
        exact this
      · obtain ⟨hu', hv'', _⟩ := hcar u' v' hR'
        exact absurd hs' (hunseen u' v' hu' hv'')
    · intro hsn
      exact absurd hsn (hunseen x y hx hy)
  have hinv' := inflate_inv tie hg.1 _ _ _ _ _ _ hinv2 hi
  have hI' := inflate_induct tie hg.1
    (Wave a b R x y g.size_x_ g.size_y_ L.cell_inflation_radius_ L.cached_costs_ g.costmap_)
    (visit_wave hcar hx hy hnear hfed) _ _ _ _ _ _ hinv2 hI2 hi
  have hempty : ∀ e, e ∉ L'.inflation_queue_ := by
    intro e he
    rw [hinv'.2] at he
    cases he
  have hsn : SeenAt L' g.size_x_ x y := by
    by_contra hns
    rcases hfed with hsd | ⟨x', y', hR', hadj, hlt⟩
    · obtain ⟨e, he, _⟩ := hI'.push x y hx hy hdist hns (Or.inl hsd)
      exact hempty e he
    · by_cases hs' : SeenAt L' g.size_x_ x' y'
      · obtain ⟨e, he, _⟩ := hI'.push x y hx hy hdist hns (Or.inr ⟨x', y', hR', hadj, hs'⟩)
        exact hempty e he
      · obtain ⟨e, he, _⟩ := wave_ahead hcar hI'.push _ x' y' hR' (le_refl _) hs'
        exact hempty e he
  obtain ⟨i, j, cost, old, hij, hcost, ho, hm⟩ := hI'.stamp hsn
  obtain ⟨hix, hiy⟩ := hypot_le hdist
  have hent := (kernelBuilt_entries hk (i := absDiff x a) (j := absDiff y b)
    (by omega) (by omega)).2
  refine ⟨cost, old, ?_, ho, ?_⟩
  · rw [hent, kernelBuilt_cost hk hcost, hij]
  · rw [hg']
    exact hm

theorem hypot_mono {i j i' j' : Nat} (hi : i ≤ i') (hj : j ≤ j') : hypot i j ≤ hypot i' j' := by
  unfold hypot
  have h1 : i * i ≤ i' * i' := Nat.mul_le_mul hi hi
  have h2 : j * j ≤ j' * j' := Nat.mul_le_mul hj hj
  omega

theorem hypot_lt_left {i i' j : Nat} (h : i + 1 = i') : hypot i j < hypot i' j := by
  subst h
  unfold hypot
  have : (i + 1) * (i + 1) = i * i + 2 * i + 1 := by ring
  omega

theorem hypot_lt_right {i j j' : Nat} (h : j + 1 = j') : hypot i j < hypot i j' := by
  subst h
  unfold hypot
  have : (j + 1) * (j + 1) = j * j + 2 * j + 1 := by ring
  omega

theorem step_toward {a x u : Nat} (hu : min a x ≤ u ∧ u ≤ max a x) (h : u ≠ a) :
    ∃ u', absDiff u' a + 1 = absDiff u a ∧ (u' + 1 = u ∨ u' = u + 1) ∧
      (min a x ≤ u' ∧ u' ≤ max a x) := by
  by_cases hlt : a < u
  · refine ⟨u - 1, ?_, Or.inl (by omega), by omega, by omega⟩
    unfold absDiff
    split <;> split <;> omega
  · refine ⟨u + 1, ?_, Or.inr rfl, by omega, by omega⟩
    unfold absDiff
    split <;> split <;> omega

theorem absDiff_le_of_between {a x u : Nat} (hu : min a x ≤ u ∧ u ≤ max a x) :
    absDiff u a ≤ absDiff x a := by
  unfold absDiff
  split <;> split <;> omega

theorem rectangle_carries {S : Nat → Nat → Prop} {a b x y size_x size_y r : Nat}
    (ha : a < size_x) (hb : b < size_y) (hx : x < size_x) (hy : y < size_y)
    (hdist : hypot (absDiff x a) (absDiff y b) ≤ r * r)
    (hstrict : ∀ u v, InRectangle a b x y u v → ¬ (u = x ∧ v = y) →
      ∀ a' b', S a' b' → ¬ (a' = a ∧ b' = b) →
        hypot (absDiff u a) (absDiff v b) < hypot (absDiff u a') (absDiff v b')) :
    Carries S a b size_x size_y r (fun u v => InRectangle a b x y u v ∧ ¬ (u = x ∧ v = y)) := by
  intro u v ⟨hrect, hne⟩
  obtain ⟨hu, hv⟩ := hrect
  have hdu := absDiff_le_of_between hu
  have hdv := absDiff_le_of_between hv
  refine ⟨by omega, by omega, le_trans (hypot_mono hdu hdv) hdist,
    hstrict u v ⟨hu, hv⟩ hne, ?_⟩
  by_cases hua : u = a
  · by_cases hvb : v = b
    · exact Or.inl ⟨hua, hvb⟩
    · right
      obtain ⟨v', hstep, hadj, hv'⟩ := step_toward hv hvb
      refine ⟨u, v', ⟨⟨hu, hv'⟩, ?_⟩, ?_, hypot_lt_right hstep⟩
      · intro hc
        have := absDiff_le_of_between hv
        rw [hc.2] at hstep
        omega
      · rcases hadj with h1 | h1
        · exact Or.inr (Or.inr (Or.inr ⟨rfl, h1.symm⟩))
        · exact Or.inr (Or.inr (Or.inl ⟨rfl, h1.symm⟩))
  · right
    obtain ⟨u', hstep, hadj, hu'⟩ := step_toward hu hua
    refine ⟨u', v, ⟨⟨hu', hv⟩, ?_⟩, ?_, hypot_lt_left hstep⟩
    · intro hc
      have := absDiff_le_of_between hu
      rw [hc.1] at hstep
      omega
    · rcases hadj with h1 | h1
      · exact Or.inr (Or.inl ⟨h1.symm, rfl⟩)
      · exact Or.inl ⟨h1.symm, rfl⟩

theorem rectangle_fed (a b x y : Nat) :
    Fed a b (fun u v => InRectangle a b x y u v ∧ ¬ (u = x ∧ v = y)) x y := by
  have hxr : min a x ≤ x ∧ x ≤ max a x := by omega
  have hyr : min b y ≤ y ∧ y ≤ max b y := by omega
  by_cases hxa : x = a
  · by_cases hyb : y = b
    · exact Or.inl ⟨hxa, hyb⟩
    · right
      obtain ⟨y', hstep, hadj, hy'⟩ := step_toward hyr hyb
      refine ⟨x, y', ⟨⟨hxr, hy'⟩, fun hc => ?_⟩, ?_, hypot_lt_right hstep⟩
      · rw [hc.2] at hstep
        omega
      · rcases hadj with h1 | h1
        · exact Or.inr (Or.inr (Or.inr ⟨rfl, h1.symm⟩))
        · exact Or.inr (Or.inr (Or.inl ⟨rfl, h1.symm⟩))
  · right
    obtain ⟨x', hstep, hadj, hx'⟩ := step_toward hxr hxa
    refine ⟨x', y, ⟨⟨hx', hyr⟩, fun hc => ?_⟩, ?_, hypot_lt_left hstep⟩
    · rw [hc.1] at hstep
      omega
    · rcases hadj with h1 | h1
      · exact Or.inr (Or.inl ⟨h1.symm, rfl⟩)
      · exact Or.inl ⟨h1.symm, rfl⟩

theorem twoObstacles_lethal (a' b' : Nat) (ha : a' < 7) (hb : b' < 1)
    (h : twoObstacles.getCost a' b' = some LETHAL_OBSTACLE) : b' = 0 ∧ (a' = 0 ∨ a' = 6) := by
  have hb0 : b' = 0 := by omega
  subst hb0
  refine ⟨rfl, ?_⟩
  interval_cases a'
  · exact Or.inl rfl
  · exact absurd h (by decide)
  · exact absurd h (by decide)
  · exact absurd h (by decide)
  · exact absurd h (by decide)
  · exact absurd h (by decide)
  · exact Or.inr rfl

/-! ## The claims -/

/-- Claim C1 fails as stated, in two ways. In the 4×4 grid with lethal cells
`(3,0)`, `(2,2)`, `(0,3)`, radius 3 and the whole grid as window, the lethal cell
nearest to `(0,0)` is `(2,2)` (distance `√8 ≤ 3`, kernel cost 24), but `(0,0)` ends
with 20, the kernel cost of offset `(3,0)`: its neighbours `(1,0)` and `(0,1)` are
nearer to `(3,0)` and `(0,3)`, so the source `(2,2)` never reaches it. In the 6×6
grid with lethal cells `(4,0)`, `(2,1)`, `(0,4)` and radius 5, the lethal cell
nearest to `(5,5)` is `(2,1)`, at distance 5 (kernel cost 2), but `(5,5)` is not
written at all and stays 0: the cells around it carry other sources, which are
farther than 5 from it. Both are shown for two heap orders. -/
theorem updateCosts_not_nearest_source :
    threeObstacles.WellFormed ∧ KernelBuilt exampleCost (exampleLayer 3) ∧
    IsNearestLethal threeObstacles 0 0 2 2 ∧ hypot (absDiff 0 2) (absDiff 0 2) ≤ 3 * 3 ∧
    threeObstacles.getCost 0 0 = some 0 ∧
    tableAt (exampleLayer 3).cached_costs_ (absDiff 0 2) (absDiff 0 2) = .ok 24 ∧
    writeRule 0 24 = 24 ∧
    (updateCosts (fun _ => 0) (exampleLayer 3) threeObstacles 0 0 4 4).map
      (fun out => out.2.getCost 0 0) = .ok (some 20) ∧
    (updateCosts (fun n => n) (exampleLayer 3) threeObstacles 0 0 4 4).map
      (fun out => out.2.getCost 0 0) = .ok (some 20) ∧
    threeSeeds.WellFormed ∧ KernelBuilt exampleCost (exampleLayer 5) ∧
    IsNearestLethal threeSeeds 5 5 2 1 ∧ hypot (absDiff 5 2) (absDiff 5 1) ≤ 5 * 5 ∧
    threeSeeds.getCost 5 5 = some 0 ∧
    tableAt (exampleLayer 5).cached_costs_ (absDiff 5 2) (absDiff 5 1) = .ok 2 ∧
    writeRule 0 2 = 2 ∧
    (updateCosts (fun _ => 0) (exampleLayer 5) threeSeeds 0 0 6 6).map
      (fun out => out.2.getCost 5 5) = .ok (some 0) ∧
    (updateCosts (fun n => n) (exampleLayer 5) threeSeeds 0 0 6 6).map
      (fun out => out.2.getCost 5 5) = .ok (some 0) :=
  ⟨by decide, exampleLayer_built 3 (by decide), by decide, by decide, rfl, rfl, rfl, rfl, rfl,
    by decide, exampleLayer_built 5 (by decide), by decide, by decide, rfl, rfl, rfl, rfl, rfl⟩

/-- Claim C1, as amended. For every grid, window and heap order, and every radius
`r ≥ 1` with the kernel of `computeCaches`, `updateCosts` returns, and afterwards:
(1) every cell either keeps its value or holds the write rule applied to its old
value and `cached_costs[|cx-sx|][|cy-sy|]` for some cell `s` that was lethal before
the call and lies within `r` cells of it.
(2) A cell `c` holds the write rule applied to its old value and
`cached_costs[|cx-sx|][|cy-sy|]` for a lethal cell `s` of the widened window that
is within `r` of `c` and a nearest one to `c`, whenever the wave of `s` reaches `c`
unobstructed: `c` is `s`, or `c` has a 4-neighbour nearer to `s` in a set `R` of
cells that `Carries` the wave (each within `r` of `s`, strictly nearer to `s` than
to every other lethal cell of the window, and `s` itself or with a 4-neighbour in
`R` nearer to `s`).
(3) This is so when every cell other than `c` of the rectangle spanned by `s` and
`c` is strictly nearer to `s` than to every other lethal cell of the window.
(4) When the grid has a single lethal cell `s`, inside the widened window, it is
so for every cell within `r` cells of `s`.
(5) It is so for every cell that is not lethal and is a 4-neighbour of a lethal
cell `s` of the widened window. -/
theorem updateCosts_cell_from_lethal_source (tie : Nat → Nat) (cc : Nat → Nat)
    (L : InflationLayer) (g : Costmap2D) (min_i min_j max_i max_j : Int) (hg : g.WellFormed)
    (hk : KernelBuilt cc L) (hs : SeenSized L) (hq : L.inflation_queue_ = []) :
    ∃ L' g', updateCosts tie L g min_i min_j max_i max_j = .ok (L', g') ∧
      (∀ x y, x < g.size_x_ → y < g.size_y_ →
        g'.getCost x y = g.getCost x y ∨
        ∃ a b cost old, a < g.size_x_ ∧ b < g.size_y_ ∧
          g.getCost a b = some LETHAL_OBSTACLE ∧
          hypot (absDiff x a) (absDiff y b) ≤
            L.cell_inflation_radius_ * L.cell_inflation_radius_ ∧
          tableAt L.cached_costs_ (absDiff x a) (absDiff y b) = .ok cost ∧
          g.getCost x y = some old ∧ g'.getCost x y = some (writeRule old cost)) ∧
      (L.enabled_ = true → ∀ a b,
        IsSeed g (expandLo min_i L.cell_inflation_radius_)
          (expandHi g.size_x_ max_i L.cell_inflation_radius_)
          (expandLo min_j L.cell_inflation_radius_)
          (expandHi g.size_y_ max_j L.cell_inflation_radius_) a b →
        ∀ x y, x < g.size_x_ → y < g.size_y_ →
          hypot (absDiff x a) (absDiff y b) ≤
            L.cell_inflation_radius_ * L.cell_inflation_radius_ →
          (∀ a' b', IsSeed g (expandLo min_i L.cell_inflation_radius_)
              (expandHi g.size_x_ max_i L.cell_inflation_radius_)
              (expandLo min_j L.cell_inflation_radius_)
              (expandHi g.size_y_ max_j L.cell_inflation_radius_) a' b' →
            hypot (absDiff x a) (absDiff y b) ≤ hypot (absDiff x a') (absDiff y b')) →
          ((∃ R : Nat → Nat → Prop,
              Carries (IsSeed g (expandLo min_i L.cell_inflation_radius_)
                (expandHi g.size_x_ max_i L.cell_inflation_radius_)
                (expandLo min_j L.cell_inflation_radius_)
                (expandHi g.size_y_ max_j L.cell_inflation_radius_)) a b g.size_x_ g.size_y_
                L.cell_inflation_radius_ R ∧ Fed a b R x y) ∨
            (∀ u v, InRectangle a b x y u v → ¬ (u = x ∧ v = y) →
              ∀ a' b', IsSeed g (expandLo min_i L.cell_inflation_radius_)
                (expandHi g.size_x_ max_i L.cell_inflation_radius_)
                (expandLo min_j L.cell_inflation_radius_)
                (expandHi g.size_y_ max_j L.cell_inflation_radius_) a' b' →
              ¬ (a' = a ∧ b' = b) →
              hypot (absDiff u a) (absDiff v b) < hypot (absDiff u a') (absDiff v b'))) →
          ∃ cost old, tableAt L.cached_costs_ (absDiff x a) (absDiff y b) = .ok cost ∧
            g.getCost x y = some old ∧ g'.getCost x y = some (writeRule old cost)) ∧
      (L.enabled_ = true → ∀ a b,
        IsSeed g (expandLo min_i L.cell_inflation_radius_)
          (expandHi g.size_x_ max_i L.cell_inflation_radius_)
          (expandLo min_j L.cell_inflation_radius_)
          (expandHi g.size_y_ max_j L.cell_inflation_radius_) a b →
        (∀ a', a' < g.size_x_ → ∀ b', b' < g.size_y_ →
          g.getCost a' b' = some LETHAL_OBSTACLE → a' = a ∧ b' = b) →
        ∀ x y, x < g.size_x_ → y < g.size_y_ →
          hypot (absDiff x a) (absDiff y b) ≤
            L.cell_inflation_radius_ * L.cell_inflation_radius_ →
          ∃ cost old, tableAt L.cached_costs_ (absDiff x a) (absDiff y b) = .ok cost ∧
            g.getCost x y = some old ∧ g'.getCost x y = some (writeRule old cost)) ∧
      (L.enabled_ = true → ∀ a b,
        IsSeed g (expandLo min_i L.cell_inflation_radius_)
          (expandHi g.size_x_ max_i L.cell_inflation_radius_)
          (expandLo min_j L.cell_inflation_radius_)
          (expandHi g.size_y_ max_j L.cell_inflation_radius_) a b →
        ∀ x y, Adjacent a b x y → x < g.size_x_ → y < g.size_y_ →
          g.getCost x y ≠ some LETHAL_OBSTACLE →
          ∃ cost old, tableAt L.cached_costs_ (absDiff x a) (absDiff y b) = .ok cost ∧
            g.getCost x y = some old ∧ g'.getCost x y = some (writeRule old cost)) := by
  have ht : ∃ out, updateCosts tie L g min_i min_j max_i max_j = .ok out :=
    updateCosts_total min_i min_j max_i max_j hg (kernelBuilt_sound hk) (kernelBuilt_covers hk)
      hs hq
  obtain ⟨⟨L', g'⟩, h⟩ := ht
  refine ⟨L', g', h, ?_, ?_, ?_, ?_⟩
  · intro x y hx hy
    rcases updateCosts_cell hg (kernelBuilt_sound hk) h hx hy with
      h1 | ⟨a, b, cost, old, hseed, hdist, hcost, hold, hnew⟩
    · exact Or.inl h1
    · exact Or.inr ⟨a, b, cost, old, hseed.2.2.2.2.1, hseed.2.2.2.2.2.1, hseed.2.2.2.2.2.2,
        hdist, hcost, hold, hnew⟩
  · intro hen a b hseed x y hx hy hdist hnear hreach
    rcases hreach with ⟨R, hcar, hfed⟩ | hrect
    · exact updateCosts_wave hg hk hen h hseed hcar hx hy hdist hnear hfed
    · exact updateCosts_wave hg hk hen h hseed
        (rectangle_carries hseed.2.2.2.2.1 hseed.2.2.2.2.2.1 hx hy hdist hrect) hx hy hdist
        hnear (rectangle_fed a b x y)
  · intro hen a b hseed hone x y hx hy hdist
    exact updateCosts_single_source hg (kernelBuilt_sound hk) hen h hseed hone hx hy hdist
  · intro hen a b hseed x y hadj hx hy hnl
    obtain ⟨k, old, hk', ho, hn⟩ := updateCosts_next_to_seed hg (kernelBuilt_sound hk) hen
      hk.1 h hseed hadj hx hy hnl
    have h1 := hypot_adjacent hadj
    have hent := (kernelBuilt_entries hk (i := absDiff x a) (j := absDiff y b)
      (by unfold hypot at h1; nlinarith) (by unfold hypot at h1; nlinarith)).2
    refine ⟨k, old, ?_, ho, hn⟩
    rw [hent, kernelBuilt_unit hk hk', h1]

theorem updateCosts_cell_from_lethal_source_witness :
    ∃ L' g', updateCosts (fun _ => 0) (exampleLayer 3) twoObstacles 0 0 7 1 = .ok (L', g') ∧
      ∃ cost old, tableAt (exampleLayer 3).cached_costs_ (absDiff 3 0) (absDiff 0 0) = .ok cost ∧
        twoObstacles.getCost 3 0 = some old ∧ g'.getCost 3 0 = some (writeRule old cost) := by
  obtain ⟨L', g', h, _, h2, _⟩ := updateCosts_cell_from_lethal_source (fun _ => 0) exampleCost
    (exampleLayer 3) twoObstacles 0 0 7 1 (by decide) (exampleLayer_built 3 (by decide))
    (seenSized_of_null rfl) rfl
  refine ⟨L', g', h, h2 rfl 0 0 (by decide) 3 0 (by decide) (by decide) (by decide) ?_
    (Or.inr ?_)⟩
  · intro a' b' hseed
    obtain ⟨hb0, ha0⟩ := twoObstacles_lethal a' b' hseed.2.2.2.2.1 hseed.2.2.2.2.2.1
      hseed.2.2.2.2.2.2
    subst hb0
    rcases ha0 with rfl | rfl <;> decide
  · intro u v hrect hne a' b' hseed hnot
    obtain ⟨hb0, ha0⟩ := twoObstacles_lethal a' b' hseed.2.2.2.2.1 hseed.2.2.2.2.2.1
      hseed.2.2.2.2.2.2
    subst hb0
    rcases ha0 with rfl | rfl
    · exact absurd ⟨rfl, rfl⟩ hnot
    · obtain ⟨⟨hu1, hu2⟩, ⟨hv1, hv2⟩⟩ := hrect
      have hv0 : v = 0 := by
        simp at hv2
        exact hv2
      subst hv0
      have hu3 : u ≤ 3 := by simpa using hu2
      have hu' : u ≠ 3 := fun e => hne ⟨e, rfl⟩
      interval_cases u <;> first | decide | exact absurd rfl hu'

/-- Claim C2. Frame of `updateCosts`: a cell farther than `cell_inflation_radius_`
from every cell that was lethal before the call keeps its cost, for every grid,
window, radius and heap order; and the call returns when the kernel covers the
radius. -/
theorem updateCosts_far_cells_unchanged (tie : Nat → Nat) (L : InflationLayer) (g : Costmap2D)
    (min_i min_j max_i max_j : Int) (hg : g.WellFormed) (hd : DistancesSound L)
    (x y : Nat) (hx : x < g.size_x_) (hy : y < g.size_y_)
    (hfar : ∀ a, a < g.size_x_ → ∀ b, b < g.size_y_ → g.getCost a b = some LETHAL_OBSTACLE →
      L.cell_inflation_radius_ * L.cell_inflation_radius_ < hypot (absDiff x a) (absDiff y b)) :
    (KernelCovers L → SeenSized L → L.inflation_queue_ = [] →
      ∃ out, updateCosts tie L g min_i min_j max_i max_j = .ok out) ∧
    ∀ L' g', updateCosts tie L g min_i min_j max_i max_j = .ok (L', g') →
      g'.getCost x y = g.getCost x y := by
  refine ⟨fun hk hs hq => updateCosts_total min_i min_j max_i max_j hg hd hk hs hq, ?_⟩
  intro L' g' h
  rcases updateCosts_cell hg hd h hx hy with h1 | ⟨a, b, cost, old, hseed, hdist, _, _, _⟩
  · exact h1
  · have := hfar a hseed.2.2.2.2.1 b hseed.2.2.2.2.2.1 hseed.2.2.2.2.2.2
    omega

theorem updateCosts_far_cells_unchanged_witness :
    ∃ L' g', updateCosts (fun _ => 0) (exampleLayer 1) (gridOf 3 1 [254, 0, 0]) 0 0 3 1 =
        .ok (L', g') ∧ g'.getCost 2 0 = (gridOf 3 1 [254, 0, 0]).getCost 2 0 := by
  have h := updateCosts_far_cells_unchanged (fun _ => 0) (exampleLayer 1)
    (gridOf 3 1 [254, 0, 0]) 0 0 3 1 (by decide)
    (kernelBuilt_sound (exampleLayer_built 1 (by decide))) 2 0 (by decide) (by decide)
    (by decide)
  obtain ⟨⟨L', g'⟩, hr⟩ := h.1 (kernelBuilt_covers (exampleLayer_built 1 (by decide)))
    (seenSized_of_null rfl) rfl
  exact ⟨L', g', hr, h.2 L' g' hr⟩

/-- Claim C3 fails as stated: with the window `1 ≤ i < 2`, `0 ≤ j < 1` around the
lethal middle cell of a row of three and radius 1, the call raises cell `(0,0)`,
outside the window, from 0 to 152. -/
theorem updateCosts_writes_outside_window :
    rowOfThree.WellFormed ∧ KernelBuilt exampleCost (exampleLayer 1) ∧
    ¬ InWindow 1 0 2 1 0 0 ∧ rowOfThree.getCost 0 0 = some 0 ∧
    (updateCosts (fun _ => 0) (exampleLayer 1) rowOfThree 1 0 2 1).map
      (fun out => out.2.getCost 0 0) = .ok (some 152) :=
  ⟨by decide, exampleLayer_built 1 (by decide), by decide, rfl, rfl⟩

/-- Claim C3, as amended. `updateCosts` writes only near the window passed to it:
for every grid and every window of `int` bounds, a cell outside the rectangle
`min_i - 2r ≤ i < max_i + 2r`, `min_j - 2r ≤ j < max_j + 2r` (the window widened
by twice `cell_inflation_radius_`) keeps its cost; and the call returns when the
kernel covers the radius. -/
theorem updateCosts_writes_near_window (tie : Nat → Nat) (L : InflationLayer) (g : Costmap2D)
    (min_i min_j max_i max_j : Int) (hg : g.WellFormed) (hd : DistancesSound L)
    (hmin_i : IsInt32 min_i) (hmin_j : IsInt32 min_j) (hmax_i : IsInt32 max_i)
    (hmax_j : IsInt32 max_j) (x y : Nat) (hx : x < g.size_x_) (hy : y < g.size_y_)
    (hout : (x : Int) < min_i - 2 * L.cell_inflation_radius_ ∨
      max_i + 2 * L.cell_inflation_radius_ ≤ x ∨
      (y : Int) < min_j - 2 * L.cell_inflation_radius_ ∨
      max_j + 2 * L.cell_inflation_radius_ ≤ y) :
    (KernelCovers L → SeenSized L → L.inflation_queue_ = [] →
      ∃ out, updateCosts tie L g min_i min_j max_i max_j = .ok out) ∧
    ∀ L' g', updateCosts tie L g min_i min_j max_i max_j = .ok (L', g') →
      g'.getCost x y = g.getCost x y := by
  refine ⟨fun hk hs hq => updateCosts_total min_i min_j max_i max_j hg hd hk hs hq, ?_⟩
  intro L' g' h
  rcases updateCosts_cell hg hd h hx hy with h1 | ⟨a, b, cost, old, hseed, hdist, _, _, _⟩
  · exact h1
  · exfalso
    obtain ⟨h1, h2, h3, h4, _, _, _⟩ := hseed
    have hoff := hypot_le hdist
    have hxa := absDiff_bound hoff.1
    have hyb := absDiff_bound hoff.2
    have b1 := expandLo_le hmin_i.2 h1
    have b2 := lt_expandHi hmax_i.1 h2
    have b3 := expandLo_le hmin_j.2 h3
    have b4 := lt_expandHi hmax_j.1 h4
    omega

theorem updateCosts_writes_near_window_witness :
    ∃ L' g', updateCosts (fun _ => 0) (exampleLayer 1) (gridOf 5 1 [0, 0, 0, 0, 254]) 4 0 5 1 =
        .ok (L', g') ∧ g'.getCost 1 0 = (gridOf 5 1 [0, 0, 0, 0, 254]).getCost 1 0 := by
  have h := updateCosts_writes_near_window (fun _ => 0) (exampleLayer 1)
    (gridOf 5 1 [0, 0, 0, 0, 254]) 4 0 5 1 (by decide)
    (kernelBuilt_sound (exampleLayer_built 1 (by decide)))
    (by decide) (by decide) (by decide) (by decide) 1 0 (by decide) (by decide) (by decide)
  obtain ⟨⟨L', g'⟩, hr⟩ := h.1 (kernelBuilt_covers (exampleLayer_built 1 (by decide)))
    (seenSized_of_null rfl) rfl
  exact ⟨L', g', hr, h.2 L' g' hr⟩

/-- Claim C4 fails on the code: on a constructed layer with radius 0, whose kernel
was never allocated, `updateCosts` over the 5×5 grid with the lethal cell `(2,2)`
reads through the `NULL` distance table when it seeds that cell. -/
theorem updateCosts_radius_zero_null_kernel (tie : Nat → Nat) :
    computeCaches exampleCost (layerOfRadius 0) = .ok (layerOfRadius 0) ∧
    (layerOfRadius 0).cached_distances_ = none ∧
    updateCosts tie (layerOfRadius 0) singleObstacle 0 0 5 5 = .error .nullKernel :=
  ⟨rfl, rfl, rfl⟩

/-- Claim C5. Inflation stays inside its buffers: for every grid, window and heap
order, and every radius `r ≥ 1` with the `(r+2) × (r+2)` kernel of `computeCaches`,
`updateCosts` runs to its end without a fault, that is, every `master`/`seen_`
index it uses is below `size_x*size_y` and every kernel lookup is inside the
tables (offsets at most `r+1`). -/
theorem updateCosts_in_bounds (tie : Nat → Nat) (cc : Nat → Nat) (L : InflationLayer)
    (g : Costmap2D) (min_i min_j max_i max_j : Int) (hg : g.WellFormed)
    (hk : KernelBuilt cc L) (hs : SeenSized L) (hq : L.inflation_queue_ = []) :
    ∃ out, updateCosts tie L g min_i min_j max_i max_j = .ok out :=
  updateCosts_total min_i min_j max_i max_j hg (kernelBuilt_sound hk) (kernelBuilt_covers hk)
    hs hq

theorem updateCosts_in_bounds_witness :
    ∃ out, updateCosts (fun _ => 0) (exampleLayer 3) threeObstacles 0 0 4 4 = .ok out :=
  updateCosts_in_bounds (fun _ => 0) exampleCost (exampleLayer 3) threeObstacles 0 0 4 4
    (by decide) (exampleLayer_built 3 (by decide)) (seenSized_of_null rfl) rfl

/-- Claim C6. The forward translation table of the `CostmapWrapper` constructor,
whatever the allocation held before: 256 entries, 0 to 0, 253 to 99, 254 to 100,
255 to -1, and every `i` in `1..252` to `1 + (97*(i-1))/251` in integer division. -/
theorem makeTranslationTable_spec (fresh : Nat → Int) :
    (makeTranslationTable fresh).length = 256 ∧
    (makeTranslationTable fresh)[0]? = some 0 ∧
    (makeTranslationTable fresh)[253]? = some 99 ∧
    (makeTranslationTable fresh)[254]? = some 100 ∧
    (makeTranslationTable fresh)[255]? = some (-1) ∧
    ∀ i : Nat, 1 ≤ i → i ≤ 252 →
      (makeTranslationTable fresh)[i]? = some (1 + (97 * ((i : Int) - 1)) / 251) := by
  refine ⟨?_, ?_, ?_, ?_, ?_, ?_⟩
  · exact makeTranslationTable_length fresh
  · rw [makeTranslationTable_getElem? fresh 0 (by omega)]; rfl
  · rw [makeTranslationTable_getElem? fresh 253 (by omega)]; rfl
  · rw [makeTranslationTable_getElem? fresh 254 (by omega)]; rfl
  · rw [makeTranslationTable_getElem? fresh 255 (by omega)]; rfl
  · intro i h1 h2
    rw [makeTranslationTable_getElem? fresh i (by omega)]
    unfold forward
    rw [if_neg (by omega), if_neg (by omega), if_neg (by omega), if_neg (by omega)]

theorem makeTranslationTable_spec_witness :
    (makeTranslationTable fun _ => 0)[126]? = some (1 + (97 * (((126 : Nat) : Int) - 1)) / 251) :=
  (makeTranslationTable_spec fun _ => 0).2.2.2.2.2 126 (by decide) (by decide)

/-- Claim C7. Snapshot packing: for every grid, `prepareMap` returns a snapshot of
the grid's width and height whose data has `width*height` bytes, byte `k` being
the translation table's entry for grid cell `k` in row-major order; the grid
`[0, 1, 126, 252, 253, 254, 255]` packs to `[0, 1, 49, 98, 99, 100, -1]`. -/
theorem prepareMap_packs (w : CostmapWrapper)
    (hlen : w.costmap.costmap_.length = w.costmap.size_x_ * w.costmap.size_y_)
    (htab : w.cost_translation_table.length = 256) (hb : w.costmap.Bytes) :
    (∃ w', prepareMap w = .ok w' ∧
      w'.map.width = w.costmap.size_x_ ∧ w'.map.height = w.costmap.size_y_ ∧
      w'.map.data.length = w'.map.width * w'.map.height ∧
      ∀ (k c : Nat), w.costmap.costmap_[k]? = some c →
        w'.map.data[k]? = w.cost_translation_table[c]?) ∧
    (prepareMap (wrapperOf (gridOf 7 1 [0, 1, 126, 252, 253, 254, 255]))).map
      (fun w' => w'.map.data) = .ok [0, 1, 49, 98, 99, 100, -1] := by
  refine ⟨?_, rfl⟩
  obtain ⟨data, hp, hl, hk⟩ := prepareMap_spec w hlen htab hb
  unfold prepareMap
  simp only
  rw [hp]
  exact ⟨_, rfl, rfl, rfl, hl, hk⟩

theorem prepareMap_packs_witness :
    ∃ w', prepareMap (wrapperOf (gridOf 7 1 [0, 1, 126, 252, 253, 254, 255])) = .ok w' ∧
      w'.map.width = 7 ∧ w'.map.height = 1 ∧
      w'.map.data.length = w'.map.width * w'.map.height ∧
      ∀ (k c : Nat), [0, 1, 126, 252, 253, 254, 255][k]? = some c →
        w'.map.data[k]? = (makeTranslationTable fun _ => 0)[c]? :=
  (prepareMap_packs (wrapperOf (gridOf 7 1 [0, 1, 126, 252, 253, 254, 255])) rfl
    (makeTranslationTable_length fun _ => 0) bytes_example).1

/-- Claim C8 fails as stated: after a first snapshot of a one-cell free grid the
cell becomes lethal while the metadata stays; `updateCostmap` then leaves the
snapshot data `[0]`, where the translation of the current grid is `[100]`. -/
theorem updateCostmap_stale_snapshot :
    ¬ MetadataDiffers staleWrapper ∧ staleWrapper.map.data = [0] ∧
    staleWrapper.costmap.costmap_ = [254] ∧
    translate staleWrapper.cost_translation_table staleWrapper.costmap.costmap_ = [some 100] ∧
    (updateCostmap staleWrapper).map (fun w' => w'.map.data) = .ok [0] :=
  ⟨by decide, rfl, rfl, rfl, rfl⟩

/-- Claim C8, as amended. `updateCostmap` rebuilds the snapshot exactly when the
grid metadata (resolution, width, height, origin) differs from the metadata
cached with the snapshot: then the snapshot data is the forward translation of
the current master grid cells; otherwise the snapshot is left as it was. -/
theorem updateCostmap_snapshot (w : CostmapWrapper)
    (hlen : w.costmap.costmap_.length = w.costmap.size_x_ * w.costmap.size_y_)
    (htab : w.cost_translation_table.length = 256) (hb : w.costmap.Bytes) :
    ∃ w', updateCostmap w = .ok w' ∧
      (MetadataDiffers w →
        w'.map.data.length = w.costmap.size_x_ * w.costmap.size_y_ ∧
        ∀ (k c : Nat), w.costmap.costmap_[k]? = some c →
          w'.map.data[k]? = w.cost_translation_table[c]?) ∧
      (¬ MetadataDiffers w → w'.map = w.map) := by
  by_cases hm : MetadataDiffers w
  · obtain ⟨data, hp, hl, hk⟩ := prepareMap_spec w hlen htab hb
    have hprep : prepareMap w = .ok { w with
        map := { resolution := w.costmap.resolution_, width := w.costmap.size_x_,
                 height := w.costmap.size_y_,
                 origin_x := (w.costmap.mapToWorld 0 0).1 - w.costmap.resolution_ / 2,
                 origin_y := (w.costmap.mapToWorld 0 0).2 - w.costmap.resolution_ / 2,
                 origin_z := 0, orientation_w := 1, data := data },
        saved_origin_x := w.costmap.origin_x_,
        saved_origin_y := w.costmap.origin_y_ } := by
      unfold prepareMap
      simp only
      rw [hp]
    have hm' := hm
    unfold MetadataDiffers at hm'
    have hres : updateCostmap w = .ok
        { w with
          map := { resolution := w.costmap.resolution_, width := w.costmap.size_x_,
                   height := w.costmap.size_y_,
                   origin_x := (w.costmap.mapToWorld 0 0).1 - w.costmap.resolution_ / 2,
                   origin_y := (w.costmap.mapToWorld 0 0).2 - w.costmap.resolution_ / 2,
                   origin_z := 0, orientation_w := 1, data := data },
          saved_origin_x := w.costmap.origin_x_, saved_origin_y := w.costmap.origin_y_,
          x0 := w.costmap.size_x_, xn := 0, y0 := w.costmap.size_y_, yn := 0 } := by
      unfold updateCostmap
      simp only
      rw [if_pos hm', hprep]
    exact ⟨_, hres, fun _ => ⟨hl, hk⟩, fun h => absurd hm h⟩
  · have hm' := hm
    unfold MetadataDiffers at hm'
    have hres : updateCostmap w = .ok
        { w with xn := 0, yn := 0, x0 := w.costmap.size_x_, y0 := w.costmap.size_y_ } := by
      unfold updateCostmap
      simp only
      rw [if_neg hm']
    exact ⟨_, hres, fun h => absurd h hm, fun _ => rfl⟩

theorem updateCostmap_snapshot_witness :
    ∃ w', updateCostmap (wrapperOf (gridOf 1 1 [254])) = .ok w' ∧
      w'.map.data.length = 1 * 1 ∧
      ∀ (k c : Nat), [254][k]? = some c →
        w'.map.data[k]? = (makeTranslationTable fun _ => 0)[c]? := by
  obtain ⟨w', h, h1, _⟩ := updateCostmap_snapshot (wrapperOf (gridOf 1 1 [254])) rfl
    (makeTranslationTable_length fun _ => 0) (bytes_single 254 (by decide))
  exact ⟨w', h, h1 (by decide)⟩

/-- Claim C9. `updateBounds` without `need_reinflation_`: each output minimum is
`min (prev_min, in_min) - inflation_radius_`, each output maximum is
`max (prev_max, in_max) + inflation_radius_`, on both axes, the stored previous
bounds become the input bounds, and nothing else of the layer changes. -/
theorem updateBounds_widens (L : InflationLayer) (b : Bounds)
    (h : L.need_reinflation_ = false) :
    (updateBounds L b).2 =
      { min_x := min L.last_min_x_ b.min_x - L.inflation_radius_,
        min_y := min L.last_min_y_ b.min_y - L.inflation_radius_,
        max_x := max L.last_max_x_ b.max_x + L.inflation_radius_,
        max_y := max L.last_max_y_ b.max_y + L.inflation_radius_ } ∧
    (updateBounds L b).1 =
      { L with last_min_x_ := b.min_x, last_min_y_ := b.min_y,
               last_max_x_ := b.max_x, last_max_y_ := b.max_y } := by
  rw [updateBounds_else L b h]
  exact ⟨rfl, rfl⟩

theorem updateBounds_widens_witness :
    (updateBounds InflationLayer.new ⟨1, 2, 3, 4⟩).2 =
      { min_x := min InflationLayer.new.last_min_x_ 1 - InflationLayer.new.inflation_radius_,
        min_y := min InflationLayer.new.last_min_y_ 2 - InflationLayer.new.inflation_radius_,
        max_x := max InflationLayer.new.last_max_x_ 3 + InflationLayer.new.inflation_radius_,
        max_y := max InflationLayer.new.last_max_y_ 4 + InflationLayer.new.inflation_radius_ } ∧
    (updateBounds InflationLayer.new ⟨1, 2, 3, 4⟩).1 =
      { InflationLayer.new with last_min_x_ := 1, last_min_y_ := 2,
                                last_max_x_ := 3, last_max_y_ := 4 } :=
  updateBounds_widens InflationLayer.new ⟨1, 2, 3, 4⟩ rfl

/-- Claim C10. `updateBounds` with `need_reinflation_` set: whatever the inputs,
the outputs are the full-grid sentinels `-FLT_MAX` (minima) and `FLT_MAX`
(maxima), the flag is cleared and the inputs are stored, so the next call takes
the widening branch over them. -/
theorem updateBounds_reinflation (L : InflationLayer) (b : Bounds)
    (h : L.need_reinflation_ = true) :
    (updateBounds L b).2 =
      { min_x := -FLT_MAX, min_y := -FLT_MAX, max_x := FLT_MAX, max_y := FLT_MAX } ∧
    (updateBounds L b).1.need_reinflation_ = false ∧
    ∀ b' : Bounds, (updateBounds (updateBounds L b).1 b').2 =
      { min_x := min b.min_x b'.min_x - L.inflation_radius_,
        min_y := min b.min_y b'.min_y - L.inflation_radius_,
        max_x := max b.max_x b'.max_x + L.inflation_radius_,
        max_y := max b.max_y b'.max_y + L.inflation_radius_ } := by
  have h1 : updateBounds L b =
      ({ L with last_min_x_ := b.min_x, last_min_y_ := b.min_y,
                last_max_x_ := b.max_x, last_max_y_ := b.max_y,
                need_reinflation_ := false },
       { min_x := -FLT_MAX, min_y := -FLT_MAX, max_x := FLT_MAX, max_y := FLT_MAX }) := by
    unfold updateBounds
    rw [if_pos h]
  rw [h1]
  refine ⟨rfl, rfl, fun b' => ?_⟩
  rw [updateBounds_else _ b' rfl]

theorem updateBounds_reinflation_witness :
    (updateBounds { InflationLayer.new with need_reinflation_ := true } ⟨1, 2, 3, 4⟩).2 =
      { min_x := -FLT_MAX, min_y := -FLT_MAX, max_x := FLT_MAX, max_y := FLT_MAX } :=
  (updateBounds_reinflation { InflationLayer.new with need_reinflation_ := true }
    ⟨1, 2, 3, 4⟩ rfl).1
/-- Claim C14 fails as stated at the two largest radii: at `r = 2^32 - 1` the
`unsigned int` sum `r + 2` is 1 and `computeCaches` returns with tables of one
row and one column, not `(r+2) × (r+2)`; at `r = 2^32 - 2` the sum is 0 and the
allocation loop assigns outside the row pointers. -/
theorem computeCaches_wraps_kernel_size :
    (computeCaches exampleCost (layerOfRadius 4294967295)).map
      (fun L' => (L'.cached_cell_inflation_radius_, L'.cached_distances_, L'.cached_costs_)) =
      .ok (4294967295, some [[0]], some [[254]]) ∧
    computeCaches exampleCost (layerOfRadius 4294967294) = .error .kernelOutOfBounds :=
  ⟨rfl, rfl⟩

/-- Claim C14, as amended. Kernel management: for every layer state (never built,
or built for any radius) and every `cell_inflation_radius_ = r ≥ 1` with
`r + 2 < 2^32`, `computeCaches` returns with `cached_cell_inflation_radius_ = r`
and both tables of exactly `(r+2) × (r+2)` entries,
`cached_distances_[i][j] = hypot (i, j)` and
`cached_costs_[i][j] = computeCost (cached_distances_[i][j])` (as a byte) under
the layer's weight, inscribed radius and resolution, for all `i, j ≤ r+1`. -/
theorem computeCaches_kernel (costModel : ℚ → ℚ → ℚ → Nat → Nat) (L : InflationLayer)
    (hk : KernelInv L) (hr : 1 ≤ L.cell_inflation_radius_)
    (hb : L.cell_inflation_radius_ + 2 < 4294967296) :
    ∃ L' dists costs, computeCaches (L.computeCost costModel) L = .ok L' ∧
      L'.cell_inflation_radius_ = L.cell_inflation_radius_ ∧
      L'.cached_cell_inflation_radius_ = L.cell_inflation_radius_ ∧
      L'.cached_distances_ = some dists ∧ L'.cached_costs_ = some costs ∧
      dists.length = L.cell_inflation_radius_ + 2 ∧
      (∀ row ∈ dists, row.length = L.cell_inflation_radius_ + 2) ∧
      costs.length = L.cell_inflation_radius_ + 2 ∧
      (∀ row ∈ costs, row.length = L.cell_inflation_radius_ + 2) ∧
      ∀ i j, i ≤ L.cell_inflation_radius_ + 1 → j ≤ L.cell_inflation_radius_ + 1 →
        tableAt L'.cached_distances_ i j = .ok (hypot i j) ∧
        tableAt L'.cached_costs_ i j = .ok (L'.computeCost costModel (hypot i j) % 256) := by
  obtain ⟨L', h, _, hbuilt, _, hframe⟩ := computeCaches_inv (L.computeCost costModel) L hk
    (by omega)
  have hb' := hbuilt hr hb
  have hrad : L'.cell_inflation_radius_ = L.cell_inflation_radius_ := by rw [hframe]
  have hcost : L'.computeCost costModel = L.computeCost costModel := by rw [hframe]; rfl
  refine ⟨L', _, _, h, hrad, hrad ▸ hb'.2.1, hb'.2.2.1, hb'.2.2.2, ?_, ?_, ?_, ?_, ?_⟩
  · rw [hrad]; exact (kernelDistances_dims _).1
  · rw [hrad]; exact (kernelDistances_dims _).2
  · rw [hrad]; exact (kernelCosts_dims _ _).1
  · rw [hrad]; exact (kernelCosts_dims _ _).2
  · intro i j hi hj
    rw [hcost]
    exact kernelBuilt_entries hb' (by rw [hrad]; exact hi) (by rw [hrad]; exact hj)

theorem computeCaches_kernel_witness :
    ∃ L' dists costs, computeCaches ((exampleLayer 1).computeCost exampleModel)
        { exampleLayer 1 with cell_inflation_radius_ := 2 } = .ok L' ∧
      L'.cached_cell_inflation_radius_ = 2 ∧
      L'.cached_distances_ = some dists ∧ L'.cached_costs_ = some costs ∧
      dists.length = 2 + 2 ∧ costs.length = 2 + 2 ∧
      tableAt L'.cached_distances_ 3 3 = .ok (hypot 3 3) := by
  obtain ⟨L', dists, costs, h, _, h1, h2, h3, h4, _, h5, _, h6⟩ :=
    computeCaches_kernel exampleModel { exampleLayer 1 with cell_inflation_radius_ := 2 }
      (Or.inr ⟨by decide, by decide, rfl, exampleCost, rfl⟩) (by decide) (by decide)
  exact ⟨L', dists, costs, h, h1, h2, h3, h4, h5, (h6 3 3 (by decide) (by decide)).1⟩

/-- Claim C19 fails as stated: a layer whose kernel was built for radius 1 and whose
radius is then 0 keeps both tables through `computeCaches`. -/
theorem computeCaches_keeps_stale_kernel :
    staleKernelLayer.cell_inflation_radius_ = 0 ∧
    (computeCaches exampleCost staleKernelLayer).map
      (fun L' => (L'.cached_distances_.isSome, L'.cached_costs_.isSome)) = .ok (true, true) :=
  ⟨rfl, rfl⟩

/-- Claim C19, as amended. With `cell_inflation_radius_ = 0`, `computeCaches`
allocates nothing and changes nothing: every layer state is returned as it was,
so the tables are absent afterwards exactly when they were absent before (as on
a constructed layer). -/
theorem computeCaches_radius_zero (cc : Nat → Nat) (L : InflationLayer)
    (h : L.cell_inflation_radius_ = 0) :
    computeCaches cc L = .ok L ∧
    computeCaches cc (layerOfRadius 0) = .ok (layerOfRadius 0) ∧
    (layerOfRadius 0).cached_distances_ = none ∧ (layerOfRadius 0).cached_costs_ = none := by
  refine ⟨?_, rfl, rfl, rfl⟩
  unfold computeCaches
  rw [if_pos h]

theorem computeCaches_radius_zero_witness :
    computeCaches exampleCost staleKernelLayer = .ok staleKernelLayer :=
  (computeCaches_radius_zero exampleCost staleKernelLayer rfl).1
/-- Claim C11. Reconfiguration forces re-inflation: for every layer state, a call
`setInflationParameters (r, w)` with `r` or `w` different from the stored value
stores both, sets `cell_inflation_radius_ = cellDistance (r)` and
`need_reinflation_`, so the next `updateBounds` returns the full-grid bounds: this
holds of every state the call returns, and the call returns unless
`cellDistance (r)` is `2^32 - 2`, the one radius whose sum `r + 2` wraps to 0 in
`computeCaches`. With both values equal to the stored ones the layer is returned
unchanged. -/
theorem setInflationParameters_spec (costModel : ℚ → ℚ → ℚ → Nat → Nat)
    (cellDistance : ℚ → Nat) (L : InflationLayer) (r w : ℚ) (hk : KernelInv L) :
    (L.weight_ ≠ w ∨ L.inflation_radius_ ≠ r →
      (cellDistance r ≠ 4294967294 →
        ∃ L', setInflationParameters costModel cellDistance L r w = .ok L' ∧
          L'.inflation_radius_ = r ∧ L'.weight_ = w ∧
          L'.cell_inflation_radius_ = cellDistance r ∧ L'.need_reinflation_ = true ∧
          ∀ b : Bounds, (updateBounds L' b).2 =
            { min_x := -FLT_MAX, min_y := -FLT_MAX, max_x := FLT_MAX, max_y := FLT_MAX }) ∧
      ∀ L', setInflationParameters costModel cellDistance L r w = .ok L' →
        L'.inflation_radius_ = r ∧ L'.weight_ = w ∧
        L'.cell_inflation_radius_ = cellDistance r ∧ L'.need_reinflation_ = true ∧
        ∀ b : Bounds, (updateBounds L' b).2 =
          { min_x := -FLT_MAX, min_y := -FLT_MAX, max_x := FLT_MAX, max_y := FLT_MAX }) ∧
    (L.weight_ = w ∧ L.inflation_radius_ = r →
      setInflationParameters costModel cellDistance L r w = .ok L) := by
  have key : L.weight_ ≠ w ∨ L.inflation_radius_ ≠ r →
      ∀ L', setInflationParameters costModel cellDistance L r w = .ok L' →
        L'.inflation_radius_ = r ∧ L'.weight_ = w ∧
        L'.cell_inflation_radius_ = cellDistance r ∧ L'.need_reinflation_ = true ∧
        ∀ b : Bounds, (updateBounds L' b).2 =
          { min_x := -FLT_MAX, min_y := -FLT_MAX, max_x := FLT_MAX, max_y := FLT_MAX } := by
    intro hne L' h
    have hframe := setInflationParameters_returned costModel cellDistance L L' r w hne h
    have hn : L'.need_reinflation_ = true := by rw [hframe]
    refine ⟨by rw [hframe], by rw [hframe], by rw [hframe], hn, fun b => ?_⟩
    rw [updateBounds_then L' b hn]
  constructor
  · intro hne
    refine ⟨fun hw => ?_, key hne⟩
    obtain ⟨L', h, _⟩ := setInflationParameters_changed costModel cellDistance L r w hk hne hw
    exact ⟨L', h, key hne L' h⟩
  · intro ⟨hw, hr⟩
    exact setInflationParameters_same costModel cellDistance L r w hw hr

theorem setInflationParameters_spec_witness :
    ∃ L', setInflationParameters exampleModel (cellDistanceAt (1 / 100))
        { InflationLayer.new with inflation_radius_ := 55 / 100, weight_ := 10 }
        (110 / 100) 10 = .ok L' ∧
      L'.inflation_radius_ = 110 / 100 ∧ L'.weight_ = 10 ∧
      L'.cell_inflation_radius_ = cellDistanceAt (1 / 100) (110 / 100) ∧
      L'.need_reinflation_ = true ∧
      ∀ b : Bounds, (updateBounds L' b).2 =
        { min_x := -FLT_MAX, min_y := -FLT_MAX, max_x := FLT_MAX, max_y := FLT_MAX } :=
  ((setInflationParameters_spec exampleModel (cellDistanceAt (1 / 100))
    { InflationLayer.new with inflation_radius_ := 55 / 100, weight_ := 10 }
    (110 / 100) 10 kernelInv_new).1 (Or.inr (by norm_num))).1
    (by rw [cellDistanceAt_example.1]; decide)

/-- Claim C15. The configured parameters reach member state on first init: on a
constructed layer (stored radius and weight 0, no kernel; the members that the
constructor leaves unset are arbitrary) and for every configured pair `(r, w)` not
both zero, `onInitialize` leaves `inflation_radius_ = r`, `weight_ = w`,
`cell_inflation_radius_ = cellDistance (r)` and `need_reinflation_` set: the
locals that shadow the members are handed to `setInflationParameters`, whose test
against the stored zeros succeeds. This holds of every state the call returns,
and the call returns unless `cellDistance (0)` or `cellDistance (r)` is
`2^32 - 2`, the one radius whose sum `r + 2` wraps to 0 in `computeCaches`. -/
theorem onInitialize_stores_parameters (costModel : ℚ → ℚ → ℚ → Nat → Nat)
    (cellDistance : ℚ → Nat) (fresh : Nat → Bool) (g : Costmap2D) (L : InflationLayer)
    (r w : ℚ) (hr0 : L.inflation_radius_ = 0) (hw0 : L.weight_ = 0) (hk : KernelInv L)
    (hrw : r ≠ 0 ∨ w ≠ 0) :
    (cellDistance 0 ≠ 4294967294 → cellDistance r ≠ 4294967294 →
      ∃ L', onInitialize costModel cellDistance fresh g L r w = .ok L' ∧
        L'.inflation_radius_ = r ∧ L'.weight_ = w ∧
        L'.cell_inflation_radius_ = cellDistance r ∧ L'.need_reinflation_ = true) ∧
    ∀ L', onInitialize costModel cellDistance fresh g L r w = .ok L' →
      L'.inflation_radius_ = r ∧ L'.weight_ = w ∧
      L'.cell_inflation_radius_ = cellDistance r ∧ L'.need_reinflation_ = true := by
  have key : ∀ L', onInitialize costModel cellDistance fresh g L r w = .ok L' →
      L'.inflation_radius_ = r ∧ L'.weight_ = w ∧
      L'.cell_inflation_radius_ = cellDistance r ∧ L'.need_reinflation_ = true := by
    intro L' h
    unfold onInitialize at h
    simp only at h
    split at h
    · cases h
    · rename_i L2 h2
      obtain ⟨hw2, hr2⟩ := matchSize_returned costModel cellDistance fresh g _ L2 h2
      have hne : L2.weight_ ≠ w ∨ L2.inflation_radius_ ≠ r := by
        rw [hw2, hr2]
        show L.weight_ ≠ w ∨ L.inflation_radius_ ≠ r
        rw [hw0, hr0]
        rcases hrw with h | h
        · exact Or.inr (fun h0 => h h0.symm)
        · exact Or.inl (fun h0 => h h0.symm)
      have hframe := setInflationParameters_returned costModel cellDistance L2 L' r w hne h
      exact ⟨by rw [hframe], by rw [hframe], by rw [hframe], by rw [hframe]⟩
  refine ⟨fun hc0 hcr => ?_, key⟩
  have hk1 : KernelInv
      { L with seen_ := none, seen_size_ := 0,
               need_reinflation_ := false, enabled_ := true } := hk
  obtain ⟨L2, h2, hk2⟩ := matchSize_inv costModel cellDistance fresh g _ hk1
    (by show cellDistance L.inflation_radius_ ≠ 4294967294; rw [hr0]; exact hc0)
  obtain ⟨hw2, hr2⟩ := matchSize_returned costModel cellDistance fresh g _ L2 h2
  have hne : L2.weight_ ≠ w ∨ L2.inflation_radius_ ≠ r := by
    rw [hw2, hr2]
    show L.weight_ ≠ w ∨ L.inflation_radius_ ≠ r
    rw [hw0, hr0]
    rcases hrw with h | h
    · exact Or.inr (fun h0 => h h0.symm)
    · exact Or.inl (fun h0 => h h0.symm)
  obtain ⟨L', h, _⟩ := setInflationParameters_changed costModel cellDistance L2 r w hk2 hne hcr
  have hres : onInitialize costModel cellDistance fresh g L r w = .ok L' := by
    unfold onInitialize
    simp only
    rw [h2]
    exact h
  exact ⟨L', hres, key L' hres⟩

theorem onInitialize_stores_parameters_witness :
    ∃ L', onInitialize exampleModel (cellDistanceAt (1 / 100)) (fun _ => true) singleObstacle
        InflationLayer.new (55 / 100) 10 = .ok L' ∧
      L'.inflation_radius_ = 55 / 100 ∧ L'.weight_ = 10 ∧
      L'.cell_inflation_radius_ = cellDistanceAt (1 / 100) (55 / 100) ∧
      L'.need_reinflation_ = true :=
  (onInitialize_stores_parameters exampleModel (cellDistanceAt (1 / 100)) (fun _ => true)
    singleObstacle InflationLayer.new (55 / 100) 10 rfl rfl kernelInv_new
    (Or.inr (by norm_num))).1
    (by rw [cellDistanceAt_example.2.2]; decide) (by rw [cellDistanceAt_example.2.1]; decide)

/-- Claim C16. Write rule of the wavefront. For every cell popped unseen, with old
value `o` and kernel cost `k`, the loop body stores `k` when `o = 255` and
`k ≥ 253`, and `max (o, k)` otherwise. Hence, for every grid, window, heap order
and built kernel of radius `r ≥ 1`, the call returns and a no-information cell
4-adjacent to a lethal cell of the widened window ends as the inflation cost of
distance 1 when that cost is at least 253 and stays 255 when it is below; and
every no-information cell ends as 255 or as a kernel cost of at least 253. -/
theorem updateCosts_write_rule (tie : Nat → Nat) (cc : Nat → Nat) (L : InflationLayer)
    (g : Costmap2D) (min_i min_j max_i max_j : Int) (hg : g.WellFormed)
    (hk : KernelBuilt cc L) (hs : SeenSized L) (hq : L.inflation_queue_ = [])
    (hen : L.enabled_ = true) :
    (∀ (size_x size_y : Nat) (cur : CellData) (L0 L1 : InflationLayer)
        (master master1 : List Nat) (seen : List Bool),
      L0.seen_ = some seen → seen[cur.index_]? = some false →
      visit size_x size_y cur L0 master = .ok (L1, master1) →
      ∃ o k, master[cur.index_]? = some o ∧
        costLookup L0 cur.x_ cur.y_ cur.src_x_ cur.src_y_ = .ok k ∧
        master1[cur.index_]? = some (if o = 255 ∧ 253 ≤ k then k else max o k)) ∧
    ∃ L' g', updateCosts tie L g min_i min_j max_i max_j = .ok (L', g') ∧
      (∀ a b x y : Nat,
        IsSeed g (expandLo min_i L.cell_inflation_radius_)
          (expandHi g.size_x_ max_i L.cell_inflation_radius_)
          (expandLo min_j L.cell_inflation_radius_)
          (expandHi g.size_y_ max_j L.cell_inflation_radius_) a b →
        Adjacent a b x y → x < g.size_x_ → y < g.size_y_ →
        g.getCost x y = some NO_INFORMATION →
        g'.getCost x y = some (if 253 ≤ cc 1 % 256 then cc 1 % 256 else 255)) ∧
      (∀ x y : Nat, x < g.size_x_ → y < g.size_y_ → g.getCost x y = some NO_INFORMATION →
        g'.getCost x y = some 255 ∨
        ∃ a b k, tableAt L.cached_costs_ (absDiff x a) (absDiff y b) = .ok k ∧ 253 ≤ k ∧
          g'.getCost x y = some k) := by
  constructor
  · intro size_x size_y cur L0 L1 master master1 seen hseen hf hv
    obtain ⟨o, k, ho, hk', _, hm⟩ := visit_write hseen hf hv
    exact ⟨o, k, ho, hk', by rw [hm, writeRule_eq]⟩
  · have ht : ∃ out, updateCosts tie L g min_i min_j max_i max_j = .ok out :=
      updateCosts_total min_i min_j max_i max_j hg (kernelBuilt_sound hk)
        (kernelBuilt_covers hk) hs hq
    obtain ⟨⟨L', g'⟩, h⟩ := ht
    refine ⟨L', g', h, ?_, ?_⟩
    · intro a b x y hseed hadj hx hy hno
      obtain ⟨k, old, hk', ho, hn⟩ := updateCosts_next_to_seed hg (kernelBuilt_sound hk) hen
        hk.1 h hseed hadj hx hy (by rw [hno]; decide)
      rw [hno] at ho
      cases ho
      rw [hn, kernelBuilt_unit hk hk', writeRule_eq]
      have hb : cc 1 % 256 < 256 := Nat.mod_lt _ (by decide)
      by_cases h3 : 253 ≤ cc 1 % 256
      · rw [if_pos h3, if_pos ⟨rfl, h3⟩]
      · rw [if_neg h3, if_neg (fun hh => h3 hh.2)]
        congr 1
        unfold NO_INFORMATION
        omega
    · intro x y hx hy hno
      rcases updateCosts_cell hg (kernelBuilt_sound hk) h hx hy with
        h1 | ⟨a, b, cost, old, _, _, hcost, ho, hn⟩
      · left
        rw [h1, hno]
        rfl
      · rw [hno] at ho
        cases ho
        have hb : cost < 256 := by
          rw [kernelBuilt_cost hk hcost]
          exact Nat.mod_lt _ (by decide)
        rw [writeRule_eq] at hn
        by_cases h3 : 253 ≤ cost
        · right
          rw [if_pos ⟨rfl, h3⟩] at hn
          exact ⟨a, b, cost, hcost, h3, hn⟩
        · left
          rw [if_neg (fun hh => h3 hh.2)] at hn
          rw [hn]
          congr 1
          unfold NO_INFORMATION
          omega

theorem updateCosts_write_rule_witness :
    ∃ L' g', updateCosts (fun _ => 0) steepLayer unknownRow 0 0 3 1 = .ok (L', g') ∧
      unknownRow.getCost 0 0 = some 255 ∧ g'.getCost 0 0 = some 253 := by
  obtain ⟨L', g', h, hadj, _⟩ := (updateCosts_write_rule (fun _ => 0) steepCost steepLayer
    unknownRow 0 0 3 1 (by decide) steepLayer_built (seenSized_of_null rfl) rfl rfl).2
  exact ⟨L', g', h, rfl, hadj 1 0 0 0 (by decide) (Or.inl ⟨rfl, rfl⟩) (by decide) (by decide) rfl⟩

/-- Claim C20. For every grid, window, heap order and built kernel of radius
`r ≥ 1` whose costs are at most 254 (whatever its entry `[0][0]`), `updateCosts`
returns, keeps every lethal (254) cell lethal and lowers the cost of no cell,
except that a no-information (255) cell may become 253 or 254. -/
theorem updateCosts_never_lowers (tie : Nat → Nat) (cc : Nat → Nat) (L : InflationLayer)
    (g : Costmap2D) (min_i min_j max_i max_j : Int) (hg : g.WellFormed)
    (hk : KernelBuilt cc L) (hs : SeenSized L) (hq : L.inflation_queue_ = [])
    (hc : ∀ i j v, tableAt L.cached_costs_ i j = .ok v → v ≤ 254) :
    ∃ L' g', updateCosts tie L g min_i min_j max_i max_j = .ok (L', g') ∧
      ∀ x y : Nat, x < g.size_x_ → y < g.size_y_ →
        ∃ old new, g.getCost x y = some old ∧ g'.getCost x y = some new ∧
          (old = 254 → new = 254) ∧
          (old ≤ new ∨ (old = 255 ∧ (new = 253 ∨ new = 254))) := by
  have ht : ∃ out, updateCosts tie L g min_i min_j max_i max_j = .ok out :=
    updateCosts_total min_i min_j max_i max_j hg (kernelBuilt_sound hk)
      (kernelBuilt_covers hk) hs hq
  obtain ⟨⟨L', g'⟩, h⟩ := ht
  refine ⟨L', g', h, ?_⟩
  intro x y hx hy
  rcases updateCosts_cell hg (kernelBuilt_sound hk) h hx hy with
    h1 | ⟨a, b, cost, old, _, _, hcost, ho, hn⟩
  · obtain ⟨old, ho⟩ := getCost_some hg hx hy
    exact ⟨old, old, ho, by rw [h1, ho], fun e => e, Or.inl (le_refl _)⟩
  · have hle := hc _ _ _ hcost
    refine ⟨old, writeRule old cost, ho, hn, ?_, ?_⟩
    · intro e
      subst e
      rw [writeRule_eq, if_neg (by omega)]
      omega
    · rw [writeRule_eq]
      by_cases h3 : old = 255 ∧ 253 ≤ cost
      · rw [if_pos h3]
        right
        exact ⟨h3.1, by omega⟩
      · rw [if_neg h3]
        left
        exact le_max_left _ _

theorem updateCosts_never_lowers_witness :
    ∃ L' g', updateCosts (fun _ => 0) (exampleLayer 1) unknownRow 0 0 3 1 = .ok (L', g') ∧
      ∀ x y : Nat, x < unknownRow.size_x_ → y < unknownRow.size_y_ →
        ∃ old new, unknownRow.getCost x y = some old ∧ g'.getCost x y = some new ∧
          (old = 254 → new = 254) ∧
          (old ≤ new ∨ (old = 255 ∧ (new = 253 ∨ new = 254))) :=
  updateCosts_never_lowers (fun _ => 0) exampleCost (exampleLayer 1) unknownRow 0 0 3 1
    (by decide) (exampleLayer_built 1 (by decide)) (seenSized_of_null rfl) rfl
    (fun i j v hv => by
      rw [kernelBuilt_cost (exampleLayer_built 1 (by decide)) hv]
      exact exampleCost_le _)

/-- Claim C17. For every grid, window, heap order and built kernel of radius
`r ≥ 1`, the wavefront loop of `updateCosts` terminates: the call returns, with
`inflation_queue_` empty, and the indices it assigns in the master grid are
pairwise distinct (each cell is written at most once; a cell not among them keeps
its value). Hence in every sequence of calls on such a layer every call is reached,
finds the queue empty at its `assert`, and returns. -/
theorem updateCosts_terminates (tie : Nat → Nat) (cc : Nat → Nat) (L : InflationLayer)
    (g : Costmap2D) (min_i min_j max_i max_j : Int) (hg : g.WellFormed)
    (hk : KernelBuilt cc L) (hs : SeenSized L) (hq : L.inflation_queue_ = []) :
    (∃ L' g', updateCosts tie L g min_i min_j max_i max_j = .ok (L', g') ∧
      L'.inflation_queue_ = [] ∧
      (updateCostsWrites tie L g min_i min_j max_i max_j).Nodup ∧
      ∀ i, i ∉ updateCostsWrites tie L g min_i min_j max_i max_j →
        g'.costmap_[i]? = g.costmap_[i]?) ∧
    ∀ calls : List UpdateCall, (∀ c ∈ calls, c.master_grid.WellFormed) →
      (∃ L', updateCostsSeq L calls = .ok L' ∧ L'.inflation_queue_ = []) ∧
      (queuesAtEntry L calls).length = calls.length ∧
      ∀ q ∈ queuesAtEntry L calls, q = [] := by
  constructor
  · have ht : ∃ out, updateCosts tie L g min_i min_j max_i max_j = .ok out :=
      updateCosts_total min_i min_j max_i max_j hg (kernelBuilt_sound hk)
        (kernelBuilt_covers hk) hs hq
    obtain ⟨⟨L', g'⟩, h⟩ := ht
    exact ⟨L', g', h, (updateCosts_frame h).2.2 hq, updateCostsWrites_nodup _ _ _ _ _ _ _,
      updateCostsWrites_complete h⟩
  · intro calls hcalls
    obtain ⟨L', h, hq', _⟩ := updateCostsSeq_total cc calls L hcalls hk hs hq
    exact ⟨⟨L', h, hq'⟩, queuesAtEntry_length cc calls L hcalls hk hs hq,
      queuesAtEntry_empty calls L hq⟩

theorem updateCosts_terminates_witness :
    (∃ L' g', updateCosts (fun _ => 0) (exampleLayer 1) rowOfThree 0 0 3 1 = .ok (L', g') ∧
      L'.inflation_queue_ = [] ∧
      (updateCostsWrites (fun _ => 0) (exampleLayer 1) rowOfThree 0 0 3 1).Nodup ∧
      ∀ i, i ∉ updateCostsWrites (fun _ => 0) (exampleLayer 1) rowOfThree 0 0 3 1 →
        g'.costmap_[i]? = rowOfThree.costmap_[i]?) ∧
    (∃ L', updateCostsSeq (exampleLayer 1) twoCalls = .ok L' ∧ L'.inflation_queue_ = []) ∧
    (queuesAtEntry (exampleLayer 1) twoCalls).length = 2 ∧
    ∀ q ∈ queuesAtEntry (exampleLayer 1) twoCalls, q = [] := by
  have h := updateCosts_terminates (fun _ => 0) exampleCost (exampleLayer 1) rowOfThree 0 0 3 1
    (by decide) (exampleLayer_built 1 (by decide)) (seenSized_of_null rfl) rfl
  refine ⟨h.1, h.2 twoCalls ?_⟩
  intro c hc
  simp only [twoCalls, List.mem_cons, List.mem_singleton, List.not_mem_nil, or_false] at hc
  rcases hc with rfl | rfl <;> decide

/-- Claim C12. A tick is skipped on transform failure: `getRobotPose` returns
false exactly when the `BASE_ODOM_TF` call fails, or its result is false, or the
`ODOM_MAP_TF` call fails, or its result is false; and then `updateMap` returns the
wrapper as it was (master grid, stored footprint and all other members), whatever
`layered_costmap->updateMap` would do, which it does not call. On success the
master grid is the one `layered_costmap->updateMap` leaves. -/
theorem updateMap_skips_tick {T : Type} (compose : T → T → Pose)
    (odom_transform map_transform : TransformReply T) :
    (getRobotPose compose odom_transform map_transform = none ↔
      (odom_transform.call = false ∨ odom_transform.result = false ∨
        map_transform.call = false ∨ map_transform.result = false)) ∧
    (getRobotPose compose odom_transform map_transform = none →
      ∀ (layeredUpdateMap : Costmap2D → ℚ → ℚ → ℚ → Costmap2D) (cos sin : ℚ → ℚ)
        (w : CostmapWrapper),
        updateMap compose layeredUpdateMap cos sin odom_transform map_transform w = w) ∧
    (∀ pose, getRobotPose compose odom_transform map_transform = some pose →
      ∀ (layeredUpdateMap : Costmap2D → ℚ → ℚ → ℚ → Costmap2D) (cos sin : ℚ → ℚ)
        (w : CostmapWrapper),
        (updateMap compose layeredUpdateMap cos sin odom_transform map_transform w).costmap =
          layeredUpdateMap w.costmap pose.x pose.y pose.yaw) := by
  refine ⟨?_, ?_, ?_⟩
  · unfold getRobotPose
    constructor
    · intro h
      by_cases h1 : odom_transform.call = false
      · exact Or.inl h1
      · by_cases h2 : odom_transform.result = false
        · exact Or.inr (Or.inl h2)
        · by_cases h3 : map_transform.call = false
          · exact Or.inr (Or.inr (Or.inl h3))
          · by_cases h4 : map_transform.result = false
            · exact Or.inr (Or.inr (Or.inr h4))
            · rw [if_neg h1, if_neg h2, if_neg h3, if_neg h4] at h
              cases h
    · intro h
      by_cases h1 : odom_transform.call = false
      · rw [if_pos h1]
      · rw [if_neg h1]
        by_cases h2 : odom_transform.result = false
        · rw [if_pos h2]
        · rw [if_neg h2]
          by_cases h3 : map_transform.call = false
          · rw [if_pos h3]
          · rw [if_neg h3]
            by_cases h4 : map_transform.result = false
            · rw [if_pos h4]
            · rcases h with h | h | h | h
              · exact absurd h h1
              · exact absurd h h2
              · exact absurd h h3
              · exact absurd h h4
  · intro h layeredUpdateMap cos sin w
    unfold updateMap
    rw [h]
  · intro pose h layeredUpdateMap cos sin w
    unfold updateMap
    rw [h]
    rfl

theorem updateMap_skips_tick_witness :
    getRobotPose poseAhead badReply goodReply = none ∧
    updateMap poseAhead floodGrid (fun _ => 1) (fun _ => 0) badReply goodReply squareWrapper =
      squareWrapper :=
  ⟨(updateMap_skips_tick poseAhead badReply goodReply).1.2 (Or.inr (Or.inl rfl)),
   (updateMap_skips_tick poseAhead badReply goodReply).2.1 rfl floodGrid (fun _ => 1)
     (fun _ => 0) squareWrapper⟩

/-- Claim C18 fails in the code. A successful `updateMap` hands the world-frame
polygon to `setPaddedRobotFootprint`: at the pose `(5, 0)` with yaw 0 and without
padding, the stored square `(±1, ±1)` becomes the square around `(5, 0)`, the
layered costmap is handed that polygon, and the next tick at the same pose moves
it once more, to the square around `(10, 0)`. -/
theorem updateMap_moves_footprint (cos sin : ℚ → ℚ) (hcos : cos 0 = 1) (hsin : sin 0 = 0) :
    squareWrapper.padded_footprint = squareFootprint ∧
    (updateMap poseAhead (fun g _ _ _ => g) cos sin goodReply goodReply
        squareWrapper).padded_footprint =
      [{ x := 6, y := 1 }, { x := 6, y := -1 }, { x := 4, y := -1 }, { x := 4, y := 1 }] ∧
    (updateMap poseAhead (fun g _ _ _ => g) cos sin goodReply goodReply
        squareWrapper).layered_footprint =
      [{ x := 6, y := 1 }, { x := 6, y := -1 }, { x := 4, y := -1 }, { x := 4, y := 1 }] ∧
    (updateMap poseAhead (fun g _ _ _ => g) cos sin goodReply goodReply
        (updateMap poseAhead (fun g _ _ _ => g) cos sin goodReply goodReply
          squareWrapper)).padded_footprint =
      [{ x := 11, y := 1 }, { x := 11, y := -1 }, { x := 9, y := -1 }, { x := 9, y := 1 }] := by
  refine ⟨rfl, ?_, ?_, ?_⟩ <;>
    simp [updateMap, getRobotPose, goodReply, poseAhead, setPaddedRobotFootprint,
      transformFootprint, padFootprint, padCoordinate, squareWrapper, squareFootprint,
      wrapperOf, hcos, hsin] <;> norm_num

theorem updateMap_moves_footprint_witness :
    (updateMap poseAhead (fun g _ _ _ => g) (fun _ => 1) (fun _ => 0) goodReply goodReply
        squareWrapper).padded_footprint =
      [{ x := 6, y := 1 }, { x := 6, y := -1 }, { x := 4, y := -1 }, { x := 4, y := 1 }] ∧
    squareWrapper.padded_footprint ≠
      [{ x := 6, y := 1 }, { x := 6, y := -1 }, { x := 4, y := -1 }, { x := 4, y := 1 }] :=
  ⟨(updateMap_moves_footprint (fun _ => 1) (fun _ => 0) rfl rfl).2.1, by decide⟩

/-- Claim C13 fails as stated: the inscribed cost 253 is published as 99, which
the reverse translation sends into `1..252` (to 252 under the linear map with 1 to
1 and 99 to 252); and 255 is published as -1, which comes back as 0 when unknown
space is not tracked. -/
theorem roundTrip_not_identity :
    roundTrip exampleLinear true (fun _ => 0) 253 = some 252 ∧
    roundTrip exampleLinear false (fun _ => 0) 253 = some 252 ∧
    roundTrip exampleLinear false (fun _ => 0) 255 = some 0 := by
  refine ⟨?_, ?_, ?_⟩ <;> rw [roundTrip_eq _ _ _ _ (by decide)] <;> rfl

/-- Claim C13, as amended. Forward then reverse translation is the identity on 0
and on 254, and on 255 exactly when unknown space is tracked (255 comes back as 0
otherwise); 253 is published as 99 and comes back as the image of 99 under the
linear map, a cost in `1..252` and never 253. This holds for every linear map of
`1..99` into `1..252` and whatever the table allocation held. -/
theorem roundTrip_reserved (linear : Int → Nat) (track_unknown_space : Bool)
    (fresh : Nat → Int)
    (hlin : ∀ v : Int, 1 ≤ v → v ≤ 99 → 1 ≤ linear v ∧ linear v ≤ 252) :
    roundTrip linear track_unknown_space fresh 0 = some 0 ∧
    roundTrip linear track_unknown_space fresh 254 = some 254 ∧
    roundTrip linear track_unknown_space fresh 255 =
      some (if track_unknown_space = true then 255 else 0) ∧
    roundTrip linear track_unknown_space fresh 253 = some (linear 99) ∧
    1 ≤ linear 99 ∧ linear 99 ≤ 252 ∧
    roundTrip linear track_unknown_space fresh 253 ≠ some 253 := by
  have h99 := hlin 99 (by decide) (by decide)
  have h253 : roundTrip linear track_unknown_space fresh 253 = some (linear 99) := by
    rw [roundTrip_eq _ _ _ _ (by decide)]
    rfl
  refine ⟨?_, ?_, ?_, h253, h99.1, h99.2, ?_⟩
  · rw [roundTrip_eq _ _ _ _ (by decide)]
    rfl
  · rw [roundTrip_eq _ _ _ _ (by decide)]
    rfl
  · rw [roundTrip_eq _ _ _ _ (by decide)]
    rfl
  · rw [h253]
    intro h
    have := Option.some.inj h
    omega

theorem roundTrip_reserved_witness :
    roundTrip exampleLinear true (fun _ => 0) 0 = some 0 ∧
    roundTrip exampleLinear true (fun _ => 0) 254 = some 254 ∧
    roundTrip exampleLinear true (fun _ => 0) 255 = some (if true = true then 255 else 0) ∧
    roundTrip exampleLinear true (fun _ => 0) 253 = some (exampleLinear 99) ∧
    1 ≤ exampleLinear 99 ∧ exampleLinear 99 ≤ 252 ∧
    roundTrip exampleLinear true (fun _ => 0) 253 ≠ some 253 :=
  roundTrip_reserved exampleLinear true (fun _ => 0) exampleLinear_range

/-- Claim C21. The forward cost translation table of the `CostmapWrapper`
constructor is order-preserving on known costs, whatever the allocation held
before: for all internal costs `a ≤ b ≤ 254`, `table[a] ≤ table[b]`; every graded
cost `i` in `1..252` is published within `1..98` (1 as 1, 252 as 98), strictly
below inscribed (`table[253] = 99`) and lethal (`table[254] = 100`) and strictly
above free (`table[0] = 0`). -/
theorem makeTranslationTable_monotone (fresh : Nat → Int) :
    (∀ a b : Nat, a ≤ b → b ≤ 254 →
      ∃ ta tb, (makeTranslationTable fresh)[a]? = some ta ∧
        (makeTranslationTable fresh)[b]? = some tb ∧ ta ≤ tb) ∧
    (∀ i : Nat, 1 ≤ i → i ≤ 252 →
      ∃ t free inscribed lethal, (makeTranslationTable fresh)[i]? = some t ∧
        (makeTranslationTable fresh)[0]? = some free ∧
        (makeTranslationTable fresh)[253]? = some inscribed ∧
        (makeTranslationTable fresh)[254]? = some lethal ∧
        1 ≤ t ∧ t ≤ 98 ∧ free < t ∧ t < inscribed ∧ t < lethal) ∧
    (makeTranslationTable fresh)[1]? = some 1 ∧
    (makeTranslationTable fresh)[252]? = some 98 := by
  refine ⟨?_, ?_, ?_, ?_⟩
  · intro a b hab hb
    exact ⟨forward a, forward b, makeTranslationTable_getElem? fresh a (by omega),
      makeTranslationTable_getElem? fresh b (by omega), forward_mono a b hab hb⟩
  · intro i h1 h2
    obtain ⟨_, hlo, hhi⟩ := forward_graded i h1 h2
    refine ⟨forward i, 0, 99, 100, makeTranslationTable_getElem? fresh i (by omega),
      makeTranslationTable_getElem? fresh 0 (by omega),
      makeTranslationTable_getElem? fresh 253 (by omega),
      makeTranslationTable_getElem? fresh 254 (by omega), hlo, hhi, ?_, ?_, ?_⟩ <;> omega
  · rw [makeTranslationTable_getElem? fresh 1 (by omega)]; rfl
  · rw [makeTranslationTable_getElem? fresh 252 (by omega)]; rfl

theorem makeTranslationTable_monotone_witness :
    ∃ ta tb, (makeTranslationTable fun _ => 7)[126]? = some ta ∧
      (makeTranslationTable fun _ => 7)[253]? = some tb ∧ ta ≤ tb :=
  (makeTranslationTable_monotone fun _ => 7).1 126 253 (by decide) (by decide)

end NS_CostMap
